import Mathlib

/-!
# BrewPi `EepromManager` : a shallow embedding

The persistence manager of `EepromManager.cpp` maps the temperature-control
constants/settings and the device table onto a fixed-layout EEPROM.

* The EEPROM is a map from byte addresses to byte values; every access that
  goes through `eepromAccess` is appended to a trace.
* `eptr_t` and `size_t` are 16 bits wide on the AVR target, so every offset
  expression of the source is reduced `% 65536`; `uint8_t` counters wrap
  `% 256`.
* The headers (`EepromFormat.h`, `DeviceManager.h`, `TempControl.h`, ...) fix
  compile-time constants and struct layouts; they are the fields of `Config`.
* Loops whose counter can wrap take a `fuel` argument and return `none` when
  the fuel runs out.
* A `DeviceConfig`, `ControlConstants` or `ControlSettings` object is its byte
  image (a list of bytes); an uninitialised local is an argument of the function
  that declares it.
* The collaborators (`eepromAccess`, `tempControl`, `deviceManager`) live in other
  files; they are modelled at their interface. The device manager and
  `tempControl.init()` do not touch the store. `logDeveloper` is not modelled.
-/

namespace BrewPi

/-! ## Compile-time parameters -/

/-- The values `BREWPI_STATIC_CONFIG` is compared with in `saveDefaultDevices`. -/
inductive StaticConfig where
  | shieldRevA
  | shieldRevC
  | other
  deriving DecidableEq, Repr

/-- Compile-time constants and struct layout facts the source takes from its headers. -/
structure Config where
  /-- Source: `EepromFormat::MAX_EEPROM_SIZE` -/
  MAX_EEPROM_SIZE : Nat
  /-- Source: `EepromFormat::MAX_CHAMBERS` -/
  MAX_CHAMBERS : Nat
  /-- Source: `ChamberBlock::MAX_BEERS` -/
  MAX_BEERS : Nat
  /-- Source: `EepromFormat::MAX_DEVICES` -/
  MAX_DEVICES : Nat
  /-- Source: `EEPROM_FORMAT_VERSION` -/
  EEPROM_FORMAT_VERSION : Nat
  /-- Source: `pointerOffset(version)` -/
  offset_version : Nat
  /-- Source: `pointerOffset(chambers)` -/
  offset_chambers : Nat
  /-- Source: `pointerOffset(devices)` -/
  offset_devices : Nat
  /-- Source: `sizeof(ChamberBlock)` -/
  sizeof_ChamberBlock : Nat
  /-- Source: `sizeof(BeerBlock)` -/
  sizeof_BeerBlock : Nat
  /-- Source: `sizeof(DeviceConfig)` -/
  sizeof_DeviceConfig : Nat
  /-- Source: `sizeof(ControlConstants)` -/
  sizeof_ControlConstants : Nat
  /-- Source: `sizeof(ControlSettings)` -/
  sizeof_ControlSettings : Nat
  /-- Source: `offsetof(ChamberBlock, chamberSettings.cc)` -/
  offsetof_ChamberBlock_cc : Nat
  /-- Source: `offsetof(ChamberBlock, beer)` -/
  offsetof_ChamberBlock_beer : Nat
  /-- Source: `offsetof(BeerBlock, cs)` -/
  offsetof_BeerBlock_cs : Nat
  /-- Source: `BREWPI_SIMULATE` -/
  BREWPI_SIMULATE : Bool
  /-- Source: `BREWPI_STATIC_CONFIG` -/
  BREWPI_STATIC_CONFIG : StaticConfig
  /-- byte offset of `chamber` inside `DeviceConfig` -/
  field_chamber : Nat
  /-- byte offset of `beer` inside `DeviceConfig` -/
  field_beer : Nat
  /-- byte offset of `deviceFunction` inside `DeviceConfig` -/
  field_deviceFunction : Nat
  /-- byte offset of `deviceHardware` inside `DeviceConfig` -/
  field_deviceHardware : Nat
  /-- byte offset of `hw.pinNr` inside `DeviceConfig` -/
  field_hw_pinNr : Nat
  /-- byte offset of `hw.invert` inside `DeviceConfig` -/
  field_hw_invert : Nat
  DEVICE_HARDWARE_PIN : Nat
  DEVICE_HARDWARE_ONEWIRE_TEMP : Nat
  DEVICE_CHAMBER_DOOR : Nat
  DEVICE_CHAMBER_HEAT : Nat
  DEVICE_CHAMBER_COOL : Nat
  DEVICE_CHAMBER_TEMP : Nat
  DEVICE_BEER_TEMP : Nat
  doorPin : Nat
  heatingPin : Nat
  coolingPin : Nat
  fridgeSensorPin : Nat
  beerSensorPin : Nat

/-- Source: `offsetof(ChamberBlock, beer[0].cs)`, which C defines as
`offsetof(ChamberBlock, beer) + 0 * sizeof(BeerBlock) + offsetof(BeerBlock, cs)`. -/
def Config.offsetof_ChamberBlock_beer0_cs (L : Config) : Nat :=
  L.offsetof_ChamberBlock_beer + L.offsetof_BeerBlock_cs

/-- Struct layout facts a C compiler guarantees for `EepromFormat`, `ChamberBlock`
and `BeerBlock`, the `eepromSizeCheck()` of the constructor
(`sizeof(EepromFormat) <= MAX_EEPROM_SIZE`), and `MAX_EEPROM_SIZE` being a
16-bit value. -/
def Config.WellFormed (L : Config) : Prop :=
  L.offset_version = 0 ∧
  L.offset_version + 1 ≤ L.offset_chambers ∧
  L.offset_chambers + L.MAX_CHAMBERS * L.sizeof_ChamberBlock ≤ L.offset_devices ∧
  L.offset_devices + L.MAX_DEVICES * L.sizeof_DeviceConfig ≤ L.MAX_EEPROM_SIZE ∧
  L.MAX_EEPROM_SIZE ≤ 65535 ∧
  L.offsetof_ChamberBlock_cc + L.sizeof_ControlConstants ≤ L.offsetof_ChamberBlock_beer ∧
  L.offsetof_ChamberBlock_beer + L.MAX_BEERS * L.sizeof_BeerBlock ≤ L.sizeof_ChamberBlock ∧
  L.offsetof_BeerBlock_cs + L.sizeof_ControlSettings ≤ L.sizeof_BeerBlock

instance (L : Config) : Decidable L.WellFormed := by
  unfold Config.WellFormed; infer_instance

/-- A byte image: `n` bytes, each below 256. -/
def IsImage (n : Nat) (r : List Nat) : Prop :=
  r.length = n ∧ ∀ b ∈ r, b < 256

instance (n : Nat) (r : List Nat) : Decidable (IsImage n r) := by
  unfold IsImage; infer_instance

/-! ## Machine state -/

/-- What the persistence manager asks of the EEPROM and of its collaborators, in order. -/
inductive Event where
  | readByte (offset : Nat)
  | writeByte (offset value : Nat)
  | readBlock (offset size : Nat)
  | writeBlock (offset : Nat) (data : List Nat)
  | setupUnconfiguredDevices
  | isDeviceValid (deviceIndex : Nat) (config : List Nat) (result : Bool)
  | installDevice (deviceIndex : Nat) (config : List Nat)
  | loadDefaultConstants
  | loadDefaultSettings
  | loadConstants (offset : Nat)
  | loadSettings (offset : Nat)
  | tempControlInit
  deriving DecidableEq, Repr

/-- The live control algorithm: byte images of its `cc` (ControlConstants) and
`cs` (ControlSettings) members. -/
structure TempControl where
  cc : List Nat
  cs : List Nat
  deriving DecidableEq, Repr

/-- The EEPROM, the live collaborators, and the trace of calls made so far.
`D` is the device manager's own state. -/
structure Machine (D : Type) where
  eeprom : Nat → Nat
  tempControl : TempControl
  deviceManager : D
  trace : List Event

/-- The collaborators the source calls out to.  `isDeviceValid` is handed the
same record as `config` and as `original` and may rewrite it; `installDevice`
and `setupUnconfiguredDevices` act on the device manager's own state. -/
structure Collaborators (D : Type) where
  defaultConstants : List Nat
  defaultSettings : List Nat
  setupUnconfiguredDevices : D → D
  isDeviceValid : D → List Nat → Nat → Bool × List Nat × D
  installDevice : D → List Nat → D
  /-- the record `isDeviceValid` hands back is the same object: its size is unchanged -/
  isDeviceValid_length : ∀ d config i, (isDeviceValid d config i).2.1.length = config.length

variable {D : Type}

/-! ## The byte store -/

/-- Modelled from the spec: `EepromAccess::readByte` (declared outside this file)
returns the byte stored at `offset`. -/
def EepromAccess.readByte (m : Machine D) (offset : Nat) : Nat × Machine D :=
  (m.eeprom offset, { m with trace := m.trace ++ [Event.readByte offset] })

/-- Modelled from the spec: `EepromAccess::writeByte` (declared outside this file)
stores one byte at `offset`; the value is truncated to `uint8_t`. -/
def EepromAccess.writeByte (m : Machine D) (offset value : Nat) : Machine D :=
  { m with
    eeprom := fun a => if a = offset then value % 256 else m.eeprom a
    trace := m.trace ++ [Event.writeByte offset (value % 256)] }

/-- Modelled from the spec: `EepromAccess::readBlock` (declared outside this file)
copies the `size` contiguous bytes starting at `offset`. -/
def EepromAccess.readBlock (m : Machine D) (offset size : Nat) : List Nat × Machine D :=
  ((List.range size).map (fun k => m.eeprom (offset + k)),
   { m with trace := m.trace ++ [Event.readBlock offset size] })

/-- Modelled from the spec: `EepromAccess::writeBlock` (declared outside this file)
stores the first `size` bytes of `src` contiguously from `offset`. -/
def EepromAccess.writeBlock (m : Machine D) (offset : Nat) (src : List Nat) (size : Nat) :
    Machine D :=
  { m with
    eeprom := fun a =>
      if offset ≤ a ∧ a < offset + size then (src.getD (a - offset) 0) % 256 else m.eeprom a
    trace := m.trace ++
      [Event.writeBlock offset ((List.range size).map (fun k => (src.getD k 0) % 256))] }

/-! ## The control algorithm -/

/-- Modelled from the spec: `TempControl::loadDefaultConstants` (outside this file)
makes the default constants the live ones. -/
def TempControl.loadDefaultConstants (C : Collaborators D) (m : Machine D) : Machine D :=
  { m with
    tempControl := { m.tempControl with cc := C.defaultConstants }
    trace := m.trace ++ [Event.loadDefaultConstants] }

/-- Modelled from the spec: `TempControl::loadDefaultSettings` (outside this file)
makes the default settings the live ones. -/
def TempControl.loadDefaultSettings (C : Collaborators D) (m : Machine D) : Machine D :=
  { m with
    tempControl := { m.tempControl with cs := C.defaultSettings }
    trace := m.trace ++ [Event.loadDefaultSettings] }

/-- Modelled from the spec: `TempControl::storeConstants(offset)` (outside this file)
writes the live constants as one block at `offset`. -/
def TempControl.storeConstants (L : Config) (m : Machine D) (offset : Nat) : Machine D :=
  EepromAccess.writeBlock m offset m.tempControl.cc L.sizeof_ControlConstants

/-- Modelled from the spec: `TempControl::storeSettings(offset)` (outside this file)
writes the live settings as one block at `offset`. -/
def TempControl.storeSettings (L : Config) (m : Machine D) (offset : Nat) : Machine D :=
  EepromAccess.writeBlock m offset m.tempControl.cs L.sizeof_ControlSettings

/-- Modelled from the spec: `TempControl::loadConstants(offset)` (outside this file)
reads the block at `offset` into the live constants. -/
def TempControl.loadConstants (L : Config) (m : Machine D) (offset : Nat) : Machine D :=
  let r := EepromAccess.readBlock m offset L.sizeof_ControlConstants
  { r.2 with
    tempControl := { r.2.tempControl with cc := r.1 }
    trace := r.2.trace ++ [Event.loadConstants offset] }

/-- Modelled from the spec: `TempControl::loadSettings(offset)` (outside this file)
reads the block at `offset` into the live settings. -/
def TempControl.loadSettings (L : Config) (m : Machine D) (offset : Nat) : Machine D :=
  let r := EepromAccess.readBlock m offset L.sizeof_ControlSettings
  { r.2 with
    tempControl := { r.2.tempControl with cs := r.1 }
    trace := r.2.trace ++ [Event.loadSettings offset] }

/-- Modelled from the spec: `TempControl::init` (outside this file) restarts the
control algorithm's state machine; it touches neither the store nor `cc`/`cs`. -/
def TempControl.init (m : Machine D) : Machine D :=
  { m with trace := m.trace ++ [Event.tempControlInit] }

/-! ## The device manager -/

/-- Modelled from the spec: `DeviceManager::setupUnconfiguredDevices` (outside this file). -/
def DeviceManager.setupUnconfiguredDevices (C : Collaborators D) (m : Machine D) : Machine D :=
  { m with
    deviceManager := C.setupUnconfiguredDevices m.deviceManager
    trace := m.trace ++ [Event.setupUnconfiguredDevices] }

/-- Modelled from the spec: `DeviceManager::isDeviceValid(config, original, deviceIndex)`
(outside this file), called with `config` and `original` the same object.  Returns
the verdict and the record as the callee left it. -/
def DeviceManager.isDeviceValid (C : Collaborators D) (m : Machine D) (config : List Nat)
    (deviceIndex : Nat) : Bool × List Nat × Machine D :=
  let r := C.isDeviceValid m.deviceManager config deviceIndex
  (r.1, r.2.1,
   { m with
     deviceManager := r.2.2
     trace := m.trace ++ [Event.isDeviceValid deviceIndex config r.1] })

/-- Modelled from the spec: `DeviceManager::installDevice(config)` (outside this file).
The trace entry also records the slot the record came from. -/
def DeviceManager.installDevice (C : Collaborators D) (m : Machine D) (config : List Nat)
    (deviceIndex : Nat) : Machine D :=
  { m with
    deviceManager := C.installDevice m.deviceManager config
    trace := m.trace ++ [Event.installDevice deviceIndex config] }

/-! ## `EepromManager.cpp` -/

/-- Source: `for (uintN_t i = start; i < bound; i++) body(i)` with the counter wrapping at
`wrap = 2^N`; `none` when the fuel runs out or the body does. -/
def forLoop {σ : Type} (wrap bound : Nat) (body : Nat → σ → Option σ) :
    Nat → Nat → σ → Option σ
  | 0, _, _ => none
  | fuel + 1, i, s =>
    if i < bound then
      match body i s with
      | none => none
      | some s1 => forLoop wrap bound body fuel ((i + 1) % wrap) s1
    else some s

/-- Source: `void clear(uint8_t* p, uint8_t size) { while (size-->0) *p++ = 0; }` on the
buffer `p` points into. -/
def clear : List Nat → Nat → List Nat
  | p, 0 => p
  | [], _ + 1 => []
  | _ :: p, size + 1 => 0 :: clear p size

/-- Source: `void fill(int8_t* p, uint8_t size) { while (size-->0) *p++ = -1; }`; the byte
image of `(int8_t)-1` is `0xFF`. -/
def fill : List Nat → Nat → List Nat
  | p, 0 => p
  | [], _ + 1 => []
  | _ :: p, size + 1 => 0xFF :: fill p size

/-- Assignment to a one-byte member of a `DeviceConfig` at byte offset `field`. -/
def setField (config : List Nat) (field value : Nat) : List Nat :=
  config.set field (value % 256)

/-- Source: `EepromManager::hasSettings` -/
def hasSettings (L : Config) (m : Machine D) : Bool × Machine D :=
  let r := EepromAccess.readByte m L.offset_version
  (r.1 == L.EEPROM_FORMAT_VERSION, r.2)

/-- Source: `EepromManager::zapEeprom` -/
def zapEeprom (L : Config) (fuel : Nat) (m : Machine D) : Option (Machine D) :=
  forLoop 65536 L.MAX_EEPROM_SIZE
    (fun offset m1 => some (EepromAccess.writeByte m1 offset 0xFF)) fuel 0 m

/-- Source: `EepromManager::fetchDevice` (the `#if !BREWPI_SIMULATE` definition).  Returns
`ok`, the caller's record afterwards, and the machine. -/
def fetchDevice (L : Config) (m : Machine D) (config : List Nat) (deviceIndex : Nat) :
    Bool × List Nat × Machine D :=
  let h := hasSettings L m
  let ok := h.1 && decide (deviceIndex < L.MAX_DEVICES)
  if ok then
    let r := EepromAccess.readBlock h.2
      ((L.offset_devices + L.sizeof_DeviceConfig * deviceIndex) % 65536) L.sizeof_DeviceConfig
    (ok, r.1, r.2)
  else (ok, config, h.2)

/-- Source: `EepromManager::storeDevice` (the `#if !BREWPI_SIMULATE` definition). -/
def storeDevice (L : Config) (m : Machine D) (config : List Nat) (deviceIndex : Nat) :
    Bool × Machine D :=
  let h := hasSettings L m
  let ok := h.1 && decide (deviceIndex < L.MAX_DEVICES)
  if ok then
    (ok, EepromAccess.writeBlock h.2
      ((L.offset_devices + L.sizeof_DeviceConfig * deviceIndex) % 65536) config
      L.sizeof_DeviceConfig)
  else (ok, h.2)

/-- Source: `EepromManager::saveDefaultDevices`.  `config` is the uninitialised local
`DeviceConfig config;`.  Returns the number of devices and the machine. -/
def saveDefaultDevices (L : Config) (m : Machine D) (config : List Nat) : Nat × Machine D :=
  let config := clear config (L.sizeof_DeviceConfig % 256)
  match L.BREWPI_STATIC_CONFIG with
  | StaticConfig.shieldRevA =>
    let config := setField config L.field_chamber 1
    let config := setField config L.field_hw_invert 1
    let config := setField config L.field_deviceHardware L.DEVICE_HARDWARE_PIN
    let config := setField config L.field_deviceFunction L.DEVICE_CHAMBER_DOOR
    let config := setField config L.field_hw_pinNr L.doorPin
    let m := (storeDevice L m config 0).2
    let config := setField config L.field_deviceFunction L.DEVICE_CHAMBER_HEAT
    let config := setField config L.field_hw_pinNr L.heatingPin
    let m := (storeDevice L m config 1).2
    let config := setField config L.field_deviceFunction L.DEVICE_CHAMBER_COOL
    let config := setField config L.field_hw_pinNr L.coolingPin
    let m := (storeDevice L m config 2).2
    let config := setField config L.field_deviceHardware L.DEVICE_HARDWARE_ONEWIRE_TEMP
    let config := setField config L.field_hw_pinNr L.fridgeSensorPin
    let config := setField config L.field_deviceFunction L.DEVICE_CHAMBER_TEMP
    let m := (storeDevice L m config 3).2
    let config := setField config L.field_beer 1
    let config := setField config L.field_hw_pinNr L.beerSensorPin
    let config := setField config L.field_deviceFunction L.DEVICE_BEER_TEMP
    let m := (storeDevice L m config 4).2
    (5, m)
  | StaticConfig.shieldRevC => (0, m)
  | StaticConfig.other => (0, m)

/-- Body of the inner loop of `initializeEeprom`, on the pair `(pv, machine)`:
`tempControl.storeSettings(pv); pv += sizeof(BeerBlock);` -/
def initializeEeprom_beer (L : Config) (_b : Nat) (s : Nat × Machine D) :
    Option (Nat × Machine D) :=
  some ((s.1 + L.sizeof_BeerBlock) % 65536, TempControl.storeSettings L s.2 s.1)

/-- Body of the outer loop of `initializeEeprom` for chamber `c`. -/
def initializeEeprom_chamber (L : Config) (fuel : Nat) (c : Nat) (m : Machine D) :
    Option (Machine D) :=
  let pv := (L.offset_chambers + c * L.sizeof_ChamberBlock) % 65536
  let m := TempControl.storeConstants L m ((pv + L.offsetof_ChamberBlock_cc) % 65536)
  let pv := (pv + (L.offsetof_ChamberBlock_beer + L.offsetof_BeerBlock_cs)) % 65536
  match forLoop 256 L.MAX_BEERS (initializeEeprom_beer L) fuel 0 (pv, m) with
  | none => none
  | some s => some s.2

/-- Source: `EepromManager::initializeEeprom`.  `config` is the uninitialised local of
`saveDefaultDevices`. -/
def initializeEeprom (L : Config) (C : Collaborators D) (fuel : Nat) (m : Machine D)
    (config : List Nat) : Option (Machine D) :=
  match forLoop 65536 L.MAX_EEPROM_SIZE
      (fun offset m1 => some (EepromAccess.writeByte m1 offset 0)) fuel 0 m with
  | none => none
  | some m =>
    let m := DeviceManager.setupUnconfiguredDevices C m
    let m := TempControl.loadDefaultConstants C m
    let m := TempControl.loadDefaultSettings C m
    match forLoop 256 L.MAX_CHAMBERS (initializeEeprom_chamber L fuel) fuel 0 m with
    | none => none
    | some m =>
      let m := EepromAccess.writeByte m 0 L.EEPROM_FORMAT_VERSION
      let m := (saveDefaultDevices L m config).2
      some (TempControl.init m)

/-- The device loop of `applySettings`:
`for (uint8_t index = 0; fetchDevice(deviceConfig, index); index++) { ... }` -/
def applySettings_loop (L : Config) (C : Collaborators D) :
    Nat → Nat → List Nat → Machine D → Option (Machine D)
  | 0, _, _, _ => none
  | fuel + 1, index, deviceConfig, m =>
    let f := fetchDevice L m deviceConfig index
    if f.1 then
      let v := DeviceManager.isDeviceValid C f.2.2 f.2.1 index
      if v.1 then
        applySettings_loop L C fuel ((index + 1) % 256) v.2.1
          (DeviceManager.installDevice C v.2.2 v.2.1 index)
      else
        let deviceConfig := clear v.2.1 (L.sizeof_DeviceConfig % 256)
        applySettings_loop L C fuel ((index + 1) % 256) deviceConfig
          (storeDevice L v.2.2 deviceConfig index).2
    else some f.2.2

/-- The part of `applySettings` between the `hasSettings()` check and the device
loop: reset the devices, then load the one chamber and one beer. -/
def applySettings_load (L : Config) (C : Collaborators D) (m : Machine D) : Machine D :=
  let m := DeviceManager.setupUnconfiguredDevices C m
  let pv := L.offset_chambers % 65536
  let m := TempControl.loadConstants L m ((pv + L.offsetof_ChamberBlock_cc) % 65536)
  TempControl.loadSettings L m ((pv + L.offsetof_ChamberBlock_beer0_cs) % 65536)

/-- Source: `EepromManager::applySettings`.  `deviceConfig` is the uninitialised local
`DeviceConfig deviceConfig;`. -/
def applySettings (L : Config) (C : Collaborators D) (fuel : Nat) (m : Machine D)
    (deviceConfig : List Nat) : Option (Bool × Machine D) :=
  let h := hasSettings L m
  if !h.1 then some (false, h.2)
  else
    let m := applySettings_load L C h.2
    if !L.BREWPI_SIMULATE then
      match applySettings_loop L C fuel 0 deviceConfig m with
      | none => none
      | some m => some (true, m)
    else some (true, m)

/-- Source: `EepromManager::storeTempSettings` -/
def storeTempSettings (L : Config) (m : Machine D) : Machine D :=
  let chamber := 0
  let pv := L.offset_chambers % 65536
  let pv := (pv + L.sizeof_ChamberBlock * chamber) % 65536
  TempControl.storeSettings L m ((pv + L.offsetof_ChamberBlock_beer0_cs) % 65536)

/-- Source: `EepromManager::storeTempConstantsAndSettings` -/
def storeTempConstantsAndSettings (L : Config) (m : Machine D) : Machine D :=
  let chamber := 0
  let pv := L.offset_chambers % 65536
  let pv := (pv + L.sizeof_ChamberBlock * chamber) % 65536
  let m := TempControl.storeConstants L m ((pv + L.offsetof_ChamberBlock_cc) % 65536)
  storeTempSettings L m

/-- The events a call of `applySettings` appended to the trace (none if it does
not return). -/
def applySettings_events (L : Config) (C : Collaborators D) (fuel : Nat) (m : Machine D)
    (deviceConfig : List Nat) : List Event :=
  match applySettings L C fuel m deviceConfig with
  | none => []
  | some r => r.2.trace.drop m.trace.length

/-- The record stored in device slot `i`, read straight from the medium. -/
def storedDevice (L : Config) (m : Machine D) (i : Nat) : List Nat :=
  (List.range L.sizeof_DeviceConfig).map
    (fun k => m.eeprom (L.offset_devices + L.sizeof_DeviceConfig * i + k))

/-- Calls `storeDevice` on the records of a list, for consecutive slots from `start`. -/
def storeDevices (L : Config) (m : Machine D) : List (List Nat) → Nat → Machine D
  | [], _ => m
  | r :: rs, start => storeDevices L (storeDevice L m r start).2 rs (start + 1)

/-- The records `saveDefaultDevices` hands to `storeDevice` for the rev-A shield, in
call order. -/
def factoryPresetRevA (L : Config) : List (List Nat) :=
  let config := List.replicate L.sizeof_DeviceConfig 0
  let config := setField config L.field_chamber 1
  let config := setField config L.field_hw_invert 1
  let config := setField config L.field_deviceHardware L.DEVICE_HARDWARE_PIN
  let door := setField (setField config L.field_deviceFunction L.DEVICE_CHAMBER_DOOR)
    L.field_hw_pinNr L.doorPin
  let heat := setField (setField door L.field_deviceFunction L.DEVICE_CHAMBER_HEAT)
    L.field_hw_pinNr L.heatingPin
  let cool := setField (setField heat L.field_deviceFunction L.DEVICE_CHAMBER_COOL)
    L.field_hw_pinNr L.coolingPin
  let fridge := setField (setField (setField cool L.field_deviceHardware
    L.DEVICE_HARDWARE_ONEWIRE_TEMP) L.field_hw_pinNr L.fridgeSensorPin)
    L.field_deviceFunction L.DEVICE_CHAMBER_TEMP
  let beer := setField (setField (setField fridge L.field_beer 1)
    L.field_hw_pinNr L.beerSensorPin) L.field_deviceFunction L.DEVICE_BEER_TEMP
  [door, heat, cool, fridge, beer]

/-- The records `saveDefaultDevices` hands to `storeDevice`, in call order. -/
def factoryPreset (L : Config) : List (List Nat) :=
  match L.BREWPI_STATIC_CONFIG with
  | StaticConfig.shieldRevA => factoryPresetRevA L
  | StaticConfig.shieldRevC => []
  | StaticConfig.other => []

/-- Events that are accesses to the byte store. -/
def Event.isStoreAccess : Event → Bool
  | Event.readByte _ => true
  | Event.writeByte _ _ => true
  | Event.readBlock _ _ => true
  | Event.writeBlock _ _ => true
  | _ => false

/-- Device-manager events for a slot below `n` do not satisfy this; every other
event does. -/
def Event.slotAtLeast (n : Nat) : Event → Prop
  | Event.isDeviceValid i _ _ => n ≤ i
  | Event.installDevice i _ => n ≤ i
  | _ => True

/-! ## Traces as sequences of store states -/

/-- The effect on the store of one event of the trace: a write event stores the
bytes it records, every other event leaves the store as it is. -/
def Event.apply (e : Event) (s : Nat → Nat) : Nat → Nat :=
  match e with
  | Event.writeByte offset value => fun a => if a = offset then value else s a
  | Event.writeBlock offset data =>
    fun a => if offset ≤ a ∧ a < offset + data.length then data.getD (a - offset) 0 else s a
  | _ => s

/-- The store reached from `s` after the events of a trace, in order. -/
def replay (s : Nat → Nat) : List Event → Nat → Nat
  | [] => s
  | e :: es => replay (e.apply s) es

/-- The machine `m1` is `m` after exactly the events `evs`: they are what was added
to the trace, and replaying them on the store of `m` gives the store of `m1`. -/
def Reaches (m : Machine D) (evs : List Event) (m1 : Machine D) : Prop :=
  m1.trace = m.trace ++ evs ∧ m1.eeprom = replay m.eeprom evs

/-- Events that write to the store. -/
def Event.isWrite : Event → Bool
  | Event.writeByte _ _ => true
  | Event.writeBlock _ _ => true
  | _ => false

/-- A write event that covers address `a`. -/
def Event.touches (a : Nat) : Event → Prop
  | Event.writeByte offset _ => a = offset
  | Event.writeBlock offset data => offset ≤ a ∧ a < offset + data.length
  | _ => False

/-- A store access lies inside the medium of `size` bytes: `offset + length <= size`.
Events that are no store access satisfy this. -/
def Event.inRange (size : Nat) : Event → Prop
  | Event.readByte offset => offset + 1 ≤ size
  | Event.writeByte offset _ => offset + 1 ≤ size
  | Event.readBlock offset n => offset + n ≤ size
  | Event.writeBlock offset data => offset + data.length ≤ size
  | _ => True

/-- The slot of an `isDeviceValid` event. -/
def Event.validatedSlot : Event → Option Nat
  | Event.isDeviceValid i _ _ => some i
  | _ => none

/-- The bytes `EepromAccess.writeBlock` puts in the trace for `size` bytes of `src`. -/
def blockImage (src : List Nat) (size : Nat) : List Nat :=
  (List.range size).map (fun k => (src.getD k 0) % 256)

/-- The events of a byte-fill loop over the first `n` addresses. -/
def fillEvents (n v : Nat) : List Event :=
  (List.range n).map (fun a => Event.writeByte a v)

/-- The events of the inner loop of `initializeEeprom` for the first `n` beer slots of
the beer array at `base0`. -/
def beerEvents (L : Config) (cs : List Nat) (base0 : Nat) : Nat → List Event
  | 0 => []
  | b + 1 => beerEvents L cs base0 b ++
      [Event.writeBlock (base0 + L.offsetof_BeerBlock_cs + b * L.sizeof_BeerBlock)
        (blockImage cs L.sizeof_ControlSettings)]

/-- The events of the outer loop of `initializeEeprom` for the first `n` chambers:
per chamber one write of the constants, then one write of the settings per beer. -/
def chamberEvents (L : Config) (cc cs : List Nat) : Nat → List Event
  | 0 => []
  | c + 1 => chamberEvents L cc cs c ++
      (Event.writeBlock (L.offset_chambers + c * L.sizeof_ChamberBlock +
          L.offsetof_ChamberBlock_cc) (blockImage cc L.sizeof_ControlConstants) ::
        beerEvents L cs (L.offset_chambers + c * L.sizeof_ChamberBlock +
          L.offsetof_ChamberBlock_beer) L.MAX_BEERS)

/-- The events of one `storeDevice(r, j)` on a store with settings. -/
def storeDeviceEvents (L : Config) (r : List Nat) (j : Nat) : List Event :=
  if j < L.MAX_DEVICES then
    [Event.readByte L.offset_version,
     Event.writeBlock (L.offset_devices + L.sizeof_DeviceConfig * j)
       (blockImage r L.sizeof_DeviceConfig)]
  else [Event.readByte L.offset_version]

/-- The events of `storeDevice` on the records of a list, for consecutive slots. -/
def storeDevicesEvents (L : Config) : List (List Nat) → Nat → List Event
  | [], _ => []
  | r :: rs, j => storeDeviceEvents L r j ++ storeDevicesEvents L rs (j + 1)

/-- The events of `initializeEeprom` up to, and without, the write of the version tag:
the zero fill, the collaborator calls, the chamber writes. -/
def initializeEvents_before (L : Config) (C : Collaborators D) : List Event :=
  fillEvents L.MAX_EEPROM_SIZE 0 ++
    ([Event.setupUnconfiguredDevices, Event.loadDefaultConstants, Event.loadDefaultSettings] ++
      chamberEvents L C.defaultConstants C.defaultSettings L.MAX_CHAMBERS)

/-- The events of `initializeEeprom` after the write of the version tag. -/
def initializeEvents_after (L : Config) : List Event :=
  storeDevicesEvents L (factoryPreset L) 0 ++ [Event.tempControlInit]

/-- All events of `initializeEeprom`, in order. -/
def initializeEvents (L : Config) (C : Collaborators D) : List Event :=
  initializeEvents_before L C ++
    (Event.writeByte 0 (L.EEPROM_FORMAT_VERSION % 256) :: initializeEvents_after L)

/-- The events of the load phase of `applySettings`. -/
def loadEvents (L : Config) : List Event :=
  [Event.setupUnconfiguredDevices,
   Event.readBlock ((L.offset_chambers % 65536 + L.offsetof_ChamberBlock_cc) % 65536)
     L.sizeof_ControlConstants,
   Event.loadConstants ((L.offset_chambers % 65536 + L.offsetof_ChamberBlock_cc) % 65536),
   Event.readBlock ((L.offset_chambers % 65536 + L.offsetof_ChamberBlock_beer0_cs) % 65536)
     L.sizeof_ControlSettings,
   Event.loadSettings ((L.offset_chambers % 65536 + L.offsetof_ChamberBlock_beer0_cs) % 65536)]

/-- The events of one pass of the device loop of `applySettings` on slot `index`:
`stored` is the record fetched, `valid` the verdict of `isDeviceValid`, `resolved` the
record as `isDeviceValid` left it.  An accepted slot is installed, a rejected slot is
overwritten with the all-zero record. -/
def scanPass (L : Config) (index : Nat) (stored : List Nat) (valid : Bool)
    (resolved : List Nat) : List Event :=
  [Event.readByte L.offset_version,
   Event.readBlock (L.offset_devices + L.sizeof_DeviceConfig * index) L.sizeof_DeviceConfig,
   Event.isDeviceValid index stored valid] ++
  (if valid then [Event.installDevice index resolved]
   else [Event.readByte L.offset_version,
         Event.writeBlock (L.offset_devices + L.sizeof_DeviceConfig * index)
           (List.replicate L.sizeof_DeviceConfig 0)])

/-- The events of the device loop of `applySettings` from slot `index` on, one pass
per element of `passes`, closed by the check of the `fetchDevice` that ends the loop. -/
def scanEvents (L : Config) : Nat → List (List Nat × Bool × List Nat) → List Event
  | _, [] => [Event.readByte L.offset_version]
  | index, p :: ps => scanPass L index p.1 p.2.1 p.2.2 ++ scanEvents L (index + 1) ps

/-- A store access lies inside the address window `[lo, hi)`.  Events that are no
store access satisfy this. -/
def Event.within (lo hi : Nat) : Event → Prop
  | Event.readByte offset => lo ≤ offset ∧ offset + 1 ≤ hi
  | Event.writeByte offset _ => lo ≤ offset ∧ offset + 1 ≤ hi
  | Event.readBlock offset n => lo ≤ offset ∧ offset + n ≤ hi
  | Event.writeBlock offset data => lo ≤ offset ∧ offset + data.length ≤ hi
  | _ => True

/-- The events a machine `m1` has in its trace beyond those of `m`. -/
def newEvents (m m1 : Machine D) : List Event :=
  m1.trace.drop m.trace.length

/-! ## A small concrete build, used to instantiate the theorems -/

/-- A build with one chamber of two beers and six device slots of six bytes. -/
def demoConfig : Config where
  MAX_EEPROM_SIZE := 64
  MAX_CHAMBERS := 1
  MAX_BEERS := 2
  MAX_DEVICES := 6
  EEPROM_FORMAT_VERSION := 2
  offset_version := 0
  offset_chambers := 2
  offset_devices := 12
  sizeof_ChamberBlock := 10
  sizeof_BeerBlock := 3
  sizeof_DeviceConfig := 6
  sizeof_ControlConstants := 3
  sizeof_ControlSettings := 2
  offsetof_ChamberBlock_cc := 0
  offsetof_ChamberBlock_beer := 4
  offsetof_BeerBlock_cs := 0
  BREWPI_SIMULATE := false
  BREWPI_STATIC_CONFIG := StaticConfig.shieldRevA
  field_chamber := 0
  field_beer := 1
  field_deviceFunction := 2
  field_deviceHardware := 3
  field_hw_pinNr := 4
  field_hw_invert := 5
  DEVICE_HARDWARE_PIN := 1
  DEVICE_HARDWARE_ONEWIRE_TEMP := 2
  DEVICE_CHAMBER_DOOR := 1
  DEVICE_CHAMBER_HEAT := 2
  DEVICE_CHAMBER_COOL := 3
  DEVICE_CHAMBER_TEMP := 5
  DEVICE_BEER_TEMP := 9
  doorPin := 4
  heatingPin := 6
  coolingPin := 5
  fridgeSensorPin := 17
  beerSensorPin := 18

/-- A device manager whose state is the list of installed records; it rejects
every record whose hardware byte is above 2. -/
def demoCollaborators : Collaborators (List (List Nat)) where
  defaultConstants := [7, 8, 9]
  defaultSettings := [20, 21]
  setupUnconfiguredDevices := fun _ => []
  isDeviceValid := fun d config _ => (decide (config.getD 3 0 ≤ 2), config, d)
  installDevice := fun d config => config :: d
  isDeviceValid_length := fun _ _ _ => rfl

/-- A machine over an erased medium (every byte `0xFF`). -/
def demoErased : Machine (List (List Nat)) where
  eeprom := fun _ => 0xFF
  tempControl := { cc := [1, 2, 3], cs := [4, 5] }
  deviceManager := []
  trace := []

/-- A machine whose medium carries the version tag and is otherwise zero, except
for a nine in the hardware byte of device slot 2. -/
def demoValid : Machine (List (List Nat)) where
  eeprom := fun a => if a = 0 then 2 else if a = 27 then 9 else 0
  tempControl := { cc := [1, 2, 3], cs := [4, 5] }
  deviceManager := []
  trace := []

/-! ## Basic facts about the byte store and the device table -/

theorem hasSettings_fst (L : Config) (m : Machine D) :
    (hasSettings L m).1 = (m.eeprom L.offset_version == L.EEPROM_FORMAT_VERSION) := rfl

theorem hasSettings_snd (L : Config) (m : Machine D) :
    (hasSettings L m).2 = { m with trace := m.trace ++ [Event.readByte L.offset_version] } := rfl

theorem hasSettings_true_iff (L : Config) (m : Machine D) :
    (hasSettings L m).1 = true ↔ m.eeprom L.offset_version = L.EEPROM_FORMAT_VERSION := by
  simp [hasSettings_fst]

/-- A device slot of a well-formed layout lies inside the medium. -/
theorem device_slot_bound (L : Config) (hL : L.WellFormed) (i : Nat) (hi : i < L.MAX_DEVICES) :
    L.offset_devices + L.sizeof_DeviceConfig * i + L.sizeof_DeviceConfig ≤ L.MAX_EEPROM_SIZE := by
  obtain ⟨_, _, _, h4, _⟩ := hL
  have h : (i + 1) * L.sizeof_DeviceConfig ≤ L.MAX_DEVICES * L.sizeof_DeviceConfig :=
    Nat.mul_le_mul_right _ hi
  rw [Nat.add_mul, Nat.one_mul, Nat.mul_comm] at h
  omega

/-- The 16-bit offset expression of `fetchDevice`/`storeDevice` does not wrap. -/
theorem device_offset_mod (L : Config) (hL : L.WellFormed) (i : Nat) (hi : i < L.MAX_DEVICES) :
    (L.offset_devices + L.sizeof_DeviceConfig * i) % 65536 =
      L.offset_devices + L.sizeof_DeviceConfig * i := by
  have h := device_slot_bound L hL i hi
  obtain ⟨_, _, _, _, h5, _⟩ := hL
  exact Nat.mod_eq_of_lt (by omega)

/-- The device table starts after the version byte. -/
theorem offset_devices_pos (L : Config) (hL : L.WellFormed) :
    L.offset_version < L.offset_devices := by
  obtain ⟨_, h2, h3, _⟩ := hL
  omega

theorem storeDevice_of_ok (L : Config) (m : Machine D) (r : List Nat) (i : Nat)
    (hs : (hasSettings L m).1 = true) (hi : i < L.MAX_DEVICES) :
    storeDevice L m r i =
      (true, EepromAccess.writeBlock (hasSettings L m).2
        ((L.offset_devices + L.sizeof_DeviceConfig * i) % 65536) r L.sizeof_DeviceConfig) := by
  simp [storeDevice, hs, hi]

theorem storeDevice_of_not_ok (L : Config) (m : Machine D) (r : List Nat) (i : Nat)
    (h : (hasSettings L m).1 = false ∨ L.MAX_DEVICES ≤ i) :
    storeDevice L m r i = (false, (hasSettings L m).2) := by
  rcases h with h | h
  · simp [storeDevice, h]
  · simp [storeDevice, Nat.not_lt.mpr h]

theorem fetchDevice_of_ok (L : Config) (m : Machine D) (r : List Nat) (i : Nat)
    (hs : (hasSettings L m).1 = true) (hi : i < L.MAX_DEVICES) :
    fetchDevice L m r i =
      (true, (EepromAccess.readBlock (hasSettings L m).2
        ((L.offset_devices + L.sizeof_DeviceConfig * i) % 65536) L.sizeof_DeviceConfig).1,
       (EepromAccess.readBlock (hasSettings L m).2
        ((L.offset_devices + L.sizeof_DeviceConfig * i) % 65536) L.sizeof_DeviceConfig).2) := by
  simp [fetchDevice, hs, hi]

theorem fetchDevice_of_not_ok (L : Config) (m : Machine D) (r : List Nat) (i : Nat)
    (h : (hasSettings L m).1 = false ∨ L.MAX_DEVICES ≤ i) :
    fetchDevice L m r i = (false, r, (hasSettings L m).2) := by
  rcases h with h | h
  · simp [fetchDevice, h]
  · simp [fetchDevice, Nat.not_lt.mpr h]

/-- Reading back a block that was just written returns the image written. -/
theorem readBlock_writeBlock (m : Machine D) (offset : Nat) (r : List Nat) (n : Nat)
    (hr : IsImage n r) :
    (EepromAccess.readBlock (EepromAccess.writeBlock m offset r n) offset n).1 = r := by
  obtain ⟨hlen, hb⟩ := hr
  apply List.ext_getElem
  · simp [EepromAccess.readBlock, hlen]
  · intro k h1 h2
    have hk : k < n := by simpa [EepromAccess.readBlock] using h1
    have hmem : r[k] ∈ r := List.getElem_mem h2
    simp [EepromAccess.readBlock, EepromAccess.writeBlock, hk, List.getElem?_eq_getElem h2,
      Nat.mod_eq_of_lt (hb _ hmem)]

/-- A block write leaves every byte outside the block as it was. -/
theorem writeBlock_eeprom_outside (m : Machine D) (offset : Nat) (r : List Nat) (n a : Nat)
    (h : a < offset ∨ offset + n ≤ a) :
    (EepromAccess.writeBlock m offset r n).eeprom a = m.eeprom a := by
  have : ¬ (offset ≤ a ∧ a < offset + n) := by omega
  simp [EepromAccess.writeBlock, this]

/-- A successful `storeDevice` keeps the version byte. -/
theorem storeDevice_keeps_version (L : Config) (hL : L.WellFormed) (m : Machine D)
    (r : List Nat) (i : Nat) :
    (storeDevice L m r i).2.eeprom L.offset_version = m.eeprom L.offset_version := by
  by_cases h : (hasSettings L m).1 = true ∧ i < L.MAX_DEVICES
  · rw [storeDevice_of_ok L m r i h.1 h.2, device_offset_mod L hL i h.2]
    have := offset_devices_pos L hL
    rw [writeBlock_eeprom_outside _ _ _ _ _ (Or.inl (by omega))]
    rfl
  · rw [storeDevice_of_not_ok L m r i (by
      rcases Classical.not_and_iff_or_not_not.mp h with h | h
      · left; simpa using h
      · right; omega)]
    rfl

/-! ## Counting loops -/

/-- Total-correctness rule for `forLoop`: when the bound fits the counter type, the
body never fails on states satisfying the invariant and re-establishes it, then
with fuel above the iteration count the loop returns a state satisfying the
invariant at the bound. -/
theorem forLoop_rule {σ : Type} (wrap bound : Nat) (body : Nat → σ → Option σ)
    (Inv : Nat → σ → Prop) (hb : bound < wrap)
    (hstep : ∀ i s, i < bound → Inv i s → ∃ s1, body i s = some s1 ∧ Inv (i + 1) s1) :
    ∀ (n fuel i : Nat) (s : σ), i + n = bound → n < fuel → Inv i s →
      ∃ s1, forLoop wrap bound body fuel i s = some s1 ∧ Inv bound s1 := by
  intro n
  induction n with
  | zero =>
    intro fuel i s hi hf hinv
    obtain ⟨f, rfl⟩ : ∃ f, fuel = f + 1 := ⟨fuel - 1, by omega⟩
    have : ¬ i < bound := by omega
    have hib : i = bound := by omega
    subst hib
    exact ⟨s, by simp [forLoop], hinv⟩
  | succ n ih =>
    intro fuel i s hi hf hinv
    obtain ⟨f, rfl⟩ : ∃ f, fuel = f + 1 := ⟨fuel - 1, by omega⟩
    have hlt : i < bound := by omega
    obtain ⟨s1, hs1, hinv1⟩ := hstep i s hlt hinv
    have hmod : (i + 1) % wrap = i + 1 := Nat.mod_eq_of_lt (by omega)
    obtain ⟨s2, hs2, hinv2⟩ := ih f (i + 1) s1 (by omega) (by omega) hinv1
    exact ⟨s2, by simp [forLoop, hlt, hs1, hmod, hs2], hinv2⟩

/-- The rule of `forLoop_rule` for a loop started at zero. -/
theorem forLoop_from_zero {σ : Type} (wrap bound : Nat) (body : Nat → σ → Option σ)
    (Inv : Nat → σ → Prop) (fuel : Nat) (s : σ) (hb : bound < wrap) (hf : bound < fuel)
    (h0 : Inv 0 s)
    (hstep : ∀ i s, i < bound → Inv i s → ∃ s1, body i s = some s1 ∧ Inv (i + 1) s1) :
    ∃ s1, forLoop wrap bound body fuel 0 s = some s1 ∧ Inv bound s1 :=
  forLoop_rule wrap bound body Inv hb hstep bound fuel 0 s (by omega) hf h0

/-- The byte-fill loop shared by `zapEeprom` and `initializeEeprom`: it returns, every
byte below `MAX_EEPROM_SIZE` holds the fill value, every other byte and the live
collaborators are unchanged. -/
theorem fill_loop (L : Config) (v fuel : Nat) (m : Machine D) (hv : v < 256)
    (hsize : L.MAX_EEPROM_SIZE ≤ 65535) (hfuel : L.MAX_EEPROM_SIZE < fuel) :
    ∃ m1, forLoop 65536 L.MAX_EEPROM_SIZE
        (fun offset m1 => some (EepromAccess.writeByte m1 offset v)) fuel 0 m = some m1 ∧
      (∀ a, a < L.MAX_EEPROM_SIZE → m1.eeprom a = v) ∧
      (∀ a, L.MAX_EEPROM_SIZE ≤ a → m1.eeprom a = m.eeprom a) ∧
      m1.tempControl = m.tempControl ∧ m1.deviceManager = m.deviceManager := by
  have h := forLoop_from_zero 65536 L.MAX_EEPROM_SIZE
    (fun offset m1 => some (EepromAccess.writeByte m1 offset v))
    (fun i m1 => (∀ a, a < i → m1.eeprom a = v) ∧ (∀ a, i ≤ a → m1.eeprom a = m.eeprom a) ∧
      m1.tempControl = m.tempControl ∧ m1.deviceManager = m.deviceManager)
    fuel m (by omega) hfuel
    ⟨fun a ha => absurd ha (Nat.not_lt_zero a), fun _ _ => rfl, rfl, rfl⟩
    (by
      intro i s _ hinv
      obtain ⟨h1, h2, h3, h4⟩ := hinv
      refine ⟨_, rfl, ?_, ?_, h3, h4⟩
      · intro a ha
        by_cases hai : a = i
        · simp [EepromAccess.writeByte, hai, Nat.mod_eq_of_lt hv]
        · simpa [EepromAccess.writeByte, hai] using h1 a (by omega)
      · intro a ha
        have hai : a ≠ i := by omega
        simpa [EepromAccess.writeByte, hai] using h2 a (by omega))
  exact h

/-! ## `initializeEeprom`: the chamber loops -/

/-- The inner loop of `initializeEeprom` over the beer array starting at `base0`:
it returns, stores the live settings in every beer slot, and changes no byte outside
the beer array. -/
theorem initializeEeprom_beer_loop (L : Config) (fuel base0 : Nat) (m : Machine D)
    (hb : L.MAX_BEERS ≤ 255) (hf : L.MAX_BEERS < fuel)
    (hcs : L.offsetof_BeerBlock_cs + L.sizeof_ControlSettings ≤ L.sizeof_BeerBlock)
    (hlim : base0 + L.MAX_BEERS * L.sizeof_BeerBlock ≤ 65535) :
    ∃ s1, forLoop 256 L.MAX_BEERS (initializeEeprom_beer L) fuel 0
        ((base0 + L.offsetof_BeerBlock_cs) % 65536, m) = some s1 ∧
      s1.2.tempControl = m.tempControl ∧ s1.2.deviceManager = m.deviceManager ∧
      (∀ a, a < base0 ∨ base0 + L.MAX_BEERS * L.sizeof_BeerBlock ≤ a →
        s1.2.eeprom a = m.eeprom a) ∧
      (∀ b, b < L.MAX_BEERS → ∀ k, k < L.sizeof_ControlSettings →
        s1.2.eeprom (base0 + L.offsetof_BeerBlock_cs + b * L.sizeof_BeerBlock + k) =
          m.tempControl.cs.getD k 0 % 256) := by
  have h := forLoop_from_zero 256 L.MAX_BEERS (initializeEeprom_beer L)
    (fun b s => s.1 = (base0 + L.offsetof_BeerBlock_cs + b * L.sizeof_BeerBlock) % 65536 ∧
      s.2.tempControl = m.tempControl ∧ s.2.deviceManager = m.deviceManager ∧
      (∀ a, a < base0 ∨ base0 + b * L.sizeof_BeerBlock ≤ a → s.2.eeprom a = m.eeprom a) ∧
      (∀ b1, b1 < b → ∀ k, k < L.sizeof_ControlSettings →
        s.2.eeprom (base0 + L.offsetof_BeerBlock_cs + b1 * L.sizeof_BeerBlock + k) =
          m.tempControl.cs.getD k 0 % 256))
    fuel ((base0 + L.offsetof_BeerBlock_cs) % 65536, m) (by omega) hf
    ⟨by simp, rfl, rfl, fun _ _ => rfl, fun b1 hb1 => absurd hb1 (Nat.not_lt_zero b1)⟩
    (by
      rintro b ⟨pv, m1⟩ hbl ⟨hpv, htc, hdm, hframe, hstored⟩
      simp only at hpv htc hdm hframe hstored
      have hmul : b * L.sizeof_BeerBlock + L.sizeof_BeerBlock ≤
          L.MAX_BEERS * L.sizeof_BeerBlock := by
        have := Nat.mul_le_mul_right L.sizeof_BeerBlock (Nat.succ_le_of_lt hbl)
        rwa [Nat.succ_mul] at this
      have hpv2 : pv = base0 + L.offsetof_BeerBlock_cs + b * L.sizeof_BeerBlock := by
        rw [hpv]; exact Nat.mod_eq_of_lt (by omega)
      refine ⟨_, rfl, ?_, htc, hdm, ?_, ?_⟩
      · simp only [hpv, Nat.succ_mul, Nat.mod_add_mod]
        congr 1
        omega
      · intro a ha
        show (EepromAccess.writeBlock m1 pv m1.tempControl.cs L.sizeof_ControlSettings).eeprom a
          = m.eeprom a
        rw [writeBlock_eeprom_outside _ _ _ _ _ (by rw [Nat.succ_mul] at ha; omega)]
        exact hframe a (by rw [Nat.succ_mul] at ha; omega)
      · intro b1 hb1 k hk
        show (EepromAccess.writeBlock m1 pv m1.tempControl.cs L.sizeof_ControlSettings).eeprom _
          = _
        by_cases hbb : b1 = b
        · subst hbb
          have hin : pv ≤ base0 + L.offsetof_BeerBlock_cs + b1 * L.sizeof_BeerBlock + k ∧
              base0 + L.offsetof_BeerBlock_cs + b1 * L.sizeof_BeerBlock + k <
                pv + L.sizeof_ControlSettings := by omega
          have hsub : base0 + L.offsetof_BeerBlock_cs + b1 * L.sizeof_BeerBlock + k - pv = k := by
            omega
          simp only [EepromAccess.writeBlock, hin, and_self, if_true, hsub, htc]
        · have hlt : b1 < b := by omega
          have hmul1 : b1 * L.sizeof_BeerBlock + L.sizeof_BeerBlock ≤ b * L.sizeof_BeerBlock := by
            have := Nat.mul_le_mul_right L.sizeof_BeerBlock (Nat.succ_le_of_lt hlt)
            rwa [Nat.succ_mul] at this
          rw [writeBlock_eeprom_outside _ _ _ _ _ (by omega)]
          exact hstored b1 hlt k hk)
  obtain ⟨s1, hs1, _, htc, hdm, hframe, hstored⟩ := h
  exact ⟨s1, hs1, htc, hdm, fun a ha => hframe a ha, hstored⟩

/-- Chamber block `c` of a well-formed layout ends before the device table. -/
theorem chamber_block_bound (L : Config) (hL : L.WellFormed) (c : Nat)
    (hc : c < L.MAX_CHAMBERS) :
    L.offset_chambers + c * L.sizeof_ChamberBlock + L.sizeof_ChamberBlock ≤ L.offset_devices ∧
    L.offset_devices ≤ 65535 := by
  obtain ⟨_, _, h3, h4, h5, _⟩ := hL
  have := Nat.mul_le_mul_right L.sizeof_ChamberBlock (Nat.succ_le_of_lt hc)
  rw [Nat.succ_mul] at this
  omega

/-- One pass of the outer loop of `initializeEeprom`: it returns, stores the live
constants and settings in chamber block `c`, and changes no byte outside that block. -/
theorem initializeEeprom_chamber_spec (L : Config) (hL : L.WellFormed) (fuel c : Nat)
    (m : Machine D) (hb : L.MAX_BEERS ≤ 255) (hf : L.MAX_BEERS < fuel)
    (hc : c < L.MAX_CHAMBERS) :
    ∃ m2, initializeEeprom_chamber L fuel c m = some m2 ∧
      m2.tempControl = m.tempControl ∧ m2.deviceManager = m.deviceManager ∧
      (∀ a, a < L.offset_chambers + c * L.sizeof_ChamberBlock ∨
          L.offset_chambers + c * L.sizeof_ChamberBlock + L.sizeof_ChamberBlock ≤ a →
        m2.eeprom a = m.eeprom a) ∧
      (∀ k, k < L.sizeof_ControlConstants →
        m2.eeprom (L.offset_chambers + c * L.sizeof_ChamberBlock +
          L.offsetof_ChamberBlock_cc + k) = m.tempControl.cc.getD k 0 % 256) ∧
      (∀ b, b < L.MAX_BEERS → ∀ k, k < L.sizeof_ControlSettings →
        m2.eeprom (L.offset_chambers + c * L.sizeof_ChamberBlock +
          L.offsetof_ChamberBlock_beer + L.offsetof_BeerBlock_cs + b * L.sizeof_BeerBlock + k) =
          m.tempControl.cs.getD k 0 % 256) := by
  obtain ⟨hblk, hdev⟩ := chamber_block_bound L hL c hc
  obtain ⟨_, _, _, _, _, h6, h7, h8⟩ := hL
  have hpv : (L.offset_chambers + c * L.sizeof_ChamberBlock) % 65536 =
      L.offset_chambers + c * L.sizeof_ChamberBlock := Nat.mod_eq_of_lt (by omega)
  have hcc : (L.offset_chambers + c * L.sizeof_ChamberBlock + L.offsetof_ChamberBlock_cc)
      % 65536 = L.offset_chambers + c * L.sizeof_ChamberBlock + L.offsetof_ChamberBlock_cc :=
    Nat.mod_eq_of_lt (by omega)
  have hpv2 : (L.offset_chambers + c * L.sizeof_ChamberBlock +
      (L.offsetof_ChamberBlock_beer + L.offsetof_BeerBlock_cs)) % 65536 =
      (L.offset_chambers + c * L.sizeof_ChamberBlock + L.offsetof_ChamberBlock_beer +
        L.offsetof_BeerBlock_cs) % 65536 := by
    congr 1
    omega
  obtain ⟨s1, hs1, htc, hdm, hframe, hstored⟩ := initializeEeprom_beer_loop L fuel
    (L.offset_chambers + c * L.sizeof_ChamberBlock + L.offsetof_ChamberBlock_beer)
    (TempControl.storeConstants L m
      (L.offset_chambers + c * L.sizeof_ChamberBlock + L.offsetof_ChamberBlock_cc))
    hb hf h8 (by omega)
  refine ⟨s1.2, ?_, ?_, ?_, ?_, ?_, ?_⟩
  · simp only [initializeEeprom_chamber, hpv, hcc, hpv2, hs1]
  · rw [htc]; rfl
  · rw [hdm]; rfl
  · intro a ha
    rw [hframe a (by omega)]
    exact writeBlock_eeprom_outside _ _ _ _ _ (by omega)
  · intro k hk
    rw [hframe _ (by omega)]
    have hin : L.offset_chambers + c * L.sizeof_ChamberBlock + L.offsetof_ChamberBlock_cc ≤
        L.offset_chambers + c * L.sizeof_ChamberBlock + L.offsetof_ChamberBlock_cc + k ∧
        L.offset_chambers + c * L.sizeof_ChamberBlock + L.offsetof_ChamberBlock_cc + k <
        L.offset_chambers + c * L.sizeof_ChamberBlock + L.offsetof_ChamberBlock_cc +
          L.sizeof_ControlConstants := by omega
    simp only [TempControl.storeConstants, EepromAccess.writeBlock, hin, and_self, if_true,
      Nat.add_sub_cancel_left]
  · intro b hbl k hk
    exact hstored b hbl k hk

/-- The outer loop of `initializeEeprom`: it returns, every chamber block holds the
live constants and, in every beer slot, the live settings; no byte outside the
chamber array changes. -/
theorem initializeEeprom_chamber_loop (L : Config) (hL : L.WellFormed) (fuel : Nat)
    (m : Machine D) (hch : L.MAX_CHAMBERS ≤ 255) (hb : L.MAX_BEERS ≤ 255)
    (hfc : L.MAX_CHAMBERS < fuel) (hfb : L.MAX_BEERS < fuel) :
    ∃ m1, forLoop 256 L.MAX_CHAMBERS (initializeEeprom_chamber L fuel) fuel 0 m = some m1 ∧
      m1.tempControl = m.tempControl ∧ m1.deviceManager = m.deviceManager ∧
      (∀ a, a < L.offset_chambers ∨
          L.offset_chambers + L.MAX_CHAMBERS * L.sizeof_ChamberBlock ≤ a →
        m1.eeprom a = m.eeprom a) ∧
      (∀ c, c < L.MAX_CHAMBERS →
        (∀ k, k < L.sizeof_ControlConstants →
          m1.eeprom (L.offset_chambers + c * L.sizeof_ChamberBlock +
            L.offsetof_ChamberBlock_cc + k) = m.tempControl.cc.getD k 0 % 256) ∧
        (∀ b, b < L.MAX_BEERS → ∀ k, k < L.sizeof_ControlSettings →
          m1.eeprom (L.offset_chambers + c * L.sizeof_ChamberBlock +
            L.offsetof_ChamberBlock_beer + L.offsetof_BeerBlock_cs +
            b * L.sizeof_BeerBlock + k) = m.tempControl.cs.getD k 0 % 256)) := by
  have h := forLoop_from_zero 256 L.MAX_CHAMBERS (initializeEeprom_chamber L fuel)
    (fun c m1 => m1.tempControl = m.tempControl ∧ m1.deviceManager = m.deviceManager ∧
      (∀ a, a < L.offset_chambers ∨ L.offset_chambers + c * L.sizeof_ChamberBlock ≤ a →
        m1.eeprom a = m.eeprom a) ∧
      (∀ c1, c1 < c →
        (∀ k, k < L.sizeof_ControlConstants →
          m1.eeprom (L.offset_chambers + c1 * L.sizeof_ChamberBlock +
            L.offsetof_ChamberBlock_cc + k) = m.tempControl.cc.getD k 0 % 256) ∧
        (∀ b, b < L.MAX_BEERS → ∀ k, k < L.sizeof_ControlSettings →
          m1.eeprom (L.offset_chambers + c1 * L.sizeof_ChamberBlock +
            L.offsetof_ChamberBlock_beer + L.offsetof_BeerBlock_cs +
            b * L.sizeof_BeerBlock + k) = m.tempControl.cs.getD k 0 % 256)))
    fuel m (by omega) hfc
    ⟨rfl, rfl, fun _ _ => rfl, fun c1 hc1 => absurd hc1 (Nat.not_lt_zero c1)⟩
    (by
      intro c m1 hc ⟨htc, hdm, hframe, hstored⟩
      obtain ⟨m2, hm2, htc2, hdm2, hframe2, hcc2, hcs2⟩ :=
        initializeEeprom_chamber_spec L hL fuel c m1 hb hfb hc
      obtain ⟨_, _, _, _, _, h6, h7, h8⟩ := hL
      refine ⟨m2, hm2, htc2.trans htc, hdm2.trans hdm, ?_, ?_⟩
      · intro a ha
        rw [Nat.succ_mul] at ha
        rw [hframe2 a (by omega)]
        exact hframe a (by omega)
      · intro c1 hc1
        by_cases hcc : c1 = c
        · subst hcc
          exact ⟨fun k hk => by rw [hcc2 k hk, htc], fun b hbl k hk => by rw [hcs2 b hbl k hk, htc]⟩
        · have hlt : c1 < c := by omega
          have hmul : c1 * L.sizeof_ChamberBlock + L.sizeof_ChamberBlock ≤
              c * L.sizeof_ChamberBlock := by
            have := Nat.mul_le_mul_right L.sizeof_ChamberBlock (Nat.succ_le_of_lt hlt)
            rwa [Nat.succ_mul] at this
          obtain ⟨hcc1, hcs1⟩ := hstored c1 hlt
          refine ⟨fun k hk => ?_, fun b hbl k hk => ?_⟩
          · rw [hframe2 _ (by omega)]
            exact hcc1 k hk
          · have hmulb : b * L.sizeof_BeerBlock + L.sizeof_BeerBlock ≤
                L.MAX_BEERS * L.sizeof_BeerBlock := by
              have := Nat.mul_le_mul_right L.sizeof_BeerBlock (Nat.succ_le_of_lt hbl)
              rwa [Nat.succ_mul] at this
            rw [hframe2 _ (by omega)]
            exact hcs1 b hbl k hk)
  exact h

/-! ## Device slots -/

/-- Clearing a whole buffer leaves only zero bytes. -/
theorem clear_eq_replicate (p : List Nat) : clear p p.length = List.replicate p.length 0 := by
  induction p with
  | nil => rfl
  | cons x p ih => simp [clear, ih, List.replicate_succ]

theorem setField_length (config : List Nat) (field value : Nat) :
    (setField config field value).length = config.length := by
  simp [setField]

theorem setField_isImage (n : Nat) (config : List Nat) (field value : Nat)
    (h : IsImage n config) : IsImage n (setField config field value) := by
  obtain ⟨hlen, hb⟩ := h
  refine ⟨by rw [setField_length, hlen], ?_⟩
  intro b hmem
  rcases List.mem_or_eq_of_mem_set hmem with h1 | h1
  · exact hb b h1
  · rw [h1]; exact Nat.mod_lt _ (by decide)

theorem replicate_zero_isImage (n : Nat) : IsImage n (List.replicate n 0) := by
  refine ⟨by simp, ?_⟩
  intro b hb
  rw [(List.mem_replicate.mp hb).2]
  decide

/-- A block read returns an image once every byte of the block matches it. -/
theorem readBlock_eq_of_pointwise (m : Machine D) (offset n : Nat) (r : List Nat)
    (hr : IsImage n r) (h : ∀ k, k < n → m.eeprom (offset + k) = r.getD k 0 % 256) :
    (EepromAccess.readBlock m offset n).1 = r := by
  obtain ⟨hlen, hb⟩ := hr
  apply List.ext_getElem
  · simp [EepromAccess.readBlock, hlen]
  · intro k h1 h2
    have hk : k < n := by omega
    have hmem : r[k] ∈ r := List.getElem_mem h2
    simp [EepromAccess.readBlock, h k hk, List.getElem?_eq_getElem h2,
      Nat.mod_eq_of_lt (hb _ hmem)]

theorem storedDevice_eq_readBlock (L : Config) (m : Machine D) (i : Nat) :
    storedDevice L m i = (EepromAccess.readBlock m
      (L.offset_devices + L.sizeof_DeviceConfig * i) L.sizeof_DeviceConfig).1 := rfl

/-- A successful `fetchDevice` returns the record stored in the slot. -/
theorem fetchDevice_eq_storedDevice (L : Config) (hL : L.WellFormed) (m : Machine D)
    (r2 : List Nat) (i : Nat) (hs : (hasSettings L m).1 = true) (hi : i < L.MAX_DEVICES) :
    (fetchDevice L m r2 i).1 = true ∧ (fetchDevice L m r2 i).2.1 = storedDevice L m i := by
  rw [fetchDevice_of_ok L m r2 i hs hi, device_offset_mod L hL i hi]
  exact ⟨rfl, rfl⟩

/-- Frame of `storeDevice`: no byte outside the slot it is given changes. -/
theorem storeDevice_eeprom_outside (L : Config) (hL : L.WellFormed) (m : Machine D)
    (r : List Nat) (j a : Nat)
    (ha : a < L.offset_devices + L.sizeof_DeviceConfig * j ∨
      L.offset_devices + L.sizeof_DeviceConfig * j + L.sizeof_DeviceConfig ≤ a) :
    (storeDevice L m r j).2.eeprom a = m.eeprom a := by
  by_cases h : (hasSettings L m).1 = true ∧ j < L.MAX_DEVICES
  · rw [storeDevice_of_ok L m r j h.1 h.2, device_offset_mod L hL j h.2,
      writeBlock_eeprom_outside _ _ _ _ _ ha]
    rfl
  · rw [storeDevice_of_not_ok L m r j (by
      rcases Classical.not_and_iff_or_not_not.mp h with h | h
      · left; simpa using h
      · right; omega)]
    rfl

theorem storeDevice_tempControl (L : Config) (m : Machine D) (r : List Nat) (j : Nat) :
    (storeDevice L m r j).2.tempControl = m.tempControl := by
  by_cases h : ((hasSettings L m).1 && decide (j < L.MAX_DEVICES)) = true <;>
    simp only [storeDevice, h] <;> rfl

theorem storeDevice_deviceManager (L : Config) (m : Machine D) (r : List Nat) (j : Nat) :
    (storeDevice L m r j).2.deviceManager = m.deviceManager := by
  by_cases h : ((hasSettings L m).1 && decide (j < L.MAX_DEVICES)) = true <;>
    simp only [storeDevice, h] <;> rfl

/-- Two different slots do not overlap. -/
theorem slot_disjoint (s i j k : Nat) (hk : k < s) (hij : i ≠ j) :
    s * i + k < s * j ∨ s * j + s ≤ s * i + k := by
  rcases Nat.lt_or_gt_of_ne hij with h | h
  · left
    have := Nat.mul_le_mul_left s (Nat.succ_le_of_lt h)
    rw [Nat.mul_succ] at this
    omega
  · right
    have := Nat.mul_le_mul_left s (Nat.succ_le_of_lt h)
    rw [Nat.mul_succ] at this
    omega

/-- Frame of `storeDevice` on slot `j`: the record of every other slot stays as it was. -/
theorem storedDevice_storeDevice_other (L : Config) (hL : L.WellFormed) (m : Machine D)
    (r : List Nat) (i j : Nat) (hij : i ≠ j) :
    storedDevice L (storeDevice L m r j).2 i = storedDevice L m i := by
  unfold storedDevice
  apply List.map_congr_left
  intro k hk
  have hk1 : k < L.sizeof_DeviceConfig := List.mem_range.mp hk
  have := slot_disjoint L.sizeof_DeviceConfig i j k hk1 hij
  exact storeDevice_eeprom_outside L hL m r j _ (by omega)

/-- After a successful `storeDevice` the slot holds the record that was stored. -/
theorem storedDevice_storeDevice_same (L : Config) (hL : L.WellFormed) (m : Machine D)
    (r : List Nat) (j : Nat) (hs : (hasSettings L m).1 = true) (hj : j < L.MAX_DEVICES)
    (hr : IsImage L.sizeof_DeviceConfig r) :
    storedDevice L (storeDevice L m r j).2 j = r := by
  rw [storedDevice_eq_readBlock, storeDevice_of_ok L m r j hs hj, device_offset_mod L hL j hj]
  exact readBlock_writeBlock _ _ r _ hr

theorem hasSettings_storeDevice (L : Config) (hL : L.WellFormed) (m : Machine D)
    (r : List Nat) (j : Nat) :
    (hasSettings L (storeDevice L m r j).2).1 = (hasSettings L m).1 := by
  rw [hasSettings_fst, hasSettings_fst, storeDevice_keeps_version L hL]

/-- Storing a list of records in consecutive slots from `start`: settings stay, the
collaborators and every byte outside those slots are unchanged, and slot
`start + k` holds the `k`-th record. -/
theorem storeDevices_spec (L : Config) (hL : L.WellFormed) (rs : List (List Nat)) :
    ∀ (m : Machine D) (start : Nat), (hasSettings L m).1 = true →
      (∀ r, r ∈ rs → IsImage L.sizeof_DeviceConfig r) →
      start + rs.length ≤ L.MAX_DEVICES →
      (hasSettings L (storeDevices L m rs start)).1 = true ∧
      (storeDevices L m rs start).tempControl = m.tempControl ∧
      (storeDevices L m rs start).deviceManager = m.deviceManager ∧
      (∀ a, a < L.offset_devices →
        (storeDevices L m rs start).eeprom a = m.eeprom a) ∧
      (∀ i, i < start ∨ start + rs.length ≤ i →
        storedDevice L (storeDevices L m rs start) i = storedDevice L m i) ∧
      (∀ k, k < rs.length →
        storedDevice L (storeDevices L m rs start) (start + k) = rs.getD k []) := by
  induction rs with
  | nil =>
    intro m start hs _ _
    exact ⟨hs, rfl, rfl, fun _ _ => rfl, fun _ _ => rfl,
      fun k hk => absurd hk (Nat.not_lt_zero k)⟩
  | cons r rs ih =>
    intro m start hs hr hlen
    simp only [List.length_cons] at hlen
    have hs1 : (hasSettings L (storeDevice L m r start).2).1 = true := by
      rw [hasSettings_storeDevice L hL]; exact hs
    obtain ⟨h1, h2, h3, h4, h5, h6⟩ := ih (storeDevice L m r start).2 (start + 1) hs1
      (fun x hx => hr x (List.mem_cons_of_mem _ hx)) (by omega)
    refine ⟨h1, ?_, ?_, ?_, ?_, ?_⟩
    · exact h2.trans (storeDevice_tempControl L m r start)
    · exact h3.trans (storeDevice_deviceManager L m r start)
    · intro a ha
      exact (h4 a ha).trans (storeDevice_eeprom_outside L hL m r start a (by omega))
    · intro i hi
      simp only [List.length_cons] at hi
      have hne : i ≠ start := by omega
      exact (h5 i (by omega)).trans (storedDevice_storeDevice_other L hL m r i start hne)
    · intro k hk
      simp only [List.length_cons] at hk
      cases k with
      | zero =>
        show storedDevice L (storeDevices L (storeDevice L m r start).2 rs (start + 1))
          start = r
        rw [h5 start (by omega)]
        exact storedDevice_storeDevice_same L hL m r start hs (by omega)
          (hr r (List.mem_cons_self _ _))
      | succ k =>
        have := h6 k (by omega)
        rw [show start + 1 + k = start + (k + 1) by omega] at this
        simpa [storeDevices] using this

theorem factoryPresetRevA_isImage (L : Config) :
    ∀ r, r ∈ factoryPresetRevA L → IsImage L.sizeof_DeviceConfig r := by
  have hz := replicate_zero_isImage L.sizeof_DeviceConfig
  have h0 := setField_isImage _ _ L.field_deviceHardware L.DEVICE_HARDWARE_PIN
    (setField_isImage _ _ L.field_hw_invert 1 (setField_isImage _ _ L.field_chamber 1 hz))
  have hdoor := setField_isImage _ _ L.field_hw_pinNr L.doorPin
    (setField_isImage _ _ L.field_deviceFunction L.DEVICE_CHAMBER_DOOR h0)
  have hheat := setField_isImage _ _ L.field_hw_pinNr L.heatingPin
    (setField_isImage _ _ L.field_deviceFunction L.DEVICE_CHAMBER_HEAT hdoor)
  have hcool := setField_isImage _ _ L.field_hw_pinNr L.coolingPin
    (setField_isImage _ _ L.field_deviceFunction L.DEVICE_CHAMBER_COOL hheat)
  have hfridge := setField_isImage _ _ L.field_deviceFunction L.DEVICE_CHAMBER_TEMP
    (setField_isImage _ _ L.field_hw_pinNr L.fridgeSensorPin
      (setField_isImage _ _ L.field_deviceHardware L.DEVICE_HARDWARE_ONEWIRE_TEMP hcool))
  have hbeer := setField_isImage _ _ L.field_deviceFunction L.DEVICE_BEER_TEMP
    (setField_isImage _ _ L.field_hw_pinNr L.beerSensorPin
      (setField_isImage _ _ L.field_beer 1 hfridge))
  intro r hr
  rcases List.mem_cons.mp hr with h | hr
  · rw [h]; exact hdoor
  rcases List.mem_cons.mp hr with h | hr
  · rw [h]; exact hheat
  rcases List.mem_cons.mp hr with h | hr
  · rw [h]; exact hcool
  rcases List.mem_cons.mp hr with h | hr
  · rw [h]; exact hfridge
  rcases List.mem_cons.mp hr with h | hr
  · rw [h]; exact hbeer
  · exact absurd hr (List.not_mem_nil _)

/-- The factory preset consists of record images. -/
theorem factoryPreset_isImage (L : Config) :
    ∀ r, r ∈ factoryPreset L → IsImage L.sizeof_DeviceConfig r := by
  intro r hr
  unfold factoryPreset at hr
  split at hr
  · exact factoryPresetRevA_isImage L r hr
  · exact absurd hr (List.not_mem_nil _)
  · exact absurd hr (List.not_mem_nil _)

/-- The number of preset records: five for the rev-A shield, none otherwise. -/
theorem factoryPreset_length (L : Config) :
    (factoryPreset L).length =
      if L.BREWPI_STATIC_CONFIG = StaticConfig.shieldRevA then 5 else 0 := by
  unfold factoryPreset
  split <;> simp_all [factoryPresetRevA]

/-- On a local of `sizeof(DeviceConfig) <= 255` bytes, `saveDefaultDevices` stores the
factory preset in consecutive slots from 0 and returns the number of records. -/
theorem saveDefaultDevices_eq (L : Config) (m : Machine D) (config : List Nat)
    (hsz : L.sizeof_DeviceConfig ≤ 255) (hcfg : config.length = L.sizeof_DeviceConfig) :
    saveDefaultDevices L m config =
      ((factoryPreset L).length, storeDevices L m (factoryPreset L) 0) := by
  have hclear : clear config (L.sizeof_DeviceConfig % 256) =
      List.replicate L.sizeof_DeviceConfig 0 := by
    rw [Nat.mod_eq_of_lt (by omega), ← hcfg, clear_eq_replicate]
  unfold saveDefaultDevices factoryPreset
  split <;> simp only [hclear, factoryPresetRevA, storeDevices, List.length_cons,
    List.length_nil]

/-- Whatever the local holds, `saveDefaultDevices` keeps the version byte. -/
theorem saveDefaultDevices_keeps_version (L : Config) (hL : L.WellFormed) (m : Machine D)
    (config : List Nat) :
    (saveDefaultDevices L m config).2.eeprom L.offset_version = m.eeprom L.offset_version := by
  unfold saveDefaultDevices
  split <;> simp only [storeDevice_keeps_version L hL]

/-- Frame of `storeDevice`: no byte below the device table changes. -/
theorem storeDevice_eeprom_below (L : Config) (hL : L.WellFormed) (m : Machine D)
    (r : List Nat) (j a : Nat) (ha : a < L.offset_devices) :
    (storeDevice L m r j).2.eeprom a = m.eeprom a :=
  storeDevice_eeprom_outside L hL m r j a (Or.inl (by omega))

/-- Whatever the local holds, `saveDefaultDevices` changes no byte below the device
table. -/
theorem saveDefaultDevices_eeprom_below (L : Config) (hL : L.WellFormed) (m : Machine D)
    (config : List Nat) (a : Nat) (ha : a < L.offset_devices) :
    (saveDefaultDevices L m config).2.eeprom a = m.eeprom a := by
  unfold saveDefaultDevices
  split <;> simp only [storeDevice_eeprom_below L hL _ _ _ a ha]

/-! ## `initializeEeprom` as a whole -/

/-- With enough fuel `initializeEeprom` returns.  Up to the version write it produces
a machine `m4` whose byte 0 is the version tag, whose chamber blocks hold the default
constants and settings, whose other bytes below `MAX_EEPROM_SIZE` are zero, and whose
live control algorithm holds the defaults; the result is `m4` after
`saveDefaultDevices` and `tempControl.init()`. -/
theorem initializeEeprom_eq (L : Config) (C : Collaborators D) (fuel : Nat) (m : Machine D)
    (config : List Nat) (hL : L.WellFormed) (hch : L.MAX_CHAMBERS ≤ 255)
    (hb : L.MAX_BEERS ≤ 255) (hfuel : 65536 ≤ fuel) :
    ∃ m4, initializeEeprom L C fuel m config =
        some (TempControl.init (saveDefaultDevices L m4 config).2) ∧
      m4.eeprom 0 = L.EEPROM_FORMAT_VERSION % 256 ∧
      m4.tempControl = { cc := C.defaultConstants, cs := C.defaultSettings } ∧
      (∀ a, a ≠ 0 → a < L.offset_chambers ∨
          L.offset_chambers + L.MAX_CHAMBERS * L.sizeof_ChamberBlock ≤ a →
        a < L.MAX_EEPROM_SIZE → m4.eeprom a = 0) ∧
      (∀ c, c < L.MAX_CHAMBERS →
        (∀ k, k < L.sizeof_ControlConstants →
          m4.eeprom (L.offset_chambers + c * L.sizeof_ChamberBlock +
            L.offsetof_ChamberBlock_cc + k) = C.defaultConstants.getD k 0 % 256) ∧
        (∀ b, b < L.MAX_BEERS → ∀ k, k < L.sizeof_ControlSettings →
          m4.eeprom (L.offset_chambers + c * L.sizeof_ChamberBlock +
            L.offsetof_ChamberBlock_beer + L.offsetof_BeerBlock_cs +
            b * L.sizeof_BeerBlock + k) = C.defaultSettings.getD k 0 % 256)) := by
  have hsize : L.MAX_EEPROM_SIZE ≤ 65535 := hL.2.2.2.2.1
  have hchm : 1 ≤ L.offset_chambers := by
    have := hL.2.1
    omega
  obtain ⟨m1, h1, hz, _, htc1, _⟩ := fill_loop L 0 fuel m (by decide) hsize (by omega)
  obtain ⟨m3, h3, htc3, _, hframe3, hstored3⟩ := initializeEeprom_chamber_loop L hL fuel
    (TempControl.loadDefaultSettings C (TempControl.loadDefaultConstants C
      (DeviceManager.setupUnconfiguredDevices C m1))) hch hb (by omega) (by omega)
  refine ⟨EepromAccess.writeByte m3 0 L.EEPROM_FORMAT_VERSION, ?_, ?_, ?_, ?_, ?_⟩
  · simp only [initializeEeprom, h1, h3]
  · simp [EepromAccess.writeByte]
  · rw [show (EepromAccess.writeByte m3 0 L.EEPROM_FORMAT_VERSION).tempControl =
      m3.tempControl from rfl, htc3]
    rfl
  · intro a ha0 ha hlt
    have : (EepromAccess.writeByte m3 0 L.EEPROM_FORMAT_VERSION).eeprom a = m3.eeprom a := by
      simp [EepromAccess.writeByte, ha0]
    rw [this, hframe3 a ha]
    exact hz a hlt
  · intro c hc
    obtain ⟨hcc, hcs⟩ := hstored3 c hc
    refine ⟨fun k hk => ?_, fun b hbl k hk => ?_⟩
    · have hne : L.offset_chambers + c * L.sizeof_ChamberBlock +
          L.offsetof_ChamberBlock_cc + k ≠ 0 := by omega
      have := hcc k hk
      simpa [EepromAccess.writeByte, hne] using this
    · have hne : L.offset_chambers + c * L.sizeof_ChamberBlock +
          L.offsetof_ChamberBlock_beer + L.offsetof_BeerBlock_cs +
          b * L.sizeof_BeerBlock + k ≠ 0 := by omega
      have := hcs b hbl k hk
      simpa [EepromAccess.writeByte, hne] using this

/-! ## The device loop of `applySettings` -/

theorem storeDevice_trace (L : Config) (m : Machine D) (r : List Nat) (j : Nat) :
    ∃ evs, (storeDevice L m r j).2.trace = m.trace ++ evs ∧
      ∀ e, e ∈ evs → e.isStoreAccess = true := by
  by_cases h : ((hasSettings L m).1 && decide (j < L.MAX_DEVICES)) = true
  · refine ⟨[Event.readByte L.offset_version,
      Event.writeBlock ((L.offset_devices + L.sizeof_DeviceConfig * j) % 65536)
        ((List.range L.sizeof_DeviceConfig).map (fun k => (r.getD k 0) % 256))], ?_, ?_⟩
    · simp [storeDevice, h, EepromAccess.writeBlock, hasSettings_snd]
    · intro e he
      simp only [List.mem_cons, List.mem_singleton, List.not_mem_nil, or_false] at he
      rcases he with rfl | rfl <;> rfl
  · refine ⟨[Event.readByte L.offset_version], ?_, ?_⟩
    · simp [storeDevice, h, hasSettings_snd]
    · intro e he
      simp only [List.mem_singleton] at he
      subst he
      rfl

theorem slotAtLeast_of_isStoreAccess (n : Nat) (e : Event) (h : e.isStoreAccess = true) :
    Event.slotAtLeast n e := by
  cases e <;> simp_all [Event.isStoreAccess, Event.slotAtLeast]

theorem slotAtLeast_mono (n k : Nat) (e : Event) (hnk : n ≤ k) (h : Event.slotAtLeast k e) :
    Event.slotAtLeast n e := by
  cases e <;> simp_all [Event.slotAtLeast] <;> omega

/-- The loop stops at the first index `fetchDevice` refuses. -/
theorem applySettings_loop_done (L : Config) (C : Collaborators D) (fuel index : Nat)
    (cfg : List Nat) (m : Machine D)
    (h : (hasSettings L m).1 = false ∨ L.MAX_DEVICES ≤ index) :
    applySettings_loop L C (fuel + 1) index cfg m = some (hasSettings L m).2 := by
  simp [applySettings_loop, fetchDevice_of_not_ok L m cfg index h]

/-- One pass of the loop on a slot the device manager accepts. -/
theorem applySettings_loop_valid (L : Config) (C : Collaborators D) (hL : L.WellFormed)
    (fuel index : Nat) (cfg : List Nat) (m : Machine D)
    (hs : (hasSettings L m).1 = true) (hi : index < L.MAX_DEVICES)
    (hv : (C.isDeviceValid m.deviceManager (storedDevice L m index) index).1 = true) :
    applySettings_loop L C (fuel + 1) index cfg m =
      applySettings_loop L C fuel ((index + 1) % 256)
        (C.isDeviceValid m.deviceManager (storedDevice L m index) index).2.1
        { eeprom := m.eeprom
          tempControl := m.tempControl
          deviceManager := C.installDevice
            (C.isDeviceValid m.deviceManager (storedDevice L m index) index).2.2
            (C.isDeviceValid m.deviceManager (storedDevice L m index) index).2.1
          trace := m.trace ++ [Event.readByte L.offset_version,
            Event.readBlock (L.offset_devices + L.sizeof_DeviceConfig * index)
              L.sizeof_DeviceConfig,
            Event.isDeviceValid index (storedDevice L m index) true,
            Event.installDevice index
              (C.isDeviceValid m.deviceManager (storedDevice L m index) index).2.1] } := by
  have hf := fetchDevice_of_ok L m cfg index hs hi
  rw [device_offset_mod L hL index hi] at hf
  rw [applySettings_loop]
  simp only [storedDevice] at hv
  simp only [hf, storedDevice, DeviceManager.isDeviceValid, DeviceManager.installDevice,
    EepromAccess.readBlock, hasSettings_snd, hv, if_true, List.append_assoc,
    List.cons_append, List.nil_append]

/-- One pass of the loop on a slot the device manager rejects. -/
theorem applySettings_loop_invalid (L : Config) (C : Collaborators D) (hL : L.WellFormed)
    (fuel index : Nat) (cfg : List Nat) (m : Machine D)
    (hs : (hasSettings L m).1 = true) (hi : index < L.MAX_DEVICES)
    (hv : (C.isDeviceValid m.deviceManager (storedDevice L m index) index).1 = false) :
    applySettings_loop L C (fuel + 1) index cfg m =
      applySettings_loop L C fuel ((index + 1) % 256)
        (clear (C.isDeviceValid m.deviceManager (storedDevice L m index) index).2.1
          (L.sizeof_DeviceConfig % 256))
        (storeDevice L
          { eeprom := m.eeprom
            tempControl := m.tempControl
            deviceManager :=
              (C.isDeviceValid m.deviceManager (storedDevice L m index) index).2.2
            trace := m.trace ++ [Event.readByte L.offset_version,
              Event.readBlock (L.offset_devices + L.sizeof_DeviceConfig * index)
                L.sizeof_DeviceConfig,
              Event.isDeviceValid index (storedDevice L m index) false] }
          (clear (C.isDeviceValid m.deviceManager (storedDevice L m index) index).2.1
            (L.sizeof_DeviceConfig % 256)) index).2 := by
  have hf := fetchDevice_of_ok L m cfg index hs hi
  rw [device_offset_mod L hL index hi] at hf
  rw [applySettings_loop]
  simp only [storedDevice] at hv
  simp only [hf, storedDevice, DeviceManager.isDeviceValid,
    EepromAccess.readBlock, hasSettings_snd, hv, List.append_assoc,
    List.cons_append, List.nil_append]
  simp

theorem storedDevice_length (L : Config) (m : Machine D) (i : Nat) :
    (storedDevice L m i).length = L.sizeof_DeviceConfig := by
  simp [storedDevice]

/-- The device loop of `applySettings`, started at `index` on a store with settings:
it returns, changes no byte below slot `index`, makes device-manager calls only for
slots from `index` on, and every slot whose record was rejected ends up all-zero with
no `installDevice` call. -/
theorem applySettings_loop_spec (L : Config) (C : Collaborators D) (hL : L.WellFormed)
    (hsz : L.sizeof_DeviceConfig ≤ 255) (hmax : L.MAX_DEVICES ≤ 255) :
    ∀ (n fuel index : Nat) (cfg : List Nat) (m : Machine D),
      index + n = L.MAX_DEVICES → n < fuel → (hasSettings L m).1 = true →
      ∃ m1 evs, applySettings_loop L C fuel index cfg m = some m1 ∧
        m1.trace = m.trace ++ evs ∧
        (∀ a, a < L.offset_devices + L.sizeof_DeviceConfig * index →
          m1.eeprom a = m.eeprom a) ∧
        (∀ e, e ∈ evs → Event.slotAtLeast index e) ∧
        (∀ i r, Event.isDeviceValid i r false ∈ evs →
          storedDevice L m1 i = List.replicate L.sizeof_DeviceConfig 0 ∧
          ∀ c, Event.installDevice i c ∉ evs) := by
  intro n
  induction n with
  | zero =>
    intro fuel index cfg m hi hf hs
    obtain ⟨f, rfl⟩ : ∃ f, fuel = f + 1 := ⟨fuel - 1, by omega⟩
    refine ⟨(hasSettings L m).2, [Event.readByte L.offset_version],
      applySettings_loop_done L C f index cfg m (Or.inr (by omega)), ?_, ?_, ?_, ?_⟩
    · rw [hasSettings_snd]
    · intro a _
      rfl
    · intro e he
      rw [List.mem_singleton] at he
      subst he
      trivial
    · intro i r h
      simp at h
  | succ n ih =>
    intro fuel index cfg m hi hf hs
    obtain ⟨f, rfl⟩ : ∃ f, fuel = f + 1 := ⟨fuel - 1, by omega⟩
    have hlt : index < L.MAX_DEVICES := by omega
    have hmod : (index + 1) % 256 = index + 1 := Nat.mod_eq_of_lt (by omega)
    cases hv : (C.isDeviceValid m.deviceManager (storedDevice L m index) index).1 with
    | false =>
      rw [applySettings_loop_invalid L C hL f index cfg m hs hlt hv, hmod]
      have hzero : clear (C.isDeviceValid m.deviceManager (storedDevice L m index) index).2.1
          (L.sizeof_DeviceConfig % 256) = List.replicate L.sizeof_DeviceConfig 0 := by
        have hlen : (C.isDeviceValid m.deviceManager (storedDevice L m index) index).2.1.length
            = L.sizeof_DeviceConfig := by
          rw [C.isDeviceValid_length, storedDevice_length]
        rw [Nat.mod_eq_of_lt (by omega)]
        conv_lhs => rw [← hlen]
        rw [clear_eq_replicate, hlen]
      rw [hzero]
      generalize hmb : ({ eeprom := m.eeprom
                          tempControl := m.tempControl
                          deviceManager :=
                            (C.isDeviceValid m.deviceManager (storedDevice L m index) index).2.2
                          trace := m.trace ++ [Event.readByte L.offset_version,
                            Event.readBlock (L.offset_devices + L.sizeof_DeviceConfig * index)
                              L.sizeof_DeviceConfig,
                            Event.isDeviceValid index (storedDevice L m index) false] }
                        : Machine D) = mb
      have hmbe : mb.eeprom = m.eeprom := by rw [← hmb]
      have hmbt : mb.trace = m.trace ++ [Event.readByte L.offset_version,
          Event.readBlock (L.offset_devices + L.sizeof_DeviceConfig * index)
            L.sizeof_DeviceConfig,
          Event.isDeviceValid index (storedDevice L m index) false] := by rw [← hmb]
      have hsb : (hasSettings L mb).1 = true := by
        rw [hasSettings_fst, hmbe, ← hasSettings_fst]; exact hs
      obtain ⟨sevs, hst, hsacc⟩ := storeDevice_trace L mb
        (List.replicate L.sizeof_DeviceConfig 0) index
      have hsc : (hasSettings L (storeDevice L mb
          (List.replicate L.sizeof_DeviceConfig 0) index).2).1 = true := by
        rw [hasSettings_storeDevice L hL]; exact hsb
      obtain ⟨m1, evs1, h1, htr, hframe, hslots, hrej⟩ := ih f (index + 1)
        (List.replicate L.sizeof_DeviceConfig 0)
        (storeDevice L mb (List.replicate L.sizeof_DeviceConfig 0) index).2
        (by omega) (by omega) hsc
      have hsame : storedDevice L m1 index = List.replicate L.sizeof_DeviceConfig 0 := by
        have h2 : storedDevice L m1 index = storedDevice L (storeDevice L mb
            (List.replicate L.sizeof_DeviceConfig 0) index).2 index := by
          unfold storedDevice
          apply List.map_congr_left
          intro k hk
          have hk1 : k < L.sizeof_DeviceConfig := List.mem_range.mp hk
          exact hframe _ (by rw [Nat.mul_succ]; omega)
        rw [h2]
        exact storedDevice_storeDevice_same L hL mb _ index hsb hlt
          (replicate_zero_isImage _)
      refine ⟨m1, [Event.readByte L.offset_version,
          Event.readBlock (L.offset_devices + L.sizeof_DeviceConfig * index)
            L.sizeof_DeviceConfig,
          Event.isDeviceValid index (storedDevice L m index) false] ++ (sevs ++ evs1),
        h1, ?_, ?_, ?_, ?_⟩
      · rw [htr, hst, hmbt]
        simp only [List.append_assoc]
      · intro a ha
        rw [hframe a (by rw [Nat.mul_succ]; omega),
          storeDevice_eeprom_outside L hL mb _ index a (Or.inl ha), hmbe]
      · intro e he
        rcases List.mem_append.mp he with h | h
        · simp only [List.mem_cons, List.mem_singleton, List.not_mem_nil, or_false] at h
          rcases h with rfl | rfl | rfl
          · trivial
          · trivial
          · exact Nat.le_refl _
        · rcases List.mem_append.mp h with h | h
          · exact slotAtLeast_of_isStoreAccess _ _ (hsacc e h)
          · exact slotAtLeast_mono _ _ _ (by omega) (hslots e h)
      · intro i r hmem
        have hnoinst : ∀ j c, j ≤ index → Event.installDevice j c ∉
            [Event.readByte L.offset_version,
              Event.readBlock (L.offset_devices + L.sizeof_DeviceConfig * index)
                L.sizeof_DeviceConfig,
              Event.isDeviceValid index (storedDevice L m index) false] ++ (sevs ++ evs1) := by
          intro j c hj hin
          rcases List.mem_append.mp hin with h | h
          · simp at h
          · rcases List.mem_append.mp h with h | h
            · have := hsacc _ h
              simp [Event.isStoreAccess] at this
            · have := hslots _ h
              simp only [Event.slotAtLeast] at this
              omega
        rcases List.mem_append.mp hmem with h | h
        · simp only [List.mem_cons, List.mem_singleton, List.not_mem_nil, or_false,
            Event.isDeviceValid.injEq, reduceCtorEq, false_or] at h
          obtain ⟨hi1, _, _⟩ := h
          subst hi1
          exact ⟨hsame, fun c => hnoinst i c (Nat.le_refl _)⟩
        · rcases List.mem_append.mp h with h | h
          · have := hsacc _ h
            simp [Event.isStoreAccess] at this
          · obtain ⟨hz, hni⟩ := hrej i r h
            have hge := hslots _ h
            simp only [Event.slotAtLeast] at hge
            refine ⟨hz, fun c hin => ?_⟩
            rcases List.mem_append.mp hin with h3 | h3
            · simp at h3
            · rcases List.mem_append.mp h3 with h3 | h3
              · have := hsacc _ h3
                simp [Event.isStoreAccess] at this
              · exact hni c h3
    | true =>
      rw [applySettings_loop_valid L C hL f index cfg m hs hlt hv, hmod]
      generalize hmc : ({ eeprom := m.eeprom
                          tempControl := m.tempControl
                          deviceManager := C.installDevice
                            (C.isDeviceValid m.deviceManager (storedDevice L m index) index).2.2
                            (C.isDeviceValid m.deviceManager (storedDevice L m index) index).2.1
                          trace := m.trace ++ [Event.readByte L.offset_version,
                            Event.readBlock (L.offset_devices + L.sizeof_DeviceConfig * index)
                              L.sizeof_DeviceConfig,
                            Event.isDeviceValid index (storedDevice L m index) true,
                            Event.installDevice index
                              (C.isDeviceValid m.deviceManager (storedDevice L m index)
                                index).2.1] }
                        : Machine D) = mc
      have hmce : mc.eeprom = m.eeprom := by rw [← hmc]
      have hmct : mc.trace = m.trace ++ [Event.readByte L.offset_version,
          Event.readBlock (L.offset_devices + L.sizeof_DeviceConfig * index)
            L.sizeof_DeviceConfig,
          Event.isDeviceValid index (storedDevice L m index) true,
          Event.installDevice index
            (C.isDeviceValid m.deviceManager (storedDevice L m index) index).2.1] := by
        rw [← hmc]
      have hsc : (hasSettings L mc).1 = true := by
        rw [hasSettings_fst, hmce, ← hasSettings_fst]; exact hs
      obtain ⟨m1, evs1, h1, htr, hframe, hslots, hrej⟩ := ih f (index + 1)
        (C.isDeviceValid m.deviceManager (storedDevice L m index) index).2.1 mc
        (by omega) (by omega) hsc
      refine ⟨m1, [Event.readByte L.offset_version,
          Event.readBlock (L.offset_devices + L.sizeof_DeviceConfig * index)
            L.sizeof_DeviceConfig,
          Event.isDeviceValid index (storedDevice L m index) true,
          Event.installDevice index
            (C.isDeviceValid m.deviceManager (storedDevice L m index) index).2.1] ++ evs1,
        h1, ?_, ?_, ?_, ?_⟩
      · rw [htr, hmct]
        simp only [List.append_assoc]
      · intro a ha
        rw [hframe a (by rw [Nat.mul_succ]; omega), hmce]
      · intro e he
        rcases List.mem_append.mp he with h | h
        · simp only [List.mem_cons, List.mem_singleton, List.not_mem_nil, or_false] at h
          rcases h with rfl | rfl | rfl | rfl
          · trivial
          · trivial
          · exact Nat.le_refl _
          · exact Nat.le_refl _
        · exact slotAtLeast_mono _ _ _ (by omega) (hslots e h)
      · intro i r hmem
        rcases List.mem_append.mp hmem with h | h
        · simp at h
        · obtain ⟨hz, hni⟩ := hrej i r h
          have hge := hslots _ h
          simp only [Event.slotAtLeast] at hge
          refine ⟨hz, fun c hin => ?_⟩
          rcases List.mem_append.mp hin with h3 | h3
          · simp only [List.mem_cons, List.mem_singleton, List.not_mem_nil, or_false,
              Event.installDevice.injEq, reduceCtorEq, false_or] at h3
            omega
          · exact hni c h3

/-- The load phase of `applySettings` leaves the store as it is and makes no
`isDeviceValid` or `installDevice` call. -/
theorem applySettings_load_spec (L : Config) (C : Collaborators D) (m : Machine D) :
    (applySettings_load L C m).eeprom = m.eeprom ∧
    ∃ evs, (applySettings_load L C m).trace = m.trace ++ evs ∧
      ∀ e, e ∈ evs → ∀ n, Event.slotAtLeast n e := by
  refine ⟨rfl, [Event.setupUnconfiguredDevices,
    Event.readBlock ((L.offset_chambers % 65536 + L.offsetof_ChamberBlock_cc) % 65536)
      L.sizeof_ControlConstants,
    Event.loadConstants ((L.offset_chambers % 65536 + L.offsetof_ChamberBlock_cc) % 65536),
    Event.readBlock ((L.offset_chambers % 65536 + L.offsetof_ChamberBlock_beer0_cs) % 65536)
      L.sizeof_ControlSettings,
    Event.loadSettings ((L.offset_chambers % 65536 + L.offsetof_ChamberBlock_beer0_cs) % 65536)],
    ?_, ?_⟩
  · simp [applySettings_load, TempControl.loadSettings, TempControl.loadConstants,
      EepromAccess.readBlock, DeviceManager.setupUnconfiguredDevices]
  · intro e he n
    simp only [List.mem_cons, List.mem_singleton, List.not_mem_nil, or_false] at he
    rcases he with rfl | rfl | rfl | rfl | rfl <;> trivial

/-- On a store with settings and outside simulation mode, `applySettings` returns
true; the events it adds are those of the check, the load phase and the device loop. -/
theorem applySettings_spec (L : Config) (C : Collaborators D) (fuel : Nat) (m : Machine D)
    (cfg : List Nat) (hL : L.WellFormed) (hsz : L.sizeof_DeviceConfig ≤ 255)
    (hmax : L.MAX_DEVICES ≤ 255) (hsim : L.BREWPI_SIMULATE = false)
    (hs : (hasSettings L m).1 = true) (hfuel : L.MAX_DEVICES < fuel) :
    ∃ m1, applySettings L C fuel m cfg = some (true, m1) ∧
      (∀ a, a < L.offset_devices → m1.eeprom a = m.eeprom a) ∧
      (∀ i r, Event.isDeviceValid i r false ∈ applySettings_events L C fuel m cfg →
        storedDevice L m1 i = List.replicate L.sizeof_DeviceConfig 0 ∧
        ∀ c, Event.installDevice i c ∉ applySettings_events L C fuel m cfg) := by
  obtain ⟨hle, levs, hlt, hlev⟩ := applySettings_load_spec L C (hasSettings L m).2
  have hs0 : (hasSettings L (applySettings_load L C (hasSettings L m).2)).1 = true := by
    rw [hasSettings_fst, hle]; exact hs
  obtain ⟨m1, evs, h1, htr, hframe, hslots, hrej⟩ := applySettings_loop_spec L C hL hsz hmax
    L.MAX_DEVICES fuel 0 cfg (applySettings_load L C (hasSettings L m).2) (by omega) hfuel hs0
  have happ : applySettings L C fuel m cfg = some (true, m1) := by
    simp [applySettings, hs, hsim, h1]
  have hev : applySettings_events L C fuel m cfg =
      Event.readByte L.offset_version :: (levs ++ evs) := by
    simp only [applySettings_events, happ]
    rw [htr, hlt]
    simp only [hasSettings_snd, List.append_assoc, List.drop_left, List.singleton_append,
      List.cons_append, List.nil_append]
  refine ⟨m1, happ, ?_, ?_⟩
  · intro a ha
    rw [hframe a (by omega), hle]
    rfl
  · intro i r hmem
    rw [hev] at hmem ⊢
    have hin : Event.isDeviceValid i r false ∈ evs := by
      rcases List.mem_cons.mp hmem with h | h
      · cases h
      · rcases List.mem_append.mp h with h | h
        · have := hlev _ h (i + 1)
          simp only [Event.slotAtLeast] at this
          omega
        · exact h
    obtain ⟨hz, hni⟩ := hrej i r hin
    refine ⟨hz, fun c hc => ?_⟩
    rcases List.mem_cons.mp hc with h | h
    · cases h
    · rcases List.mem_append.mp h with h | h
      · have := hlev _ h (i + 1)
        simp only [Event.slotAtLeast] at this
        omega
      · exact hni c h

/-! ## Replaying traces -/

theorem replay_append (evs1 evs2 : List Event) :
    ∀ s : Nat → Nat, replay s (evs1 ++ evs2) = replay (replay s evs1) evs2 := by
  induction evs1 with
  | nil => intro s; rfl
  | cons e es ih => intro s; exact ih (e.apply s)

theorem apply_untouched (a : Nat) (e : Event) (s : Nat → Nat) (h : ¬ Event.touches a e) :
    e.apply s a = s a := by
  cases e with
  | writeByte offset value =>
    have hne : ¬ a = offset := h
    simp [Event.apply, hne]
  | writeBlock offset data =>
    have hne : ¬ (offset ≤ a ∧ a < offset + data.length) := h
    simp only [Event.apply, if_neg hne]
  | _ => rfl

theorem apply_touched (a : Nat) (e : Event) (s t : Nat → Nat) (h : Event.touches a e) :
    e.apply s a = e.apply t a := by
  cases e with
  | writeByte offset value =>
    have he : a = offset := h
    simp [Event.apply, he]
  | writeBlock offset data =>
    have he : offset ≤ a ∧ a < offset + data.length := h
    simp only [Event.apply, if_pos he]
  | _ => exact absurd h (by simp [Event.touches])

/-- An address no write of the trace covers keeps its byte. -/
theorem replay_untouched (a : Nat) (evs : List Event) :
    ∀ s : Nat → Nat, (∀ e, e ∈ evs → ¬ Event.touches a e) → replay s evs a = s a := by
  induction evs with
  | nil => intro s _; rfl
  | cons e es ih =>
    intro s h
    have h1 : e.apply s a = s a := apply_untouched a e s (h e (List.mem_cons_self _ _))
    show replay (e.apply s) es a = s a
    rw [ih (e.apply s) (fun x hx => h x (List.mem_cons_of_mem _ hx)), h1]

/-- The byte a trace leaves at an address depends on the starting store only through
that address, and not at all once a write of the trace covers it. -/
theorem replay_congr (a : Nat) (evs : List Event) :
    ∀ s t : Nat → Nat, (s a = t a ∨ ∃ e, e ∈ evs ∧ Event.touches a e) →
      replay s evs a = replay t evs a := by
  induction evs with
  | nil =>
    intro s t h
    rcases h with h | ⟨e, he, _⟩
    · exact h
    · exact absurd he (List.not_mem_nil _)
  | cons e es ih =>
    intro s t h
    show replay (e.apply s) es a = replay (e.apply t) es a
    by_cases hto : Event.touches a e
    · apply ih
      left
      exact apply_touched a e s t hto
    · apply ih
      rcases h with h | ⟨x, hx, hxt⟩
      · left
        rw [apply_untouched a e s hto, apply_untouched a e t hto, h]
      · rcases List.mem_cons.mp hx with rfl | hx
        · exact absurd hxt hto
        · exact Or.inr ⟨x, hx, hxt⟩

theorem Reaches.rfl_nil (m : Machine D) : Reaches m [] m :=
  ⟨(List.append_nil _).symm, rfl⟩

theorem Reaches.trans {m m1 m2 : Machine D} {evs1 evs2 : List Event}
    (h1 : Reaches m evs1 m1) (h2 : Reaches m1 evs2 m2) : Reaches m (evs1 ++ evs2) m2 := by
  refine ⟨?_, ?_⟩
  · rw [h2.1, h1.1, List.append_assoc]
  · rw [h2.2, h1.2, replay_append]

theorem blockImage_length (src : List Nat) (n : Nat) : (blockImage src n).length = n := by
  simp [blockImage]

theorem blockImage_getD (src : List Nat) (n k : Nat) (hk : k < n) :
    (blockImage src n).getD k 0 = src.getD k 0 % 256 := by
  simp [blockImage, List.getD_eq_getElem?_getD, List.getElem?_map, List.getElem?_range hk]

theorem blockImage_replicate_zero (n : Nat) :
    blockImage (List.replicate n 0) n = List.replicate n 0 := by
  apply List.ext_getElem
  · simp [blockImage]
  · intro k h1 h2
    have hk : k < n := by simpa [blockImage] using h1
    simp [blockImage, List.getD_eq_getElem?_getD, hk]

/-- A record image is what `writeBlock` records for it. -/
theorem blockImage_of_isImage (n : Nat) (r : List Nat) (hr : IsImage n r) :
    blockImage r n = r := by
  obtain ⟨hlen, hb⟩ := hr
  apply List.ext_getElem
  · simp [blockImage, hlen]
  · intro k h1 h2
    have hmem : r[k] ∈ r := List.getElem_mem h2
    simp [blockImage, List.getD_eq_getElem?_getD, List.getElem?_eq_getElem h2,
      Nat.mod_eq_of_lt (hb _ hmem)]

theorem reaches_readByte (m : Machine D) (offset : Nat) :
    Reaches m [Event.readByte offset] (EepromAccess.readByte m offset).2 := ⟨rfl, rfl⟩

theorem reaches_readBlock (m : Machine D) (offset n : Nat) :
    Reaches m [Event.readBlock offset n] (EepromAccess.readBlock m offset n).2 := ⟨rfl, rfl⟩

theorem reaches_writeByte (m : Machine D) (offset v : Nat) :
    Reaches m [Event.writeByte offset (v % 256)] (EepromAccess.writeByte m offset v) :=
  ⟨rfl, rfl⟩

theorem reaches_writeBlock (m : Machine D) (offset : Nat) (src : List Nat) (n : Nat) :
    Reaches m [Event.writeBlock offset (blockImage src n)]
      (EepromAccess.writeBlock m offset src n) := by
  refine ⟨rfl, ?_⟩
  funext a
  show (if offset ≤ a ∧ a < offset + n then src.getD (a - offset) 0 % 256 else m.eeprom a) =
    (if offset ≤ a ∧ a < offset + (blockImage src n).length then
      (blockImage src n).getD (a - offset) 0 else m.eeprom a)
  rw [blockImage_length]
  by_cases h : offset ≤ a ∧ a < offset + n
  · rw [if_pos h, if_pos h, blockImage_getD src n (a - offset) (by omega)]
  · rw [if_neg h, if_neg h]

theorem reaches_hasSettings (L : Config) (m : Machine D) :
    Reaches m [Event.readByte L.offset_version] (hasSettings L m).2 := ⟨rfl, rfl⟩

/-- On a store with settings `storeDevice` on a slot in range is the version check
followed by one block write of the record into the slot. -/
theorem reaches_storeDevice (L : Config) (hL : L.WellFormed) (m : Machine D) (r : List Nat)
    (j : Nat) (hs : (hasSettings L m).1 = true) :
    Reaches m (storeDeviceEvents L r j) (storeDevice L m r j).2 := by
  unfold storeDeviceEvents
  by_cases hj : j < L.MAX_DEVICES
  · rw [if_pos hj, storeDevice_of_ok L m r j hs hj, device_offset_mod L hL j hj]
    exact Reaches.trans (reaches_hasSettings L m) (reaches_writeBlock _ _ _ _)
  · rw [if_neg hj, storeDevice_of_not_ok L m r j (Or.inr (by omega))]
    exact reaches_hasSettings L m

/-- The offsets of chamber 0 used by `applySettings` and the `storeTemp...` functions
do not wrap and their blocks end before the device table. -/
theorem chamber0_offsets (L : Config) (hL : L.WellFormed) (hc0 : 0 < L.MAX_CHAMBERS)
    (hb0 : 0 < L.MAX_BEERS) :
    (L.offset_chambers % 65536 + L.offsetof_ChamberBlock_cc) % 65536 =
      L.offset_chambers + L.offsetof_ChamberBlock_cc ∧
    (L.offset_chambers % 65536 + L.offsetof_ChamberBlock_beer0_cs) % 65536 =
      L.offset_chambers + L.offsetof_ChamberBlock_beer + L.offsetof_BeerBlock_cs ∧
    L.offset_chambers + L.offsetof_ChamberBlock_cc + L.sizeof_ControlConstants ≤
      L.offset_chambers + L.offsetof_ChamberBlock_beer ∧
    L.offset_chambers + L.offsetof_ChamberBlock_beer + L.offsetof_BeerBlock_cs +
      L.sizeof_ControlSettings ≤ L.offset_devices ∧
    1 ≤ L.offset_chambers ∧ L.offset_devices ≤ L.MAX_EEPROM_SIZE ∧
    L.MAX_EEPROM_SIZE ≤ 65535 := by
  obtain ⟨hblk, hdev⟩ := chamber_block_bound L hL 0 hc0
  obtain ⟨h1, h2, h3, h4, h5, h6, h7, h8⟩ := hL
  have hb1 : L.sizeof_BeerBlock ≤ L.MAX_BEERS * L.sizeof_BeerBlock :=
    Nat.le_mul_of_pos_left _ hb0
  simp only [Nat.zero_mul, Nat.add_zero] at hblk
  have hpv : L.offset_chambers % 65536 = L.offset_chambers := Nat.mod_eq_of_lt (by omega)
  unfold Config.offsetof_ChamberBlock_beer0_cs
  rw [hpv]
  refine ⟨Nat.mod_eq_of_lt (by omega), ?_, by omega, by omega, by omega, by omega, h5⟩
  rw [Nat.mod_eq_of_lt (by omega)]
  omega

/-- What `storeTempSettings` does, whatever the version byte holds: one block write of
the live settings at the settings of chamber 0 / beer 0. -/
theorem reaches_storeTempSettings (L : Config) (hL : L.WellFormed) (m : Machine D)
    (hc0 : 0 < L.MAX_CHAMBERS) (hb0 : 0 < L.MAX_BEERS) :
    Reaches m [Event.writeBlock
        (L.offset_chambers + L.offsetof_ChamberBlock_beer + L.offsetof_BeerBlock_cs)
        (blockImage m.tempControl.cs L.sizeof_ControlSettings)]
      (storeTempSettings L m) := by
  obtain ⟨_, h2, _⟩ := chamber0_offsets L hL hc0 hb0
  have h := reaches_writeBlock m
    (L.offset_chambers + L.offsetof_ChamberBlock_beer + L.offsetof_BeerBlock_cs)
    m.tempControl.cs L.sizeof_ControlSettings
  have heq : storeTempSettings L m = EepromAccess.writeBlock m
      (L.offset_chambers + L.offsetof_ChamberBlock_beer + L.offsetof_BeerBlock_cs)
      m.tempControl.cs L.sizeof_ControlSettings := by
    simp only [storeTempSettings, TempControl.storeSettings, Nat.mul_zero, Nat.add_zero,
      Nat.mod_mod, h2]
  rw [heq]
  exact h

/-- What `storeTempConstantsAndSettings` does, whatever the version byte holds: one
block write of the live constants at the constants of chamber 0, then the write of
`storeTempSettings`. -/
theorem reaches_storeTempConstantsAndSettings (L : Config) (hL : L.WellFormed)
    (m : Machine D) (hc0 : 0 < L.MAX_CHAMBERS) (hb0 : 0 < L.MAX_BEERS) :
    Reaches m [Event.writeBlock (L.offset_chambers + L.offsetof_ChamberBlock_cc)
        (blockImage m.tempControl.cc L.sizeof_ControlConstants),
      Event.writeBlock
        (L.offset_chambers + L.offsetof_ChamberBlock_beer + L.offsetof_BeerBlock_cs)
        (blockImage m.tempControl.cs L.sizeof_ControlSettings)]
      (storeTempConstantsAndSettings L m) := by
  obtain ⟨h1, _⟩ := chamber0_offsets L hL hc0 hb0
  have heq : storeTempConstantsAndSettings L m = storeTempSettings L
      (EepromAccess.writeBlock m (L.offset_chambers + L.offsetof_ChamberBlock_cc)
        m.tempControl.cc L.sizeof_ControlConstants) := by
    simp only [storeTempConstantsAndSettings, TempControl.storeConstants, Nat.mul_zero,
      Nat.add_zero, Nat.mod_mod, h1]
  rw [heq]
  exact Reaches.trans (reaches_writeBlock m _ _ _)
    (reaches_storeTempSettings L hL _ hc0 hb0)

/-- Frame of `storeTempSettings`: no byte outside the settings block of chamber 0 /
beer 0 changes. -/
theorem storeTempSettings_eeprom_outside (L : Config) (hL : L.WellFormed) (m : Machine D)
    (hc0 : 0 < L.MAX_CHAMBERS) (hb0 : 0 < L.MAX_BEERS) (a : Nat)
    (ha : a < L.offset_chambers + L.offsetof_ChamberBlock_beer + L.offsetof_BeerBlock_cs ∨
      L.offset_chambers + L.offsetof_ChamberBlock_beer + L.offsetof_BeerBlock_cs +
        L.sizeof_ControlSettings ≤ a) :
    (storeTempSettings L m).eeprom a = m.eeprom a := by
  rw [(reaches_storeTempSettings L hL m hc0 hb0).2]
  apply replay_untouched
  intro e he
  rw [List.mem_singleton] at he
  subst he
  simp only [Event.touches, blockImage_length]
  omega

/-- Frame of `storeTempConstantsAndSettings`: no byte outside the constants block of
chamber 0 and the settings block of chamber 0 / beer 0 changes. -/
theorem storeTempConstantsAndSettings_eeprom_outside (L : Config) (hL : L.WellFormed)
    (m : Machine D) (hc0 : 0 < L.MAX_CHAMBERS) (hb0 : 0 < L.MAX_BEERS) (a : Nat)
    (hcc : a < L.offset_chambers + L.offsetof_ChamberBlock_cc ∨
      L.offset_chambers + L.offsetof_ChamberBlock_cc + L.sizeof_ControlConstants ≤ a)
    (hcs : a < L.offset_chambers + L.offsetof_ChamberBlock_beer + L.offsetof_BeerBlock_cs ∨
      L.offset_chambers + L.offsetof_ChamberBlock_beer + L.offsetof_BeerBlock_cs +
        L.sizeof_ControlSettings ≤ a) :
    (storeTempConstantsAndSettings L m).eeprom a = m.eeprom a := by
  rw [(reaches_storeTempConstantsAndSettings L hL m hc0 hb0).2]
  apply replay_untouched
  intro e he
  simp only [List.mem_cons, List.mem_singleton, List.not_mem_nil, or_false] at he
  rcases he with rfl | rfl
  · simp only [Event.touches, blockImage_length]
    omega
  · simp only [Event.touches, blockImage_length]
    omega

theorem hasSettings_storeTempSettings (L : Config) (hL : L.WellFormed) (m : Machine D)
    (hc0 : 0 < L.MAX_CHAMBERS) (hb0 : 0 < L.MAX_BEERS) :
    (hasSettings L (storeTempSettings L m)).1 = (hasSettings L m).1 := by
  obtain ⟨_, _, _, _, h5, _⟩ := chamber0_offsets L hL hc0 hb0
  rw [hasSettings_fst, hasSettings_fst,
    storeTempSettings_eeprom_outside L hL m hc0 hb0 _ (Or.inl (by rw [hL.1]; omega))]

theorem hasSettings_storeTempConstantsAndSettings (L : Config) (hL : L.WellFormed)
    (m : Machine D) (hc0 : 0 < L.MAX_CHAMBERS) (hb0 : 0 < L.MAX_BEERS) :
    (hasSettings L (storeTempConstantsAndSettings L m)).1 = (hasSettings L m).1 := by
  obtain ⟨_, _, _, _, h5, _⟩ := chamber0_offsets L hL hc0 hb0
  rw [hasSettings_fst, hasSettings_fst,
    storeTempConstantsAndSettings_eeprom_outside L hL m hc0 hb0 _
      (Or.inl (by rw [hL.1]; omega)) (Or.inl (by rw [hL.1]; omega))]

/-! ## The trace of `initializeEeprom` -/

theorem fillEvents_succ (n v : Nat) :
    fillEvents (n + 1) v = fillEvents n v ++ [Event.writeByte n v] := by
  simp [fillEvents, List.range_succ]

/-- The byte-fill loop shared by `zapEeprom` and `initializeEeprom` is one byte write
per address, in ascending order. -/
theorem reaches_fill_loop (L : Config) (v fuel : Nat) (m : Machine D) (hv : v < 256)
    (hsize : L.MAX_EEPROM_SIZE ≤ 65535) (hfuel : L.MAX_EEPROM_SIZE < fuel) :
    ∃ m1, forLoop 65536 L.MAX_EEPROM_SIZE
        (fun offset m1 => some (EepromAccess.writeByte m1 offset v)) fuel 0 m = some m1 ∧
      Reaches m (fillEvents L.MAX_EEPROM_SIZE v) m1 ∧
      m1.tempControl = m.tempControl ∧ m1.deviceManager = m.deviceManager :=
  forLoop_from_zero 65536 L.MAX_EEPROM_SIZE
    (fun offset m1 => some (EepromAccess.writeByte m1 offset v))
    (fun i m1 => Reaches m (fillEvents i v) m1 ∧ m1.tempControl = m.tempControl ∧
      m1.deviceManager = m.deviceManager)
    fuel m (by omega) hfuel ⟨Reaches.rfl_nil m, rfl, rfl⟩
    (by
      intro i s _ ⟨hr, htc, hdm⟩
      refine ⟨_, rfl, ?_, htc, hdm⟩
      rw [fillEvents_succ]
      have h := reaches_writeByte s i v
      rw [Nat.mod_eq_of_lt hv] at h
      exact Reaches.trans hr h)

/-- The inner loop of `initializeEeprom` is one block write of the live settings per
beer slot, in ascending order. -/
theorem reaches_beer_loop (L : Config) (fuel base0 : Nat) (m : Machine D)
    (hb : L.MAX_BEERS ≤ 255) (hf : L.MAX_BEERS < fuel)
    (hcs : L.offsetof_BeerBlock_cs + L.sizeof_ControlSettings ≤ L.sizeof_BeerBlock)
    (hlim : base0 + L.MAX_BEERS * L.sizeof_BeerBlock ≤ 65535) :
    ∃ s1, forLoop 256 L.MAX_BEERS (initializeEeprom_beer L) fuel 0
        ((base0 + L.offsetof_BeerBlock_cs) % 65536, m) = some s1 ∧
      Reaches m (beerEvents L m.tempControl.cs base0 L.MAX_BEERS) s1.2 := by
  have h := forLoop_from_zero 256 L.MAX_BEERS (initializeEeprom_beer L)
    (fun b s => s.1 = (base0 + L.offsetof_BeerBlock_cs + b * L.sizeof_BeerBlock) % 65536 ∧
      s.2.tempControl = m.tempControl ∧
      Reaches m (beerEvents L m.tempControl.cs base0 b) s.2)
    fuel ((base0 + L.offsetof_BeerBlock_cs) % 65536, m) (by omega) hf
    ⟨by simp, rfl, Reaches.rfl_nil m⟩
    (by
      rintro b ⟨pv, m1⟩ hbl ⟨hpv, htc, hr⟩
      simp only at hpv htc hr
      have hmul : b * L.sizeof_BeerBlock + L.sizeof_BeerBlock ≤
          L.MAX_BEERS * L.sizeof_BeerBlock := by
        have := Nat.mul_le_mul_right L.sizeof_BeerBlock (Nat.succ_le_of_lt hbl)
        rwa [Nat.succ_mul] at this
      have hpv2 : pv = base0 + L.offsetof_BeerBlock_cs + b * L.sizeof_BeerBlock := by
        rw [hpv]; exact Nat.mod_eq_of_lt (by omega)
      refine ⟨_, rfl, ?_, htc, ?_⟩
      · simp only [hpv, Nat.succ_mul, Nat.mod_add_mod]
        congr 1
        omega
      · show Reaches m (beerEvents L m.tempControl.cs base0 b ++ _)
          (EepromAccess.writeBlock m1 pv m1.tempControl.cs L.sizeof_ControlSettings)
        have h := reaches_writeBlock m1 pv m1.tempControl.cs L.sizeof_ControlSettings
        have hev : blockImage m1.tempControl.cs L.sizeof_ControlSettings =
            blockImage m.tempControl.cs L.sizeof_ControlSettings := by rw [htc]
        rw [hev] at h
        subst hpv2
        exact Reaches.trans hr h)
  obtain ⟨s1, hs1, _, _, hr⟩ := h
  exact ⟨s1, hs1, hr⟩

/-- One pass of the outer loop of `initializeEeprom` is the write of the live constants
followed by the writes of the inner loop. -/
theorem reaches_chamber (L : Config) (hL : L.WellFormed) (fuel c : Nat)
    (m : Machine D) (hb : L.MAX_BEERS ≤ 255) (hf : L.MAX_BEERS < fuel)
    (hc : c < L.MAX_CHAMBERS) :
    ∃ m2, initializeEeprom_chamber L fuel c m = some m2 ∧
      Reaches m (Event.writeBlock (L.offset_chambers + c * L.sizeof_ChamberBlock +
          L.offsetof_ChamberBlock_cc) (blockImage m.tempControl.cc L.sizeof_ControlConstants) ::
        beerEvents L m.tempControl.cs (L.offset_chambers + c * L.sizeof_ChamberBlock +
          L.offsetof_ChamberBlock_beer) L.MAX_BEERS) m2 := by
  obtain ⟨hblk, hdev⟩ := chamber_block_bound L hL c hc
  obtain ⟨_, _, _, _, _, h6, h7, h8⟩ := hL
  have hpv : (L.offset_chambers + c * L.sizeof_ChamberBlock) % 65536 =
      L.offset_chambers + c * L.sizeof_ChamberBlock := Nat.mod_eq_of_lt (by omega)
  have hcc : (L.offset_chambers + c * L.sizeof_ChamberBlock + L.offsetof_ChamberBlock_cc)
      % 65536 = L.offset_chambers + c * L.sizeof_ChamberBlock + L.offsetof_ChamberBlock_cc :=
    Nat.mod_eq_of_lt (by omega)
  have hpv2 : (L.offset_chambers + c * L.sizeof_ChamberBlock +
      (L.offsetof_ChamberBlock_beer + L.offsetof_BeerBlock_cs)) % 65536 =
      (L.offset_chambers + c * L.sizeof_ChamberBlock + L.offsetof_ChamberBlock_beer +
        L.offsetof_BeerBlock_cs) % 65536 := by
    congr 1
    omega
  obtain ⟨s1, hs1, hr⟩ := reaches_beer_loop L fuel
    (L.offset_chambers + c * L.sizeof_ChamberBlock + L.offsetof_ChamberBlock_beer)
    (TempControl.storeConstants L m
      (L.offset_chambers + c * L.sizeof_ChamberBlock + L.offsetof_ChamberBlock_cc))
    hb hf h8 (by omega)
  refine ⟨s1.2, ?_, ?_⟩
  · simp only [initializeEeprom_chamber, hpv, hcc, hpv2, hs1]
  · exact Reaches.trans (reaches_writeBlock m _ m.tempControl.cc L.sizeof_ControlConstants) hr

/-- The outer loop of `initializeEeprom` is, chamber after chamber, the write of the
live constants followed by one write of the live settings per beer slot. -/
theorem reaches_chamber_loop (L : Config) (hL : L.WellFormed) (fuel : Nat)
    (m : Machine D) (hch : L.MAX_CHAMBERS ≤ 255) (hb : L.MAX_BEERS ≤ 255)
    (hfc : L.MAX_CHAMBERS < fuel) (hfb : L.MAX_BEERS < fuel) :
    ∃ m1, forLoop 256 L.MAX_CHAMBERS (initializeEeprom_chamber L fuel) fuel 0 m = some m1 ∧
      Reaches m (chamberEvents L m.tempControl.cc m.tempControl.cs L.MAX_CHAMBERS) m1 := by
  have h := forLoop_from_zero 256 L.MAX_CHAMBERS (initializeEeprom_chamber L fuel)
    (fun c m1 => m1.tempControl = m.tempControl ∧
      Reaches m (chamberEvents L m.tempControl.cc m.tempControl.cs c) m1)
    fuel m (by omega) hfc ⟨rfl, Reaches.rfl_nil m⟩
    (by
      intro c m1 hc ⟨htc, hr⟩
      obtain ⟨m2, hm2, hr2⟩ := reaches_chamber L hL fuel c m1 hb hfb hc
      obtain ⟨_, htc2, _⟩ := initializeEeprom_chamber_spec L hL fuel c m1 hb hfb hc
      have htc2 : m2.tempControl = m1.tempControl := by
        obtain ⟨m3, hm3, h3, _⟩ := initializeEeprom_chamber_spec L hL fuel c m1 hb hfb hc
        rw [hm2] at hm3
        cases hm3
        exact h3
      refine ⟨m2, hm2, htc2.trans htc, ?_⟩
      rw [htc] at hr2
      exact Reaches.trans hr hr2)
  obtain ⟨m1, hm1, _, hr⟩ := h
  exact ⟨m1, hm1, hr⟩

/-- On a store with settings, `storeDevice` on the records of a list is the
concatenation of the events of the single calls. -/
theorem reaches_storeDevices (L : Config) (hL : L.WellFormed) (rs : List (List Nat)) :
    ∀ (m : Machine D) (start : Nat), (hasSettings L m).1 = true →
      Reaches m (storeDevicesEvents L rs start) (storeDevices L m rs start) := by
  induction rs with
  | nil => intro m start _; exact Reaches.rfl_nil m
  | cons r rs ih =>
    intro m start hs
    have hs1 : (hasSettings L (storeDevice L m r start).2).1 = true := by
      rw [hasSettings_storeDevice L hL]; exact hs
    exact Reaches.trans (reaches_storeDevice L hL m r start hs)
      (ih (storeDevice L m r start).2 (start + 1) hs1)

/-- With enough fuel `initializeEeprom` returns, and it is exactly the events of
`initializeEvents`: the zero fill, the collaborator calls, the chamber writes, the
version tag, the factory preset, `tempControl.init()`. -/
theorem reaches_initializeEeprom (L : Config) (C : Collaborators D) (fuel : Nat)
    (m : Machine D) (config : List Nat) (hL : L.WellFormed) (hch : L.MAX_CHAMBERS ≤ 255)
    (hb : L.MAX_BEERS ≤ 255) (hver : L.EEPROM_FORMAT_VERSION < 256)
    (hsz : L.sizeof_DeviceConfig ≤ 255) (hcfg : config.length = L.sizeof_DeviceConfig)
    (hfuel : 65536 ≤ fuel) :
    ∃ m1, initializeEeprom L C fuel m config = some m1 ∧
      Reaches m (initializeEvents L C) m1 := by
  have hsize : L.MAX_EEPROM_SIZE ≤ 65535 := hL.2.2.2.2.1
  obtain ⟨m1, h1, hr1, _, _⟩ := reaches_fill_loop L 0 fuel m (by decide) hsize (by omega)
  obtain ⟨m3, h3, hr3⟩ := reaches_chamber_loop L hL fuel
    (TempControl.loadDefaultSettings C (TempControl.loadDefaultConstants C
      (DeviceManager.setupUnconfiguredDevices C m1))) hch hb (by omega) (by omega)
  have hr2 : Reaches m1 [Event.setupUnconfiguredDevices, Event.loadDefaultConstants,
      Event.loadDefaultSettings]
      (TempControl.loadDefaultSettings C (TempControl.loadDefaultConstants C
        (DeviceManager.setupUnconfiguredDevices C m1))) := by
    refine ⟨?_, rfl⟩
    simp [TempControl.loadDefaultSettings, TempControl.loadDefaultConstants,
      DeviceManager.setupUnconfiguredDevices]
  have hr4 := reaches_writeByte m3 0 L.EEPROM_FORMAT_VERSION
  have hs4 : (hasSettings L (EepromAccess.writeByte m3 0 L.EEPROM_FORMAT_VERSION)).1
      = true := by
    rw [hasSettings_true_iff, hL.1]
    simp [EepromAccess.writeByte, Nat.mod_eq_of_lt hver]
  have hr5 := reaches_storeDevices L hL (factoryPreset L)
    (EepromAccess.writeByte m3 0 L.EEPROM_FORMAT_VERSION) 0 hs4
  have hr6 : Reaches (storeDevices L (EepromAccess.writeByte m3 0 L.EEPROM_FORMAT_VERSION)
      (factoryPreset L) 0) [Event.tempControlInit]
      (TempControl.init (storeDevices L (EepromAccess.writeByte m3 0 L.EEPROM_FORMAT_VERSION)
        (factoryPreset L) 0)) := ⟨rfl, rfl⟩
  refine ⟨TempControl.init (storeDevices L
    (EepromAccess.writeByte m3 0 L.EEPROM_FORMAT_VERSION) (factoryPreset L) 0), ?_, ?_⟩
  · simp only [initializeEeprom, h1, h3, saveDefaultDevices_eq L _ config hsz hcfg]
  · have hall := Reaches.trans hr1 (Reaches.trans (Reaches.trans hr2 hr3)
      (Reaches.trans hr4 (Reaches.trans hr5 hr6)))
    have hev : initializeEvents L C = fillEvents L.MAX_EEPROM_SIZE 0 ++
        (([Event.setupUnconfiguredDevices, Event.loadDefaultConstants,
          Event.loadDefaultSettings] ++
          chamberEvents L C.defaultConstants C.defaultSettings L.MAX_CHAMBERS) ++
        ([Event.writeByte 0 (L.EEPROM_FORMAT_VERSION % 256)] ++
          (storeDevicesEvents L (factoryPreset L) 0 ++ [Event.tempControlInit]))) := by
      simp [initializeEvents, initializeEvents_before, initializeEvents_after]
    rw [hev]
    exact hall

/-! ## Where the events of a trace lie -/

theorem within_mono (lo hi lo1 hi1 : Nat) (e : Event) (hlo : lo1 ≤ lo) (hhi : hi ≤ hi1)
    (h : Event.within lo hi e) : Event.within lo1 hi1 e := by
  cases e <;> simp only [Event.within] at h ⊢ <;> omega

theorem inRange_of_within (lo hi size : Nat) (e : Event) (hhi : hi ≤ size)
    (h : Event.within lo hi e) : Event.inRange size e := by
  cases e <;> simp only [Event.within, Event.inRange] at h ⊢ <;> omega

theorem bounds_of_touches (lo hi a : Nat) (e : Event) (h : Event.within lo hi e)
    (ht : Event.touches a e) : lo ≤ a ∧ a < hi := by
  cases e <;> simp only [Event.within, Event.touches] at h ht <;> omega

theorem fillEvents_within (n v : Nat) : ∀ e, e ∈ fillEvents n v → Event.within 0 n e := by
  intro e he
  simp only [fillEvents, List.mem_map, List.mem_range] at he
  obtain ⟨a, ha, rfl⟩ := he
  simp only [Event.within]
  omega

/-- After a byte fill of the first `n` addresses each of them holds the fill value. -/
theorem replay_fillEvents (n v : Nat) (s : Nat → Nat) :
    ∀ a, a < n → replay s (fillEvents n v) a = v := by
  induction n with
  | zero => intro a ha; exact absurd ha (Nat.not_lt_zero a)
  | succ n ih =>
    intro a ha
    rw [fillEvents_succ, replay_append]
    show (if a = n then v else replay s (fillEvents n v) a) = v
    by_cases h : a = n
    · rw [if_pos h]
    · rw [if_neg h]
      exact ih a (by omega)

theorem beerEvents_within (L : Config) (cs : List Nat) (base0 : Nat)
    (hcs : L.offsetof_BeerBlock_cs + L.sizeof_ControlSettings ≤ L.sizeof_BeerBlock) :
    ∀ n e, e ∈ beerEvents L cs base0 n →
      Event.within base0 (base0 + n * L.sizeof_BeerBlock) e := by
  intro n
  induction n with
  | zero => intro e he; exact absurd he (List.not_mem_nil _)
  | succ n ih =>
    intro e he
    simp only [beerEvents, List.mem_append, List.mem_singleton] at he
    rcases he with he | rfl
    · exact within_mono _ _ _ _ e (Nat.le_refl _) (by rw [Nat.succ_mul]; omega) (ih e he)
    · simp only [Event.within, blockImage_length, Nat.succ_mul]
      omega

theorem beerEvents_length (L : Config) (cs : List Nat) (base0 n : Nat) :
    (beerEvents L cs base0 n).length = n := by
  induction n with
  | zero => rfl
  | succ n ih => simp [beerEvents, ih]

theorem chamberEvents_length (L : Config) (cc cs : List Nat) (n : Nat) :
    (chamberEvents L cc cs n).length = n * (1 + L.MAX_BEERS) := by
  induction n with
  | zero => simp [chamberEvents]
  | succ n ih =>
    simp only [chamberEvents, List.length_append, List.length_cons, beerEvents_length, ih,
      Nat.succ_mul]
    omega

/-- The chamber writes of `initializeEeprom` lie inside the chamber array. -/
theorem chamberEvents_within (L : Config) (hL : L.WellFormed) (cc cs : List Nat) :
    ∀ n e, e ∈ chamberEvents L cc cs n →
      Event.within L.offset_chambers (L.offset_chambers + n * L.sizeof_ChamberBlock) e := by
  obtain ⟨_, _, _, _, _, h6, h7, h8⟩ := hL
  intro n
  induction n with
  | zero => intro e he; exact absurd he (List.not_mem_nil _)
  | succ n ih =>
    intro e he
    simp only [chamberEvents, List.mem_append, List.mem_cons] at he
    rcases he with he | rfl | he
    · exact within_mono _ _ _ _ e (Nat.le_refl _) (by rw [Nat.succ_mul]; omega) (ih e he)
    · simp only [Event.within, blockImage_length, Nat.succ_mul]
      omega
    · exact within_mono _ _ _ _ e (by omega) (by rw [Nat.succ_mul]; omega)
        (beerEvents_within L cs _ h8 _ e he)

/-- The events of the factory-preset stores: every write among them is the block write
of a preset record into its own device slot; the accesses lie in the version byte or
the device table. -/
theorem storeDevicesEvents_spec (L : Config) (hL : L.WellFormed) (rs : List (List Nat))
    (hrs : ∀ r, r ∈ rs → IsImage L.sizeof_DeviceConfig r) :
    ∀ (start : Nat) (e : Event), e ∈ storeDevicesEvents L rs start →
      Event.within 0 (L.offset_devices + L.MAX_DEVICES * L.sizeof_DeviceConfig) e ∧
      (e.isWrite = true → ∃ k, k < rs.length ∧ start + k < L.MAX_DEVICES ∧
        e = Event.writeBlock (L.offset_devices + L.sizeof_DeviceConfig * (start + k))
          (rs.getD k [])) := by
  have hdev := offset_devices_pos L hL
  induction rs with
  | nil => intro start e he; exact absurd he (List.not_mem_nil _)
  | cons r rs ih =>
    intro start e he
    simp only [storeDevicesEvents, List.mem_append] at he
    rcases he with he | he
    · unfold storeDeviceEvents at he
      by_cases hj : start < L.MAX_DEVICES
      · rw [if_pos hj] at he
        have hb := device_slot_bound L hL start hj
        have hmul : L.sizeof_DeviceConfig * start + L.sizeof_DeviceConfig ≤
            L.MAX_DEVICES * L.sizeof_DeviceConfig := by
          have := Nat.mul_le_mul_right L.sizeof_DeviceConfig (Nat.succ_le_of_lt hj)
          rw [Nat.succ_mul, Nat.mul_comm] at this
          exact this
        simp only [List.mem_cons, List.mem_singleton, List.not_mem_nil, or_false] at he
        rcases he with rfl | rfl
        · refine ⟨?_, fun h => by simp [Event.isWrite] at h⟩
          simp only [Event.within]
          omega
        · refine ⟨?_, fun _ => ⟨0, by simp, by simpa using hj, ?_⟩⟩
          · simp only [Event.within, blockImage_length]
            omega
          · rw [blockImage_of_isImage _ _ (hrs r (List.mem_cons_self _ _))]
            simp
      · rw [if_neg hj, List.mem_singleton] at he
        subst he
        refine ⟨?_, fun h => by simp [Event.isWrite] at h⟩
        simp only [Event.within]
        omega
    · obtain ⟨h1, h2⟩ := ih (fun x hx => hrs x (List.mem_cons_of_mem _ hx)) (start + 1) e he
      refine ⟨h1, fun hw => ?_⟩
      obtain ⟨k, hk, hlt, heq⟩ := h2 hw
      refine ⟨k + 1, by simpa using hk, by omega, ?_⟩
      rw [heq, show start + 1 + k = start + (k + 1) by omega]
      simp

/-- Every store access of `initializeEeprom` lies inside the medium. -/
theorem initializeEvents_within (L : Config) (C : Collaborators D) (hL : L.WellFormed) :
    ∀ e, e ∈ initializeEvents L C → Event.within 0 L.MAX_EEPROM_SIZE e := by
  have hL2 := hL
  obtain ⟨h1, h2, h3, h4, h5, _⟩ := hL2
  intro e he
  simp only [initializeEvents, initializeEvents_before, initializeEvents_after,
    List.mem_append, List.mem_cons, List.mem_singleton, List.not_mem_nil, or_false] at he
  rcases he with (he | (rfl | rfl | rfl) | he) | rfl | he | rfl
  · exact fillEvents_within _ _ e he
  · trivial
  · trivial
  · trivial
  · exact within_mono _ _ _ _ e (Nat.zero_le _) (by omega)
      (chamberEvents_within L hL _ _ _ e he)
  · simp only [Event.within]
    omega
  · exact within_mono _ _ _ _ e (Nat.le_refl _) h4
      (storeDevicesEvents_spec L hL _ (factoryPreset_isImage L) 0 e he).1
  · trivial

/-! ## The trace of `applySettings` -/

/-- One pass of the device loop on a slot in range: the loop continues at the next
index from a machine reached by exactly the events of `scanPass`. -/
theorem applySettings_loop_pass (L : Config) (C : Collaborators D) (hL : L.WellFormed)
    (hsz : L.sizeof_DeviceConfig ≤ 255) (hmax : L.MAX_DEVICES ≤ 255)
    (fuel index : Nat) (cfg : List Nat) (m : Machine D)
    (hs : (hasSettings L m).1 = true) (hi : index < L.MAX_DEVICES) :
    ∃ cfg1 m1, applySettings_loop L C (fuel + 1) index cfg m =
        applySettings_loop L C fuel (index + 1) cfg1 m1 ∧
      Reaches m (scanPass L index (storedDevice L m index)
        (C.isDeviceValid m.deviceManager (storedDevice L m index) index).1
        (C.isDeviceValid m.deviceManager (storedDevice L m index) index).2.1) m1 ∧
      m1.tempControl = m.tempControl ∧ (hasSettings L m1).1 = true := by
  have hmod : (index + 1) % 256 = index + 1 := Nat.mod_eq_of_lt (by omega)
  cases hv : (C.isDeviceValid m.deviceManager (storedDevice L m index) index).1 with
  | true =>
    have hstep := applySettings_loop_valid L C hL fuel index cfg m hs hi hv
    rw [hmod] at hstep
    refine ⟨_, _, hstep, ?_, ?_, ?_⟩
    · exact ⟨by simp [scanPass], rfl⟩
    · rfl
    · exact hs
  | false =>
    have hzero : clear (C.isDeviceValid m.deviceManager (storedDevice L m index) index).2.1
        (L.sizeof_DeviceConfig % 256) = List.replicate L.sizeof_DeviceConfig 0 := by
      have hlen : (C.isDeviceValid m.deviceManager (storedDevice L m index) index).2.1.length
          = L.sizeof_DeviceConfig := by
        rw [C.isDeviceValid_length, storedDevice_length]
      rw [Nat.mod_eq_of_lt (by omega)]
      conv_lhs => rw [← hlen]
      rw [clear_eq_replicate, hlen]
    have hstep := applySettings_loop_invalid L C hL fuel index cfg m hs hi hv
    rw [hmod, hzero] at hstep
    generalize hmb : ({ eeprom := m.eeprom
                        tempControl := m.tempControl
                        deviceManager :=
                          (C.isDeviceValid m.deviceManager (storedDevice L m index) index).2.2
                        trace := m.trace ++ [Event.readByte L.offset_version,
                          Event.readBlock (L.offset_devices + L.sizeof_DeviceConfig * index)
                            L.sizeof_DeviceConfig,
                          Event.isDeviceValid index (storedDevice L m index) false] }
                      : Machine D) = mb at hstep
    have hrb : Reaches m [Event.readByte L.offset_version,
        Event.readBlock (L.offset_devices + L.sizeof_DeviceConfig * index)
          L.sizeof_DeviceConfig,
        Event.isDeviceValid index (storedDevice L m index) false] mb := by
      rw [← hmb]; exact ⟨rfl, rfl⟩
    have hmbe : mb.eeprom = m.eeprom := by rw [← hmb]
    have hmbt : mb.tempControl = m.tempControl := by rw [← hmb]
    have hsb : (hasSettings L mb).1 = true := by
      rw [hasSettings_fst, hmbe, ← hasSettings_fst]; exact hs
    have hrs := reaches_storeDevice L hL mb (List.replicate L.sizeof_DeviceConfig 0) index hsb
    simp only [storeDeviceEvents, if_pos hi, blockImage_replicate_zero] at hrs
    refine ⟨_, _, hstep, ?_, ?_, ?_⟩
    · have := Reaches.trans hrb hrs
      simpa [scanPass] using this
    · rw [storeDevice_tempControl, hmbt]
    · rw [hasSettings_storeDevice L hL]; exact hsb

/-- The device loop of `applySettings`, started at `index` on a store with settings:
it returns, having made one pass per remaining slot in ascending order and then the
check that ends the loop; the live control algorithm is unchanged. -/
theorem reaches_applySettings_loop (L : Config) (C : Collaborators D) (hL : L.WellFormed)
    (hsz : L.sizeof_DeviceConfig ≤ 255) (hmax : L.MAX_DEVICES ≤ 255) :
    ∀ (n fuel index : Nat) (cfg : List Nat) (m : Machine D),
      index + n = L.MAX_DEVICES → n < fuel → (hasSettings L m).1 = true →
      ∃ m1 passes, applySettings_loop L C fuel index cfg m = some m1 ∧
        passes.length = n ∧ Reaches m (scanEvents L index passes) m1 ∧
        m1.tempControl = m.tempControl := by
  intro n
  induction n with
  | zero =>
    intro fuel index cfg m hi hf hs
    obtain ⟨f, rfl⟩ : ∃ f, fuel = f + 1 := ⟨fuel - 1, by omega⟩
    exact ⟨(hasSettings L m).2, [],
      applySettings_loop_done L C f index cfg m (Or.inr (by omega)), rfl,
      reaches_hasSettings L m, rfl⟩
  | succ n ih =>
    intro fuel index cfg m hi hf hs
    obtain ⟨f, rfl⟩ : ∃ f, fuel = f + 1 := ⟨fuel - 1, by omega⟩
    obtain ⟨cfg1, m1, hstep, hr1, htc1, hs1⟩ :=
      applySettings_loop_pass L C hL hsz hmax f index cfg m hs (by omega)
    obtain ⟨m2, passes, h2, hlen, hr2, htc2⟩ := ih f (index + 1) cfg1 m1 (by omega)
      (by omega) hs1
    refine ⟨m2, (storedDevice L m index,
      (C.isDeviceValid m.deviceManager (storedDevice L m index) index).1,
      (C.isDeviceValid m.deviceManager (storedDevice L m index) index).2.1) :: passes,
      by rw [hstep, h2], by simp [hlen], ?_, htc2.trans htc1⟩
    exact Reaches.trans hr1 hr2

theorem reaches_applySettings_load (L : Config) (C : Collaborators D) (m : Machine D) :
    Reaches m (loadEvents L) (applySettings_load L C m) := by
  refine ⟨?_, rfl⟩
  simp [applySettings_load, loadEvents, TempControl.loadSettings, TempControl.loadConstants,
    EepromAccess.readBlock, DeviceManager.setupUnconfiguredDevices]

/-- Outside simulation mode, on a store with settings, `applySettings` returns true and
is exactly: the version check, the load phase, one pass per device slot in ascending
order, the check that ends the loop.  The live control algorithm ends up as the load
phase left it. -/
theorem reaches_applySettings (L : Config) (C : Collaborators D) (fuel : Nat) (m : Machine D)
    (cfg : List Nat) (hL : L.WellFormed) (hsz : L.sizeof_DeviceConfig ≤ 255)
    (hmax : L.MAX_DEVICES ≤ 255) (hsim : L.BREWPI_SIMULATE = false)
    (hs : (hasSettings L m).1 = true) (hfuel : L.MAX_DEVICES < fuel) :
    ∃ m1 passes, applySettings L C fuel m cfg = some (true, m1) ∧
      passes.length = L.MAX_DEVICES ∧
      Reaches m (Event.readByte L.offset_version ::
        (loadEvents L ++ scanEvents L 0 passes)) m1 ∧
      m1.tempControl = (applySettings_load L C (hasSettings L m).2).tempControl := by
  have hrl := reaches_applySettings_load L C (hasSettings L m).2
  have hs0 : (hasSettings L (applySettings_load L C (hasSettings L m).2)).1 = true := by
    rw [hasSettings_fst, hrl.2]; exact hs
  obtain ⟨m1, passes, h1, hlen, hr, htc⟩ := reaches_applySettings_loop L C hL hsz hmax
    L.MAX_DEVICES fuel 0 cfg (applySettings_load L C (hasSettings L m).2) (by omega) hfuel hs0
  refine ⟨m1, passes, by simp [applySettings, hs, hsim, h1], hlen, ?_, htc⟩
  exact Reaches.trans (reaches_hasSettings L m) (Reaches.trans hrl hr)

/-- In simulation mode, on a store with settings, `applySettings` returns true after
the version check and the load phase. -/
theorem reaches_applySettings_simulate (L : Config) (C : Collaborators D) (fuel : Nat)
    (m : Machine D) (cfg : List Nat) (hsim : L.BREWPI_SIMULATE = true)
    (hs : (hasSettings L m).1 = true) :
    applySettings L C fuel m cfg =
        some (true, applySettings_load L C (hasSettings L m).2) ∧
      Reaches m (Event.readByte L.offset_version :: loadEvents L)
        (applySettings_load L C (hasSettings L m).2) := by
  refine ⟨by simp [applySettings, hs, hsim], ?_⟩
  exact Reaches.trans (reaches_hasSettings L m) (reaches_applySettings_load L C _)

/-- The events `applySettings` added, read off a `Reaches` fact. -/
theorem applySettings_events_eq (L : Config) (C : Collaborators D) (fuel : Nat)
    (m m1 : Machine D) (cfg : List Nat) (b : Bool) (evs : List Event)
    (h : applySettings L C fuel m cfg = some (b, m1)) (hr : Reaches m evs m1) :
    applySettings_events L C fuel m cfg = evs := by
  simp only [applySettings_events, h, hr.1, List.drop_left]

theorem newEvents_of_reaches (m m1 : Machine D) (evs : List Event) (h : Reaches m evs m1) :
    newEvents m m1 = evs := by
  simp only [newEvents, h.1, List.drop_left]

theorem scanPass_mem (L : Config) (index : Nat) (stored : List Nat) (valid : Bool)
    (resolved : List Nat) (e : Event) :
    e ∈ scanPass L index stored valid resolved ↔
      e = Event.readByte L.offset_version ∨
      e = Event.readBlock (L.offset_devices + L.sizeof_DeviceConfig * index)
        L.sizeof_DeviceConfig ∨
      e = Event.isDeviceValid index stored valid ∨
      (valid = true ∧ e = Event.installDevice index resolved) ∨
      (valid = false ∧ e = Event.writeBlock (L.offset_devices + L.sizeof_DeviceConfig * index)
        (List.replicate L.sizeof_DeviceConfig 0)) := by
  cases valid
  · simp only [scanPass, List.mem_append, List.mem_cons, List.mem_singleton,
      List.not_mem_nil, or_false, Bool.false_eq_true, if_false, false_and, true_and, false_or]
    constructor
    · rintro ((h | h | h) | h | h)
      · exact Or.inl h
      · exact Or.inr (Or.inl h)
      · exact Or.inr (Or.inr (Or.inl h))
      · exact Or.inl h
      · exact Or.inr (Or.inr (Or.inr h))
    · rintro (h | h | h | h)
      · exact Or.inl (Or.inl h)
      · exact Or.inl (Or.inr (Or.inl h))
      · exact Or.inl (Or.inr (Or.inr h))
      · exact Or.inr (Or.inr h)
  · simp [scanPass]

/-- Device-manager events of the loop from `index` on concern slots from `index` up to
the number of passes. -/
theorem scanEvents_slot_range (L : Config) (passes : List (List Nat × Bool × List Nat)) :
    ∀ (index : Nat) (e : Event) (i : Nat), e ∈ scanEvents L index passes →
      e.validatedSlot = some i → index ≤ i ∧ i < index + passes.length := by
  induction passes with
  | nil =>
    intro index e i he hv
    simp only [scanEvents, List.mem_singleton] at he
    subst he
    simp [Event.validatedSlot] at hv
  | cons p ps ih =>
    intro index e i he hv
    simp only [scanEvents, List.mem_append, scanPass_mem] at he
    rcases he with (rfl | rfl | rfl | ⟨_, rfl⟩ | ⟨_, rfl⟩) | he
    · simp [Event.validatedSlot] at hv
    · simp [Event.validatedSlot] at hv
    · simp only [Event.validatedSlot, Option.some.injEq] at hv
      simp only [List.length_cons]
      omega
    · simp [Event.validatedSlot] at hv
    · simp [Event.validatedSlot] at hv
    · have := ih (index + 1) e i he hv
      simp only [List.length_cons]
      omega

/-- The loop calls `isDeviceValid` exactly once per pass, for consecutive slots in
ascending order. -/
theorem scanEvents_validated (L : Config) (passes : List (List Nat × Bool × List Nat)) :
    ∀ index : Nat, (scanEvents L index passes).filterMap Event.validatedSlot =
      List.range' index passes.length := by
  induction passes with
  | nil => intro index; simp [scanEvents, Event.validatedSlot]
  | cons p ps ih =>
    intro index
    have hp : (scanPass L index p.1 p.2.1 p.2.2).filterMap Event.validatedSlot = [index] := by
      cases p.2.1 <;> simp [scanPass, Event.validatedSlot]
    simp only [scanEvents, List.filterMap_append, hp, ih, List.length_cons, List.range'_succ,
      List.singleton_append]

/-- Every store access of the loop lies in the version byte or the device table. -/
theorem scanEvents_within (L : Config) (hL : L.WellFormed)
    (passes : List (List Nat × Bool × List Nat)) :
    ∀ index : Nat, index + passes.length ≤ L.MAX_DEVICES →
      ∀ e, e ∈ scanEvents L index passes →
        Event.within 0 (L.offset_devices + L.MAX_DEVICES * L.sizeof_DeviceConfig) e := by
  have hdev := offset_devices_pos L hL
  have hv := hL.1
  induction passes with
  | nil =>
    intro index _ e he
    simp only [scanEvents, List.mem_singleton] at he
    subst he
    simp only [Event.within]
    omega
  | cons p ps ih =>
    intro index hlen e he
    simp only [List.length_cons] at hlen
    have hj : index < L.MAX_DEVICES := by omega
    have hmul : L.sizeof_DeviceConfig * index + L.sizeof_DeviceConfig ≤
        L.MAX_DEVICES * L.sizeof_DeviceConfig := by
      have := Nat.mul_le_mul_right L.sizeof_DeviceConfig (Nat.succ_le_of_lt hj)
      rw [Nat.succ_mul, Nat.mul_comm] at this
      exact this
    simp only [scanEvents, List.mem_append, scanPass_mem] at he
    rcases he with (rfl | rfl | rfl | ⟨_, rfl⟩ | ⟨_, rfl⟩) | he
    · simp only [Event.within]; omega
    · simp only [Event.within]; omega
    · trivial
    · trivial
    · simp only [Event.within, List.length_replicate]; omega
    · exact ih (index + 1) (by omega) e he

/-- A write of the loop is the erasure of a slot whose record was rejected. -/
theorem scanEvents_touches (L : Config) (passes : List (List Nat × Bool × List Nat)) :
    ∀ (index a : Nat) (e : Event), e ∈ scanEvents L index passes → Event.touches a e →
      ∃ i r, Event.isDeviceValid i r false ∈ scanEvents L index passes ∧
        L.offset_devices + L.sizeof_DeviceConfig * i ≤ a ∧
        a < L.offset_devices + L.sizeof_DeviceConfig * i + L.sizeof_DeviceConfig := by
  induction passes with
  | nil =>
    intro index a e he ht
    simp only [scanEvents, List.mem_singleton] at he
    subst he
    exact absurd ht (by simp [Event.touches])
  | cons p ps ih =>
    intro index a e he ht
    simp only [scanEvents, List.mem_append, scanPass_mem] at he
    rcases he with (rfl | rfl | rfl | ⟨_, rfl⟩ | ⟨hv, rfl⟩) | he
    · exact absurd ht (by simp [Event.touches])
    · exact absurd ht (by simp [Event.touches])
    · exact absurd ht (by simp [Event.touches])
    · exact absurd ht (by simp [Event.touches])
    · simp only [Event.touches, List.length_replicate] at ht
      refine ⟨index, p.1, ?_, ht.1, ht.2⟩
      simp only [scanEvents, List.mem_append, scanPass_mem]
      left; right; right; left
      rw [hv]
    · obtain ⟨i, r, hmem, h1, h2⟩ := ih (index + 1) a e he ht
      refine ⟨i, r, ?_, h1, h2⟩
      simp only [scanEvents, List.mem_append]
      exact Or.inr hmem

/-- A slot gets one verdict: if it was accepted it was not also rejected. -/
theorem scanEvents_verdict_unique (L : Config) (passes : List (List Nat × Bool × List Nat)) :
    ∀ (index i : Nat) (r r1 : List Nat),
      Event.isDeviceValid i r true ∈ scanEvents L index passes →
      Event.isDeviceValid i r1 false ∉ scanEvents L index passes := by
  induction passes with
  | nil =>
    intro index i r r1 h
    simp [scanEvents] at h
  | cons p ps ih =>
    intro index i r r1 ht hf
    simp only [scanEvents, List.mem_append, scanPass_mem] at ht hf
    rcases ht with (ht | ht | ht | ⟨_, ht⟩ | ⟨_, ht⟩) | ht
    · cases ht
    · cases ht
    · simp only [Event.isDeviceValid.injEq] at ht
      obtain ⟨hi1, _, hv1⟩ := ht
      rcases hf with (hf | hf | hf | ⟨_, hf⟩ | ⟨_, hf⟩) | hf
      · cases hf
      · cases hf
      · simp only [Event.isDeviceValid.injEq] at hf
        obtain ⟨_, _, hv2⟩ := hf
        rw [← hv1] at hv2
        cases hv2
      · cases hf
      · cases hf
      · have := (scanEvents_slot_range L ps (index + 1) _ i hf rfl).1
        omega
    · cases ht
    · cases ht
    · rcases hf with (hf | hf | hf | ⟨_, hf⟩ | ⟨_, hf⟩) | hf
      · cases hf
      · cases hf
      · simp only [Event.isDeviceValid.injEq] at hf
        have := (scanEvents_slot_range L ps (index + 1) _ i ht rfl).1
        omega
      · cases hf
      · cases hf
      · exact ih (index + 1) i r r1 ht hf

/-- The load phase of `applySettings` reads inside the chamber array and writes
nothing. -/
theorem loadEvents_spec (L : Config) (hL : L.WellFormed) (hc0 : 0 < L.MAX_CHAMBERS)
    (hb0 : 0 < L.MAX_BEERS) :
    ∀ e, e ∈ loadEvents L →
      Event.within L.offset_chambers L.offset_devices e ∧ e.isWrite = false ∧
      e.validatedSlot = none := by
  obtain ⟨h1, h2, h3, h4, h5, _⟩ := chamber0_offsets L hL hc0 hb0
  intro e he
  simp only [loadEvents, h1, h2, List.mem_cons, List.mem_singleton, List.not_mem_nil,
    or_false] at he
  rcases he with rfl | rfl | rfl | rfl | rfl
  · exact ⟨trivial, rfl, rfl⟩
  · refine ⟨?_, rfl, rfl⟩
    simp only [Event.within]; omega
  · exact ⟨trivial, rfl, rfl⟩
  · refine ⟨?_, rfl, rfl⟩
    simp only [Event.within]; omega
  · exact ⟨trivial, rfl, rfl⟩

theorem not_touches_of_not_isWrite (a : Nat) (e : Event) (h : e.isWrite = false) :
    ¬ Event.touches a e := by
  cases e <;> simp_all [Event.isWrite, Event.touches]

theorem loadEvents_plain (L : Config) :
    ∀ e, e ∈ loadEvents L → e.isWrite = false ∧ e.validatedSlot = none := by
  intro e he
  simp only [loadEvents, List.mem_cons, List.mem_singleton, List.not_mem_nil, or_false] at he
  rcases he with rfl | rfl | rfl | rfl | rfl <;> exact ⟨rfl, rfl⟩

/-- On a store with settings, in either mode, `applySettings` returns true.  Its events
are the version check, the load phase and the events `scan` of the device loop (none
in simulation mode); the store changes only inside slots the loop rejected; a slot
gets one verdict; the live control algorithm ends up as the load phase left it. -/
theorem applySettings_with_settings (L : Config) (C : Collaborators D) (fuel : Nat)
    (m : Machine D) (cfg : List Nat) (hL : L.WellFormed) (hsz : L.sizeof_DeviceConfig ≤ 255)
    (hmax : L.MAX_DEVICES ≤ 255) (hs : (hasSettings L m).1 = true)
    (hfuel : L.MAX_DEVICES < fuel) :
    ∃ m1 scan, applySettings L C fuel m cfg = some (true, m1) ∧
      applySettings_events L C fuel m cfg =
        Event.readByte L.offset_version :: (loadEvents L ++ scan) ∧
      (L.BREWPI_SIMULATE = false →
        ∃ passes, passes.length = L.MAX_DEVICES ∧ scan = scanEvents L 0 passes) ∧
      (L.BREWPI_SIMULATE = true → scan = []) ∧
      (∀ a, (∀ i r, Event.isDeviceValid i r false ∈ scan →
          a < L.offset_devices + L.sizeof_DeviceConfig * i ∨
          L.offset_devices + L.sizeof_DeviceConfig * i + L.sizeof_DeviceConfig ≤ a) →
        m1.eeprom a = m.eeprom a) ∧
      (∀ i r r1, Event.isDeviceValid i r true ∈ scan → Event.isDeviceValid i r1 false ∉ scan) ∧
      (∀ i r b, Event.isDeviceValid i r b ∈ scan → i < L.MAX_DEVICES) ∧
      (∀ e, e ∈ scan →
        Event.within 0 (L.offset_devices + L.MAX_DEVICES * L.sizeof_DeviceConfig) e) ∧
      m1.tempControl = (applySettings_load L C (hasSettings L m).2).tempControl := by
  rcases Bool.eq_false_or_eq_true L.BREWPI_SIMULATE with hsim | hsim
  · obtain ⟨happ, hr⟩ := reaches_applySettings_simulate L C fuel m cfg hsim hs
    refine ⟨_, [], happ, ?_, ?_, ?_, ?_, ?_, ?_, ?_, rfl⟩
    · rw [applySettings_events_eq L C fuel m _ cfg true _ happ hr, List.append_nil]
    · intro h
      rw [hsim] at h
      cases h
    · intro _
      rfl
    · intro a _
      rfl
    · intro i r r1 h
      exact absurd h (List.not_mem_nil _)
    · intro i r b h
      exact absurd h (List.not_mem_nil _)
    · intro e h
      exact absurd h (List.not_mem_nil _)
  · obtain ⟨m1, passes, happ, hlen, hr, htc⟩ :=
      reaches_applySettings L C fuel m cfg hL hsz hmax hsim hs hfuel
    refine ⟨m1, scanEvents L 0 passes, happ,
      applySettings_events_eq L C fuel m m1 cfg true _ happ hr, ?_, ?_, ?_, ?_, ?_, ?_, htc⟩
    · intro _
      exact ⟨passes, hlen, rfl⟩
    · intro h
      rw [hsim] at h
      cases h
    · intro a ha
      rw [hr.2]
      apply replay_untouched
      intro e he ht
      rcases List.mem_cons.mp he with rfl | he
      · exact ht
      · rcases List.mem_append.mp he with he | he
        · exact not_touches_of_not_isWrite a e (loadEvents_plain L e he).1 ht
        · obtain ⟨i, r, hmem, h1, h2⟩ := scanEvents_touches L passes 0 a e he ht
          have := ha i r hmem
          omega
    · intro i r r1
      exact scanEvents_verdict_unique L passes 0 i r r1
    · intro i r b hmem
      have := (scanEvents_slot_range L passes 0 _ i hmem rfl).2
      omega
    · exact scanEvents_within L hL passes 0 (by omega)

/-- What the load phase of `applySettings` leaves in the live control algorithm: the
blocks stored at the constants of chamber 0 and the settings of chamber 0 / beer 0. -/
theorem applySettings_load_tempControl (L : Config) (C : Collaborators D) (hL : L.WellFormed)
    (m : Machine D) (hc0 : 0 < L.MAX_CHAMBERS) (hb0 : 0 < L.MAX_BEERS) :
    (applySettings_load L C m).tempControl =
      { cc := (EepromAccess.readBlock m (L.offset_chambers + L.offsetof_ChamberBlock_cc)
          L.sizeof_ControlConstants).1
        cs := (EepromAccess.readBlock m (L.offset_chambers + L.offsetof_ChamberBlock_beer +
          L.offsetof_BeerBlock_cs) L.sizeof_ControlSettings).1 } := by
  obtain ⟨h1, h2, _⟩ := chamber0_offsets L hL hc0 hb0
  simp only [applySettings_load, h1, h2, TempControl.loadSettings,
    TempControl.loadConstants, EepromAccess.readBlock,
    DeviceManager.setupUnconfiguredDevices]

theorem readBlock_congr (x y : Machine D) (offset n : Nat) (h : x.eeprom = y.eeprom) :
    (EepromAccess.readBlock x offset n).1 = (EepromAccess.readBlock y offset n).1 := by
  simp [EepromAccess.readBlock, h]

theorem fetchDevice_eeprom (L : Config) (m : Machine D) (r : List Nat) (i : Nat) :
    (fetchDevice L m r i).2.2.eeprom = m.eeprom := by
  by_cases h : ((hasSettings L m).1 && decide (i < L.MAX_DEVICES)) = true <;>
    simp only [fetchDevice, h] <;> rfl

/-- The accesses of `fetchDevice`, for any index and any store, lie in the version byte
or the device table. -/
theorem fetchDevice_within (L : Config) (hL : L.WellFormed) (m : Machine D) (r : List Nat)
    (i : Nat) : ∀ e, e ∈ newEvents m (fetchDevice L m r i).2.2 →
      Event.within 0 (L.offset_devices + L.MAX_DEVICES * L.sizeof_DeviceConfig) e := by
  have hdev := offset_devices_pos L hL
  have hv := hL.1
  by_cases h : (hasSettings L m).1 = true ∧ i < L.MAX_DEVICES
  · have hr : Reaches m [Event.readByte L.offset_version,
        Event.readBlock (L.offset_devices + L.sizeof_DeviceConfig * i) L.sizeof_DeviceConfig]
        (fetchDevice L m r i).2.2 := by
      rw [fetchDevice_of_ok L m r i h.1 h.2, device_offset_mod L hL i h.2]
      exact Reaches.trans (reaches_hasSettings L m) (reaches_readBlock _ _ _)
    have hmul : L.sizeof_DeviceConfig * i + L.sizeof_DeviceConfig ≤
        L.MAX_DEVICES * L.sizeof_DeviceConfig := by
      have := Nat.mul_le_mul_right L.sizeof_DeviceConfig (Nat.succ_le_of_lt h.2)
      rw [Nat.succ_mul, Nat.mul_comm] at this
      exact this
    rw [newEvents_of_reaches m _ _ hr]
    intro e he
    simp only [List.mem_cons, List.mem_singleton, List.not_mem_nil, or_false] at he
    rcases he with rfl | rfl <;> simp only [Event.within] <;> omega
  · have hr : Reaches m [Event.readByte L.offset_version] (fetchDevice L m r i).2.2 := by
      rw [fetchDevice_of_not_ok L m r i (by
        rcases Classical.not_and_iff_or_not_not.mp h with h | h
        · left; simpa using h
        · right; omega)]
      exact reaches_hasSettings L m
    rw [newEvents_of_reaches m _ _ hr]
    intro e he
    rw [List.mem_singleton] at he
    subst he
    simp only [Event.within]
    omega

/-- The accesses of `storeDevice`, for any index and any store, lie in the version byte
or the device table. -/
theorem storeDevice_within (L : Config) (hL : L.WellFormed) (m : Machine D) (r : List Nat)
    (i : Nat) : ∀ e, e ∈ newEvents m (storeDevice L m r i).2 →
      Event.within 0 (L.offset_devices + L.MAX_DEVICES * L.sizeof_DeviceConfig) e := by
  have hdev := offset_devices_pos L hL
  have hv := hL.1
  by_cases h : (hasSettings L m).1 = true ∧ i < L.MAX_DEVICES
  · have hr := reaches_storeDevice L hL m r i h.1
    simp only [storeDeviceEvents, if_pos h.2] at hr
    have hmul : L.sizeof_DeviceConfig * i + L.sizeof_DeviceConfig ≤
        L.MAX_DEVICES * L.sizeof_DeviceConfig := by
      have := Nat.mul_le_mul_right L.sizeof_DeviceConfig (Nat.succ_le_of_lt h.2)
      rw [Nat.succ_mul, Nat.mul_comm] at this
      exact this
    rw [newEvents_of_reaches m _ _ hr]
    intro e he
    simp only [List.mem_cons, List.mem_singleton, List.not_mem_nil, or_false] at he
    rcases he with rfl | rfl <;> simp only [Event.within, blockImage_length] <;> omega
  · have hr : Reaches m [Event.readByte L.offset_version] (storeDevice L m r i).2 := by
      rw [storeDevice_of_not_ok L m r i (by
        rcases Classical.not_and_iff_or_not_not.mp h with h | h
        · left; simpa using h
        · right; omega)]
      exact reaches_hasSettings L m
    rw [newEvents_of_reaches m _ _ hr]
    intro e he
    rw [List.mem_singleton] at he
    subst he
    simp only [Event.within]
    omega

/-- In either state and either mode `applySettings` returns, keeps the value of
`hasSettings()`, and all its accesses lie inside the medium. -/
theorem applySettings_returns (L : Config) (C : Collaborators D) (fuel : Nat)
    (m : Machine D) (cfg : List Nat) (hL : L.WellFormed) (hsz : L.sizeof_DeviceConfig ≤ 255)
    (hmax : L.MAX_DEVICES ≤ 255) (hc0 : 0 < L.MAX_CHAMBERS) (hb0 : 0 < L.MAX_BEERS)
    (hfuel : L.MAX_DEVICES < fuel) :
    ∃ b m1, applySettings L C fuel m cfg = some (b, m1) ∧
      (hasSettings L m1).1 = (hasSettings L m).1 ∧
      ∀ e, e ∈ newEvents m m1 → Event.within 0 L.MAX_EEPROM_SIZE e := by
  have hdev := offset_devices_pos L hL
  have hv := hL.1
  have hfit := hL.2.2.2.1
  cases hs : (hasSettings L m).1 with
  | false =>
    refine ⟨false, (hasSettings L m).2, by simp [applySettings, hs], hs, ?_⟩
    rw [newEvents_of_reaches m _ _ (reaches_hasSettings L m)]
    intro e he
    rw [List.mem_singleton] at he
    subst he
    simp only [Event.within]
    omega
  | true =>
    obtain ⟨m1, scan, happ, hev, _, _, hframe, _, hlt, hwithin, _⟩ :=
      applySettings_with_settings L C fuel m cfg hL hsz hmax hs hfuel
    refine ⟨true, m1, happ, ?_, ?_⟩
    · rw [hasSettings_fst, hframe L.offset_version (fun i r _ => Or.inl (by omega)),
        ← hasSettings_fst]
      exact hs
    · have hne : newEvents m m1 = applySettings_events L C fuel m cfg := by
        simp only [newEvents, applySettings_events, happ]
      rw [hne, hev]
      intro e he
      rcases List.mem_cons.mp he with rfl | he
      · simp only [Event.within]
        omega
      · rcases List.mem_append.mp he with he | he
        · exact within_mono _ _ _ _ e (Nat.zero_le _) (by omega)
            (loadEvents_spec L hL hc0 hb0 e he).1
        · exact within_mono _ _ _ _ e (Nat.le_refl _) hfit (hwithin e he)

theorem storeTempSettings_eq (L : Config) (hL : L.WellFormed) (m : Machine D)
    (hc0 : 0 < L.MAX_CHAMBERS) (hb0 : 0 < L.MAX_BEERS) :
    storeTempSettings L m = EepromAccess.writeBlock m
      (L.offset_chambers + L.offsetof_ChamberBlock_beer + L.offsetof_BeerBlock_cs)
      m.tempControl.cs L.sizeof_ControlSettings := by
  obtain ⟨_, h2, _⟩ := chamber0_offsets L hL hc0 hb0
  simp only [storeTempSettings, TempControl.storeSettings, Nat.mul_zero, Nat.add_zero,
    Nat.mod_mod, h2]

theorem storeTempConstantsAndSettings_eq (L : Config) (hL : L.WellFormed) (m : Machine D)
    (hc0 : 0 < L.MAX_CHAMBERS) (hb0 : 0 < L.MAX_BEERS) :
    storeTempConstantsAndSettings L m = storeTempSettings L
      (EepromAccess.writeBlock m (L.offset_chambers + L.offsetof_ChamberBlock_cc)
        m.tempControl.cc L.sizeof_ControlConstants) := by
  obtain ⟨h1, _⟩ := chamber0_offsets L hL hc0 hb0
  simp only [storeTempConstantsAndSettings, TempControl.storeConstants, Nat.mul_zero,
    Nat.add_zero, Nat.mod_mod, h1]

/-- What the store holds after the `storeTemp...` functions: the settings block holds
the live settings, after `storeTempConstantsAndSettings` the constants block holds the
live constants, and `storeTempSettings` leaves the constants block as it was. -/
theorem stored_after_storeTemp (L : Config) (hL : L.WellFormed) (m : Machine D)
    (hc0 : 0 < L.MAX_CHAMBERS) (hb0 : 0 < L.MAX_BEERS)
    (hcc : IsImage L.sizeof_ControlConstants m.tempControl.cc)
    (hcs : IsImage L.sizeof_ControlSettings m.tempControl.cs) :
    (EepromAccess.readBlock (storeTempConstantsAndSettings L m)
      (L.offset_chambers + L.offsetof_ChamberBlock_cc) L.sizeof_ControlConstants).1 =
        m.tempControl.cc ∧
    (EepromAccess.readBlock (storeTempConstantsAndSettings L m)
      (L.offset_chambers + L.offsetof_ChamberBlock_beer + L.offsetof_BeerBlock_cs)
      L.sizeof_ControlSettings).1 = m.tempControl.cs ∧
    (EepromAccess.readBlock (storeTempSettings L m)
      (L.offset_chambers + L.offsetof_ChamberBlock_beer + L.offsetof_BeerBlock_cs)
      L.sizeof_ControlSettings).1 = m.tempControl.cs ∧
    (EepromAccess.readBlock (storeTempSettings L m)
      (L.offset_chambers + L.offsetof_ChamberBlock_cc) L.sizeof_ControlConstants).1 =
      (EepromAccess.readBlock m
        (L.offset_chambers + L.offsetof_ChamberBlock_cc) L.sizeof_ControlConstants).1 := by
  obtain ⟨_, _, h3, _⟩ := chamber0_offsets L hL hc0 hb0
  have hset : ∀ x : Machine D, IsImage L.sizeof_ControlSettings x.tempControl.cs →
      (EepromAccess.readBlock (storeTempSettings L x)
        (L.offset_chambers + L.offsetof_ChamberBlock_beer + L.offsetof_BeerBlock_cs)
        L.sizeof_ControlSettings).1 = x.tempControl.cs := by
    intro x hx
    rw [storeTempSettings_eq L hL x hc0 hb0]
    exact readBlock_writeBlock _ _ _ _ hx
  have hkeep : ∀ x : Machine D,
      (EepromAccess.readBlock (storeTempSettings L x)
        (L.offset_chambers + L.offsetof_ChamberBlock_cc) L.sizeof_ControlConstants).1 =
      (EepromAccess.readBlock x
        (L.offset_chambers + L.offsetof_ChamberBlock_cc) L.sizeof_ControlConstants).1 := by
    intro x
    simp only [EepromAccess.readBlock]
    apply List.map_congr_left
    intro k hk
    have hk1 : k < L.sizeof_ControlConstants := List.mem_range.mp hk
    exact storeTempSettings_eeprom_outside L hL x hc0 hb0 _ (Or.inl (by omega))
  refine ⟨?_, ?_, hset m hcs, hkeep m⟩
  · rw [storeTempConstantsAndSettings_eq L hL m hc0 hb0, hkeep]
    exact readBlock_writeBlock _ _ _ _ hcc
  · rw [storeTempConstantsAndSettings_eq L hL m hc0 hb0]
    exact hset _ hcs

/-! ## Claims -/

/-- C1 (device round trip): in a well-formed layout, for every machine whose store
has settings, every index `i < MAX_DEVICES` and every record image `r` of
`sizeof(DeviceConfig)` bytes, `storeDevice(r, i)` returns true, and the following
`fetchDevice(r2, i)` returns true and leaves `r2` equal to `r` byte for byte. -/
theorem storeDevice_fetchDevice_roundtrip (L : Config) (m : Machine D) (r r2 : List Nat)
    (i : Nat) (hL : L.WellFormed) (hs : (hasSettings L m).1 = true) (hi : i < L.MAX_DEVICES)
    (hr : IsImage L.sizeof_DeviceConfig r) :
    (storeDevice L m r i).1 = true ∧
    (fetchDevice L (storeDevice L m r i).2 r2 i).1 = true ∧
    (fetchDevice L (storeDevice L m r i).2 r2 i).2.1 = r := by
  have hs2 : (hasSettings L (storeDevice L m r i).2).1 = true := by
    rw [hasSettings_true_iff, storeDevice_keeps_version L hL]
    exact (hasSettings_true_iff L m).mp hs
  refine ⟨by rw [storeDevice_of_ok L m r i hs hi], ?_, ?_⟩
  · rw [fetchDevice_of_ok L _ r2 i hs2 hi]
  · rw [fetchDevice_of_ok L _ r2 i hs2 hi]
    rw [storeDevice_of_ok L m r i hs hi]
    exact readBlock_writeBlock _ _ r _ hr

/-- Concrete instance on a small build: storing `[1,2,3,4,5,6]` in slot 5 and fetching it back. -/
theorem storeDevice_fetchDevice_roundtrip_witness :
    demoConfig.WellFormed ∧ (hasSettings demoConfig demoValid).1 = true ∧
    5 < demoConfig.MAX_DEVICES ∧ IsImage demoConfig.sizeof_DeviceConfig [1, 2, 3, 4, 5, 6] ∧
    (storeDevice demoConfig demoValid [1, 2, 3, 4, 5, 6] 5).1 = true ∧
    (fetchDevice demoConfig (storeDevice demoConfig demoValid [1, 2, 3, 4, 5, 6] 5).2 [] 5).1
      = true ∧
    (fetchDevice demoConfig (storeDevice demoConfig demoValid [1, 2, 3, 4, 5, 6] 5).2 [] 5).2.1
      = [1, 2, 3, 4, 5, 6] :=
  ⟨by decide, by decide, by decide, by decide,
   storeDevice_fetchDevice_roundtrip demoConfig demoValid [1, 2, 3, 4, 5, 6] [] 5
     (by decide) (by decide) (by decide) (by decide)⟩

/-- C2 (out-of-range index): for every machine (with or without settings), every
record and every index `i >= MAX_DEVICES`, `fetchDevice` and `storeDevice` return
false, `fetchDevice` leaves its output record unchanged, and neither changes the
store. -/
theorem device_access_out_of_range (L : Config) (m : Machine D) (r : List Nat) (i : Nat)
    (hi : L.MAX_DEVICES ≤ i) :
    (fetchDevice L m r i).1 = false ∧ (fetchDevice L m r i).2.1 = r ∧
    (fetchDevice L m r i).2.2.eeprom = m.eeprom ∧
    (storeDevice L m r i).1 = false ∧ (storeDevice L m r i).2.eeprom = m.eeprom := by
  rw [fetchDevice_of_not_ok L m r i (Or.inr hi), storeDevice_of_not_ok L m r i (Or.inr hi)]
  exact ⟨rfl, rfl, rfl, rfl, rfl⟩

/-- Concrete instance on a small build: index 6 of a six-slot table, on a store with settings. -/
theorem device_access_out_of_range_witness :
    demoConfig.MAX_DEVICES ≤ 6 ∧
    (fetchDevice demoConfig demoValid [1, 2, 3, 4, 5, 6] 6).1 = false ∧
    (fetchDevice demoConfig demoValid [1, 2, 3, 4, 5, 6] 6).2.1 = [1, 2, 3, 4, 5, 6] ∧
    (fetchDevice demoConfig demoValid [1, 2, 3, 4, 5, 6] 6).2.2.eeprom = demoValid.eeprom ∧
    (storeDevice demoConfig demoValid [1, 2, 3, 4, 5, 6] 6).1 = false ∧
    (storeDevice demoConfig demoValid [1, 2, 3, 4, 5, 6] 6).2.eeprom = demoValid.eeprom :=
  ⟨by decide, device_access_out_of_range demoConfig demoValid [1, 2, 3, 4, 5, 6] 6 (by decide)⟩

/-- C3 (no settings): when the version field is the byte at offset 0 and that byte
differs from `EEPROM_FORMAT_VERSION`, then for every index `fetchDevice` and
`storeDevice` return false, `fetchDevice` leaves its output record untouched, and
the store is unchanged. -/
theorem device_access_without_settings (L : Config) (m : Machine D) (r : List Nat) (i : Nat)
    (hv : L.offset_version = 0) (hn : m.eeprom 0 ≠ L.EEPROM_FORMAT_VERSION) :
    (fetchDevice L m r i).1 = false ∧ (fetchDevice L m r i).2.1 = r ∧
    (fetchDevice L m r i).2.2.eeprom = m.eeprom ∧
    (storeDevice L m r i).1 = false ∧ (storeDevice L m r i).2.eeprom = m.eeprom := by
  have h : (hasSettings L m).1 = false := by
    simp [hasSettings_fst, hv, hn]
  rw [fetchDevice_of_not_ok L m r i (Or.inl h), storeDevice_of_not_ok L m r i (Or.inl h)]
  exact ⟨rfl, rfl, rfl, rfl, rfl⟩

/-- Concrete instance on a small build: slot 3 (in range) of an erased medium. -/
theorem device_access_without_settings_witness :
    demoConfig.offset_version = 0 ∧ demoErased.eeprom 0 ≠ demoConfig.EEPROM_FORMAT_VERSION ∧
    (fetchDevice demoConfig demoErased [1, 2, 3, 4, 5, 6] 3).1 = false ∧
    (fetchDevice demoConfig demoErased [1, 2, 3, 4, 5, 6] 3).2.1 = [1, 2, 3, 4, 5, 6] ∧
    (fetchDevice demoConfig demoErased [1, 2, 3, 4, 5, 6] 3).2.2.eeprom = demoErased.eeprom ∧
    (storeDevice demoConfig demoErased [1, 2, 3, 4, 5, 6] 3).1 = false ∧
    (storeDevice demoConfig demoErased [1, 2, 3, 4, 5, 6] 3).2.eeprom = demoErased.eeprom :=
  ⟨by decide, by decide,
   device_access_without_settings demoConfig demoErased [1, 2, 3, 4, 5, 6] 3
     (by decide) (by decide)⟩

/-- C4: with the version field at offset 0, `hasSettings()` returns true if and only
if the byte stored at offset 0 equals `EEPROM_FORMAT_VERSION`; it leaves the store
and the live collaborators unchanged, its only trace being one byte read. -/
theorem hasSettings_iff_version_byte (L : Config) (m : Machine D) (hv : L.offset_version = 0) :
    ((hasSettings L m).1 = true ↔ m.eeprom 0 = L.EEPROM_FORMAT_VERSION) ∧
    (hasSettings L m).2.eeprom = m.eeprom ∧
    (hasSettings L m).2.tempControl = m.tempControl ∧
    (hasSettings L m).2.deviceManager = m.deviceManager ∧
    (hasSettings L m).2.trace = m.trace ++ [Event.readByte 0] := by
  refine ⟨?_, rfl, rfl, rfl, ?_⟩
  · rw [hasSettings_true_iff, hv]
  · rw [hasSettings_snd, hv]

/-- Concrete instance on a small build, on a store that carries the version tag. -/
theorem hasSettings_iff_version_byte_witness :
    demoConfig.offset_version = 0 ∧
    ((hasSettings demoConfig demoValid).1 = true ↔
      demoValid.eeprom 0 = demoConfig.EEPROM_FORMAT_VERSION) ∧
    (hasSettings demoConfig demoValid).2.eeprom = demoValid.eeprom ∧
    (hasSettings demoConfig demoValid).2.tempControl = demoValid.tempControl ∧
    (hasSettings demoConfig demoValid).2.deviceManager = demoValid.deviceManager ∧
    (hasSettings demoConfig demoValid).2.trace = demoValid.trace ++ [Event.readByte 0] :=
  ⟨by decide, hasSettings_iff_version_byte demoConfig demoValid (by decide)⟩

/-- C5 (wipe): when `MAX_EEPROM_SIZE` fits the 16-bit loop counter, `zapEeprom`
returns from any store (given fuel above `MAX_EEPROM_SIZE`) and leaves every byte
at offsets `0 .. MAX_EEPROM_SIZE-1` equal to `0xFF`; when moreover the version byte
lies inside the medium and `EEPROM_FORMAT_VERSION` is not the erased value `0xFF`,
`hasSettings()` is false on the wiped store. -/
theorem zapEeprom_wipes (L : Config) (fuel : Nat) (m : Machine D)
    (hsize : L.MAX_EEPROM_SIZE ≤ 65535) (hfuel : L.MAX_EEPROM_SIZE < fuel)
    (hin : L.offset_version < L.MAX_EEPROM_SIZE) (hver : L.EEPROM_FORMAT_VERSION ≠ 0xFF) :
    ∃ m1, zapEeprom L fuel m = some m1 ∧
      (∀ a, a < L.MAX_EEPROM_SIZE → m1.eeprom a = 0xFF) ∧
      (hasSettings L m1).1 = false := by
  obtain ⟨m1, h1, h2, _⟩ := fill_loop L 0xFF fuel m (by decide) hsize hfuel
  refine ⟨m1, h1, h2, ?_⟩
  rw [hasSettings_fst, h2 _ hin]
  simpa using fun h => hver h.symm

/-- Concrete instance on a small build: wiping a store that carried settings. -/
theorem zapEeprom_wipes_witness :
    demoConfig.MAX_EEPROM_SIZE ≤ 65535 ∧ demoConfig.MAX_EEPROM_SIZE < 65 ∧
    demoConfig.offset_version < demoConfig.MAX_EEPROM_SIZE ∧
    demoConfig.EEPROM_FORMAT_VERSION ≠ 0xFF ∧
    ∃ m1, zapEeprom demoConfig 65 demoValid = some m1 ∧
      (∀ a, a < demoConfig.MAX_EEPROM_SIZE → m1.eeprom a = 0xFF) ∧
      (hasSettings demoConfig m1).1 = false :=
  ⟨by decide, by decide, by decide, by decide,
   zapEeprom_wipes demoConfig 65 demoValid (by decide) (by decide) (by decide) (by decide)⟩

/-- C6: in a well-formed layout whose loop bounds fit their `uint8_t` counters and
whose `EEPROM_FORMAT_VERSION` fits a byte, `initializeEeprom` returns from any store
(given fuel for the 16-bit fill loop) and `hasSettings()` is true on the result. -/
theorem initializeEeprom_hasSettings (L : Config) (C : Collaborators D) (fuel : Nat)
    (m : Machine D) (config : List Nat) (hL : L.WellFormed) (hch : L.MAX_CHAMBERS ≤ 255)
    (hb : L.MAX_BEERS ≤ 255) (hver : L.EEPROM_FORMAT_VERSION < 256) (hfuel : 65536 ≤ fuel) :
    ∃ m1, initializeEeprom L C fuel m config = some m1 ∧ (hasSettings L m1).1 = true := by
  obtain ⟨m4, h4, hv4, _⟩ := initializeEeprom_eq L C fuel m config hL hch hb hfuel
  refine ⟨_, h4, ?_⟩
  rw [hasSettings_true_iff]
  show (saveDefaultDevices L m4 config).2.eeprom L.offset_version = _
  rw [saveDefaultDevices_keeps_version L hL, hL.1, hv4, Nat.mod_eq_of_lt hver]

/-- Concrete instance on a small build, starting from an erased medium. -/
theorem initializeEeprom_hasSettings_witness :
    demoConfig.WellFormed ∧ demoConfig.MAX_CHAMBERS ≤ 255 ∧ demoConfig.MAX_BEERS ≤ 255 ∧
    demoConfig.EEPROM_FORMAT_VERSION < 256 ∧ 65536 ≤ 65536 ∧
    ∃ m1, initializeEeprom demoConfig demoCollaborators 65536 demoErased [9, 9, 9, 9, 9, 9] =
      some m1 ∧ (hasSettings demoConfig m1).1 = true :=
  ⟨by decide, by decide, by decide, by decide, by decide,
   initializeEeprom_hasSettings demoConfig demoCollaborators 65536 demoErased
     [9, 9, 9, 9, 9, 9] (by decide) (by decide) (by decide) (by decide) (by decide)⟩

/-- C7: in a well-formed layout, with the defaults being images of `ControlConstants`
and `ControlSettings`, after `initializeEeprom` every chamber slot `c < MAX_CHAMBERS`
holds the default constants and each of its beer slots `b < MAX_BEERS` holds the default
settings; and when there is a chamber 0 with a beer 0, what `applySettings` loads from
any machine carrying that store is exactly the defaults. -/
theorem initializeEeprom_stores_defaults (L : Config) (C : Collaborators D) (fuel : Nat)
    (m : Machine D) (config : List Nat) (hL : L.WellFormed) (hch : L.MAX_CHAMBERS ≤ 255)
    (hb : L.MAX_BEERS ≤ 255) (hfuel : 65536 ≤ fuel)
    (hcc : IsImage L.sizeof_ControlConstants C.defaultConstants)
    (hcs : IsImage L.sizeof_ControlSettings C.defaultSettings) :
    ∃ m1, initializeEeprom L C fuel m config = some m1 ∧
      (∀ c, c < L.MAX_CHAMBERS →
        (EepromAccess.readBlock m1 (L.offset_chambers + c * L.sizeof_ChamberBlock +
          L.offsetof_ChamberBlock_cc) L.sizeof_ControlConstants).1 = C.defaultConstants ∧
        ∀ b, b < L.MAX_BEERS →
          (EepromAccess.readBlock m1 (L.offset_chambers + c * L.sizeof_ChamberBlock +
            L.offsetof_ChamberBlock_beer + b * L.sizeof_BeerBlock + L.offsetof_BeerBlock_cs)
            L.sizeof_ControlSettings).1 = C.defaultSettings) ∧
      (0 < L.MAX_CHAMBERS → 0 < L.MAX_BEERS → ∀ m2 : Machine D, m2.eeprom = m1.eeprom →
        (applySettings_load L C m2).tempControl =
          { cc := C.defaultConstants, cs := C.defaultSettings }) := by
  obtain ⟨m4, h4, _, _, _, hstored⟩ := initializeEeprom_eq L C fuel m config hL hch hb hfuel
  have hkeep : ∀ a, a < L.offset_devices →
      (TempControl.init (saveDefaultDevices L m4 config).2).eeprom a = m4.eeprom a :=
    fun a ha => saveDefaultDevices_eeprom_below L hL m4 config a ha
  have hblocks : ∀ c, c < L.MAX_CHAMBERS →
      (EepromAccess.readBlock (TempControl.init (saveDefaultDevices L m4 config).2)
        (L.offset_chambers + c * L.sizeof_ChamberBlock + L.offsetof_ChamberBlock_cc)
        L.sizeof_ControlConstants).1 = C.defaultConstants ∧
      ∀ b, b < L.MAX_BEERS →
        (EepromAccess.readBlock (TempControl.init (saveDefaultDevices L m4 config).2)
          (L.offset_chambers + c * L.sizeof_ChamberBlock +
            L.offsetof_ChamberBlock_beer + b * L.sizeof_BeerBlock + L.offsetof_BeerBlock_cs)
          L.sizeof_ControlSettings).1 = C.defaultSettings := by
    intro c hc
    obtain ⟨hblk, _⟩ := chamber_block_bound L hL c hc
    obtain ⟨h1, h2⟩ := hstored c hc
    obtain ⟨_, _, _, _, _, h6, h7, h8⟩ := hL
    refine ⟨readBlock_eq_of_pointwise _ _ _ _ hcc fun k hk => ?_, fun b hbl =>
      readBlock_eq_of_pointwise _ _ _ _ hcs fun k hk => ?_⟩
    · rw [hkeep _ (by omega)]
      exact h1 k hk
    · have hmulb : b * L.sizeof_BeerBlock + L.sizeof_BeerBlock ≤
          L.MAX_BEERS * L.sizeof_BeerBlock := by
        have := Nat.mul_le_mul_right L.sizeof_BeerBlock (Nat.succ_le_of_lt hbl)
        rwa [Nat.succ_mul] at this
      rw [hkeep _ (by omega)]
      have := h2 b hbl k hk
      rw [show L.offset_chambers + c * L.sizeof_ChamberBlock + L.offsetof_ChamberBlock_beer +
        b * L.sizeof_BeerBlock + L.offsetof_BeerBlock_cs + k =
        L.offset_chambers + c * L.sizeof_ChamberBlock + L.offsetof_ChamberBlock_beer +
        L.offsetof_BeerBlock_cs + b * L.sizeof_BeerBlock + k by omega]
      exact this
  refine ⟨_, h4, hblocks, ?_⟩
  intro hc0 hb0 m2 hm2
  obtain ⟨h1, h2⟩ := hblocks 0 hc0
  have h2 := h2 0 hb0
  obtain ⟨hblk, hdev⟩ := chamber_block_bound L hL 0 hc0
  have hL2 := hL
  obtain ⟨_, _, _, _, _, h6, h7, h8⟩ := hL2
  have hb1 : L.sizeof_BeerBlock ≤ L.MAX_BEERS * L.sizeof_BeerBlock :=
    Nat.le_mul_of_pos_left _ hb0
  simp only [Nat.zero_mul, Nat.add_zero] at h1 h2 hblk
  have hpv : L.offset_chambers % 65536 = L.offset_chambers := Nat.mod_eq_of_lt (by omega)
  have hoc : (L.offset_chambers + L.offsetof_ChamberBlock_cc) % 65536 =
      L.offset_chambers + L.offsetof_ChamberBlock_cc := Nat.mod_eq_of_lt (by omega)
  have hos : (L.offset_chambers + L.offsetof_ChamberBlock_beer0_cs) % 65536 =
      L.offset_chambers + L.offsetof_ChamberBlock_beer + L.offsetof_BeerBlock_cs := by
    unfold Config.offsetof_ChamberBlock_beer0_cs
    rw [Nat.mod_eq_of_lt (by omega)]
    omega
  simp only [applySettings_load, hpv, hoc, hos, TempControl.loadSettings,
    TempControl.loadConstants, EepromAccess.readBlock,
    DeviceManager.setupUnconfiguredDevices, hm2]
  simp only [EepromAccess.readBlock] at h1 h2
  rw [h1, h2]

/-- Concrete instance on a small build, starting from an erased medium. -/
theorem initializeEeprom_stores_defaults_witness :
    demoConfig.WellFormed ∧ demoConfig.MAX_CHAMBERS ≤ 255 ∧ demoConfig.MAX_BEERS ≤ 255 ∧
    65536 ≤ 65536 ∧
    IsImage demoConfig.sizeof_ControlConstants demoCollaborators.defaultConstants ∧
    IsImage demoConfig.sizeof_ControlSettings demoCollaborators.defaultSettings ∧
    ∃ m1, initializeEeprom demoConfig demoCollaborators 65536 demoErased [9, 9, 9, 9, 9, 9] =
        some m1 ∧
      (∀ c, c < demoConfig.MAX_CHAMBERS →
        (EepromAccess.readBlock m1 (demoConfig.offset_chambers +
          c * demoConfig.sizeof_ChamberBlock + demoConfig.offsetof_ChamberBlock_cc)
          demoConfig.sizeof_ControlConstants).1 = demoCollaborators.defaultConstants ∧
        ∀ b, b < demoConfig.MAX_BEERS →
          (EepromAccess.readBlock m1 (demoConfig.offset_chambers +
            c * demoConfig.sizeof_ChamberBlock + demoConfig.offsetof_ChamberBlock_beer +
            b * demoConfig.sizeof_BeerBlock + demoConfig.offsetof_BeerBlock_cs)
            demoConfig.sizeof_ControlSettings).1 = demoCollaborators.defaultSettings) ∧
      (0 < demoConfig.MAX_CHAMBERS → 0 < demoConfig.MAX_BEERS →
        ∀ m2 : Machine (List (List Nat)), m2.eeprom = m1.eeprom →
        (applySettings_load demoConfig demoCollaborators m2).tempControl =
          { cc := demoCollaborators.defaultConstants,
            cs := demoCollaborators.defaultSettings }) :=
  ⟨by decide, by decide, by decide, by decide, by decide, by decide,
   initializeEeprom_stores_defaults demoConfig demoCollaborators 65536 demoErased
     [9, 9, 9, 9, 9, 9] (by decide) (by decide) (by decide) (by decide) (by decide)
     (by decide)⟩

/-- C8: in a well-formed layout with `sizeof(DeviceConfig) <= 255` and a factory preset
of `N <= MAX_DEVICES` records (`N = 5` for `BREWPI_SHIELD_REV_A`, `N = 0` otherwise),
after `initializeEeprom` `fetchDevice` succeeds for every index below `MAX_DEVICES`,
slots `0..N-1` hold the preset records in order, slots `N..MAX_DEVICES-1` hold the
all-zero record, and `fetchDevice` at index `MAX_DEVICES` returns false. -/
theorem initializeEeprom_device_table (L : Config) (C : Collaborators D) (fuel : Nat)
    (m : Machine D) (config : List Nat) (hL : L.WellFormed) (hch : L.MAX_CHAMBERS ≤ 255)
    (hb : L.MAX_BEERS ≤ 255) (hver : L.EEPROM_FORMAT_VERSION < 256)
    (hsz : L.sizeof_DeviceConfig ≤ 255) (hcfg : config.length = L.sizeof_DeviceConfig)
    (hfuel : 65536 ≤ fuel) (hN : (factoryPreset L).length ≤ L.MAX_DEVICES) :
    (factoryPreset L).length =
      (if L.BREWPI_STATIC_CONFIG = StaticConfig.shieldRevA then 5 else 0) ∧
    (saveDefaultDevices L m config).1 = (factoryPreset L).length ∧
    ∃ m1, initializeEeprom L C fuel m config = some m1 ∧
      (∀ i r2, i < (factoryPreset L).length →
        (fetchDevice L m1 r2 i).1 = true ∧
        (fetchDevice L m1 r2 i).2.1 = (factoryPreset L).getD i []) ∧
      (∀ i r2, (factoryPreset L).length ≤ i → i < L.MAX_DEVICES →
        (fetchDevice L m1 r2 i).1 = true ∧
        (fetchDevice L m1 r2 i).2.1 = List.replicate L.sizeof_DeviceConfig 0) ∧
      (∀ r2, (fetchDevice L m1 r2 L.MAX_DEVICES).1 = false) := by
  refine ⟨factoryPreset_length L, by rw [saveDefaultDevices_eq L m config hsz hcfg], ?_⟩
  obtain ⟨m4, h4, hv4, _, hzero, _⟩ := initializeEeprom_eq L C fuel m config hL hch hb hfuel
  have hs4 : (hasSettings L m4).1 = true := by
    rw [hasSettings_true_iff, hL.1, hv4, Nat.mod_eq_of_lt hver]
  rw [saveDefaultDevices_eq L m4 config hsz hcfg] at h4
  obtain ⟨hs5, _, _, _, hother, hsame⟩ := storeDevices_spec L hL (factoryPreset L) m4 0 hs4
    (factoryPreset_isImage L) (by omega)
  have hsf : (hasSettings L (TempControl.init (storeDevices L m4 (factoryPreset L) 0))).1
      = true := hs5
  refine ⟨_, h4, ?_, ?_, ?_⟩
  · intro i r2 hi
    obtain ⟨h1, h2⟩ := fetchDevice_eq_storedDevice L hL _ r2 i hsf (by omega)
    refine ⟨h1, h2.trans ?_⟩
    have := hsame i hi
    rw [Nat.zero_add] at this
    exact this
  · intro i r2 hi hlt
    obtain ⟨h1, h2⟩ := fetchDevice_eq_storedDevice L hL _ r2 i hsf hlt
    refine ⟨h1, h2.trans ?_⟩
    have := hother i (Or.inr (by omega))
    show storedDevice L (storeDevices L m4 (factoryPreset L) 0) i = _
    rw [this]
    have hbound := device_slot_bound L hL i hlt
    have hdev := offset_devices_pos L hL
    have h3 := hL.2.2.1
    apply List.ext_getElem
    · simp [storedDevice]
    · intro k hk1 hk2
      have hk : k < L.sizeof_DeviceConfig := by simpa [storedDevice] using hk1
      simp only [storedDevice, List.getElem_map, List.getElem_range, List.getElem_replicate]
      exact hzero _ (by omega) (Or.inr (by omega)) (by omega)
  · intro r2
    rw [fetchDevice_of_not_ok L _ r2 _ (Or.inr (Nat.le_refl _))]

/-- Concrete instance on a small build (rev-A shield, six slots), starting from an erased medium. -/
theorem initializeEeprom_device_table_witness :
    demoConfig.WellFormed ∧ demoConfig.MAX_CHAMBERS ≤ 255 ∧ demoConfig.MAX_BEERS ≤ 255 ∧
    demoConfig.EEPROM_FORMAT_VERSION < 256 ∧ demoConfig.sizeof_DeviceConfig ≤ 255 ∧
    [9, 9, 9, 9, 9, 9].length = demoConfig.sizeof_DeviceConfig ∧ 65536 ≤ 65536 ∧
    (factoryPreset demoConfig).length ≤ demoConfig.MAX_DEVICES ∧
    (factoryPreset demoConfig).length =
      (if demoConfig.BREWPI_STATIC_CONFIG = StaticConfig.shieldRevA then 5 else 0) ∧
    (saveDefaultDevices demoConfig demoErased [9, 9, 9, 9, 9, 9]).1 =
      (factoryPreset demoConfig).length ∧
    ∃ m1, initializeEeprom demoConfig demoCollaborators 65536 demoErased [9, 9, 9, 9, 9, 9] =
        some m1 ∧
      (∀ i r2, i < (factoryPreset demoConfig).length →
        (fetchDevice demoConfig m1 r2 i).1 = true ∧
        (fetchDevice demoConfig m1 r2 i).2.1 = (factoryPreset demoConfig).getD i []) ∧
      (∀ i r2, (factoryPreset demoConfig).length ≤ i → i < demoConfig.MAX_DEVICES →
        (fetchDevice demoConfig m1 r2 i).1 = true ∧
        (fetchDevice demoConfig m1 r2 i).2.1 =
          List.replicate demoConfig.sizeof_DeviceConfig 0) ∧
      (∀ r2, (fetchDevice demoConfig m1 r2 demoConfig.MAX_DEVICES).1 = false) :=
  ⟨by decide, by decide, by decide, by decide, by decide, by decide, by decide, by decide,
   initializeEeprom_device_table demoConfig demoCollaborators 65536 demoErased
     [9, 9, 9, 9, 9, 9] (by decide) (by decide) (by decide) (by decide) (by decide)
     (by decide) (by decide) (by decide)⟩

/-- C9: when `hasSettings()` is false, `applySettings()` returns false (whatever the
fuel), its only action is the one byte read of the check: no device-manager call is
made, the live control algorithm is not loaded, and the store is unchanged. -/
theorem applySettings_without_settings (L : Config) (C : Collaborators D) (fuel : Nat)
    (m : Machine D) (cfg : List Nat) (hn : (hasSettings L m).1 = false) :
    ∃ m1, applySettings L C fuel m cfg = some (false, m1) ∧
      m1.eeprom = m.eeprom ∧ m1.tempControl = m.tempControl ∧
      m1.deviceManager = m.deviceManager ∧
      m1.trace = m.trace ++ [Event.readByte L.offset_version] ∧
      applySettings_events L C fuel m cfg = [Event.readByte L.offset_version] := by
  have happ : applySettings L C fuel m cfg = some (false, (hasSettings L m).2) := by
    simp [applySettings, hn]
  refine ⟨(hasSettings L m).2, happ, rfl, rfl, rfl, by rw [hasSettings_snd], ?_⟩
  simp [applySettings_events, happ, hasSettings_snd]

/-- Concrete instance on a small build, on an erased medium. -/
theorem applySettings_without_settings_witness :
    (hasSettings demoConfig demoErased).1 = false ∧
    ∃ m1, applySettings demoConfig demoCollaborators 7 demoErased [9, 9, 9, 9, 9, 9] =
        some (false, m1) ∧
      m1.eeprom = demoErased.eeprom ∧ m1.tempControl = demoErased.tempControl ∧
      m1.deviceManager = demoErased.deviceManager ∧
      m1.trace = demoErased.trace ++ [Event.readByte demoConfig.offset_version] ∧
      applySettings_events demoConfig demoCollaborators 7 demoErased [9, 9, 9, 9, 9, 9] =
        [Event.readByte demoConfig.offset_version] :=
  ⟨by decide, applySettings_without_settings demoConfig demoCollaborators 7 demoErased
    [9, 9, 9, 9, 9, 9] (by decide)⟩

/-- C10 (invalid-device erasure): in a well-formed layout with `MAX_DEVICES <= 255`
and `sizeof(DeviceConfig) <= 255`, on a store with settings and outside simulation
mode, `applySettings()` returns true, and for every slot `i < MAX_DEVICES` for which
`isDeviceValid` returned false during the call, `fetchDevice` at `i` afterwards
yields the all-zero record and no `installDevice` call was made for slot `i`. -/
theorem applySettings_erases_rejected (L : Config) (C : Collaborators D) (fuel : Nat)
    (m : Machine D) (cfg : List Nat) (i : Nat) (r : List Nat) (hL : L.WellFormed)
    (hsz : L.sizeof_DeviceConfig ≤ 255) (hmax : L.MAX_DEVICES ≤ 255)
    (hsim : L.BREWPI_SIMULATE = false) (hs : (hasSettings L m).1 = true)
    (hfuel : L.MAX_DEVICES < fuel) (hi : i < L.MAX_DEVICES)
    (hrej : Event.isDeviceValid i r false ∈ applySettings_events L C fuel m cfg) :
    ∃ m1, applySettings L C fuel m cfg = some (true, m1) ∧
      (∀ r2, (fetchDevice L m1 r2 i).1 = true ∧
        (fetchDevice L m1 r2 i).2.1 = List.replicate L.sizeof_DeviceConfig 0) ∧
      ∀ c, Event.installDevice i c ∉ applySettings_events L C fuel m cfg := by
  obtain ⟨m1, happ, hframe, hrejected⟩ :=
    applySettings_spec L C fuel m cfg hL hsz hmax hsim hs hfuel
  obtain ⟨hz, hni⟩ := hrejected i r hrej
  have hs1 : (hasSettings L m1).1 = true := by
    rw [hasSettings_fst, hframe _ (offset_devices_pos L hL), ← hasSettings_fst]
    exact hs
  refine ⟨m1, happ, fun r2 => ?_, hni⟩
  obtain ⟨h1, h2⟩ := fetchDevice_eq_storedDevice L hL m1 r2 i hs1 hi
  exact ⟨h1, h2.trans hz⟩

/-- Concrete instance on a small build: slot 2 holds a record with a rejected hardware kind. -/
theorem applySettings_erases_rejected_witness :
    demoConfig.WellFormed ∧ demoConfig.sizeof_DeviceConfig ≤ 255 ∧
    demoConfig.MAX_DEVICES ≤ 255 ∧ demoConfig.BREWPI_SIMULATE = false ∧
    (hasSettings demoConfig demoValid).1 = true ∧ demoConfig.MAX_DEVICES < 7 ∧
    2 < demoConfig.MAX_DEVICES ∧
    Event.isDeviceValid 2 [0, 0, 0, 9, 0, 0] false ∈
      applySettings_events demoConfig demoCollaborators 7 demoValid [9, 9, 9, 9, 9, 9] ∧
    ∃ m1, applySettings demoConfig demoCollaborators 7 demoValid [9, 9, 9, 9, 9, 9] =
        some (true, m1) ∧
      (∀ r2, (fetchDevice demoConfig m1 r2 2).1 = true ∧
        (fetchDevice demoConfig m1 r2 2).2.1 =
          List.replicate demoConfig.sizeof_DeviceConfig 0) ∧
      ∀ c, Event.installDevice 2 c ∉
        applySettings_events demoConfig demoCollaborators 7 demoValid [9, 9, 9, 9, 9, 9] :=
  ⟨by decide, by decide, by decide, by decide, by decide, by decide, by decide, by decide,
   applySettings_erases_rejected demoConfig demoCollaborators 7 demoValid [9, 9, 9, 9, 9, 9]
     2 [0, 0, 0, 9, 0, 0] (by decide) (by decide) (by decide) (by decide) (by decide)
     (by decide) (by decide) (by decide)⟩

/-- C11, as stated, fails: on an erased medium (`hasSettings()` false) `storeTempSettings`
overwrites the settings of chamber 0 / beer 0 and `storeTempConstantsAndSettings`
also overwrites the constants of chamber 0. -/
theorem storeTemp_writes_without_settings :
    (hasSettings demoConfig demoErased).1 = false ∧
    (storeTempSettings demoConfig demoErased).eeprom 6 = 4 ∧ demoErased.eeprom 6 = 0xFF ∧
    (storeTempConstantsAndSettings demoConfig demoErased).eeprom 2 = 1 ∧
    demoErased.eeprom 2 = 0xFF ∧
    (storeTempSettings demoConfig demoErased).trace = [Event.writeBlock 6 [4, 5]] ∧
    (storeTempConstantsAndSettings demoConfig demoErased).trace =
      [Event.writeBlock 2 [1, 2, 3], Event.writeBlock 6 [4, 5]] := by
  decide

/-- C11, amended: `storeTempSettings` and `storeTempConstantsAndSettings` carry no
`hasSettings()` check.  Whatever the version byte holds, in a well-formed layout with
a chamber 0 and a beer 0, `storeTempSettings` is exactly one block write of the live
settings at the settings of chamber 0 / beer 0, `storeTempConstantsAndSettings` is
one block write of the live constants at the constants of chamber 0 followed by that
write; neither reads or changes the version byte, so `hasSettings()` keeps its value. -/
theorem storeTemp_unguarded (L : Config) (m : Machine D) (hL : L.WellFormed)
    (hc0 : 0 < L.MAX_CHAMBERS) (hb0 : 0 < L.MAX_BEERS) :
    Reaches m [Event.writeBlock
        (L.offset_chambers + L.offsetof_ChamberBlock_beer + L.offsetof_BeerBlock_cs)
        (blockImage m.tempControl.cs L.sizeof_ControlSettings)]
      (storeTempSettings L m) ∧
    Reaches m [Event.writeBlock (L.offset_chambers + L.offsetof_ChamberBlock_cc)
        (blockImage m.tempControl.cc L.sizeof_ControlConstants),
      Event.writeBlock
        (L.offset_chambers + L.offsetof_ChamberBlock_beer + L.offsetof_BeerBlock_cs)
        (blockImage m.tempControl.cs L.sizeof_ControlSettings)]
      (storeTempConstantsAndSettings L m) ∧
    (hasSettings L (storeTempSettings L m)).1 = (hasSettings L m).1 ∧
    (hasSettings L (storeTempConstantsAndSettings L m)).1 = (hasSettings L m).1 :=
  ⟨reaches_storeTempSettings L hL m hc0 hb0,
   reaches_storeTempConstantsAndSettings L hL m hc0 hb0,
   hasSettings_storeTempSettings L hL m hc0 hb0,
   hasSettings_storeTempConstantsAndSettings L hL m hc0 hb0⟩

/-- Concrete instance on a small build, on an erased medium. -/
theorem storeTemp_unguarded_witness :
    demoConfig.WellFormed ∧ 0 < demoConfig.MAX_CHAMBERS ∧ 0 < demoConfig.MAX_BEERS ∧
    Reaches demoErased [Event.writeBlock
        (demoConfig.offset_chambers + demoConfig.offsetof_ChamberBlock_beer +
          demoConfig.offsetof_BeerBlock_cs)
        (blockImage demoErased.tempControl.cs demoConfig.sizeof_ControlSettings)]
      (storeTempSettings demoConfig demoErased) ∧
    Reaches demoErased [Event.writeBlock
        (demoConfig.offset_chambers + demoConfig.offsetof_ChamberBlock_cc)
        (blockImage demoErased.tempControl.cc demoConfig.sizeof_ControlConstants),
      Event.writeBlock
        (demoConfig.offset_chambers + demoConfig.offsetof_ChamberBlock_beer +
          demoConfig.offsetof_BeerBlock_cs)
        (blockImage demoErased.tempControl.cs demoConfig.sizeof_ControlSettings)]
      (storeTempConstantsAndSettings demoConfig demoErased) ∧
    (hasSettings demoConfig (storeTempSettings demoConfig demoErased)).1 =
      (hasSettings demoConfig demoErased).1 ∧
    (hasSettings demoConfig (storeTempConstantsAndSettings demoConfig demoErased)).1 =
      (hasSettings demoConfig demoErased).1 :=
  ⟨by decide, by decide, by decide,
   storeTemp_unguarded demoConfig demoErased (by decide) (by decide) (by decide)⟩

/-- C13 (frame of `storeDevice`): in a well-formed layout, on a store with settings and
for `i < MAX_DEVICES`, `storeDevice(r, i)` is the version check followed by one block
write into slot `i`; every byte outside the `sizeof(DeviceConfig)` bytes from
`offset(devices) + i*sizeof(DeviceConfig)` keeps its value, in particular the version
byte, every byte of every chamber block and the record of every other slot `j != i`;
the live collaborators are unchanged. -/
theorem storeDevice_frame (L : Config) (m : Machine D) (r : List Nat) (i : Nat)
    (hL : L.WellFormed) (hs : (hasSettings L m).1 = true) (hi : i < L.MAX_DEVICES) :
    Reaches m [Event.readByte L.offset_version,
      Event.writeBlock (L.offset_devices + L.sizeof_DeviceConfig * i)
        (blockImage r L.sizeof_DeviceConfig)] (storeDevice L m r i).2 ∧
    (∀ a, a < L.offset_devices + L.sizeof_DeviceConfig * i ∨
        L.offset_devices + L.sizeof_DeviceConfig * i + L.sizeof_DeviceConfig ≤ a →
      (storeDevice L m r i).2.eeprom a = m.eeprom a) ∧
    (storeDevice L m r i).2.eeprom 0 = m.eeprom 0 ∧
    (∀ c k, c < L.MAX_CHAMBERS → k < L.sizeof_ChamberBlock →
      (storeDevice L m r i).2.eeprom (L.offset_chambers + c * L.sizeof_ChamberBlock + k) =
        m.eeprom (L.offset_chambers + c * L.sizeof_ChamberBlock + k)) ∧
    (∀ j, j ≠ i → storedDevice L (storeDevice L m r i).2 j = storedDevice L m j) ∧
    (storeDevice L m r i).2.tempControl = m.tempControl ∧
    (storeDevice L m r i).2.deviceManager = m.deviceManager := by
  have hre := reaches_storeDevice L hL m r i hs
  simp only [storeDeviceEvents, if_pos hi] at hre
  refine ⟨hre, fun a ha => storeDevice_eeprom_outside L hL m r i a ha, ?_, ?_,
    fun j hj => storedDevice_storeDevice_other L hL m r j i hj,
    storeDevice_tempControl L m r i, storeDevice_deviceManager L m r i⟩
  · have := storeDevice_keeps_version L hL m r i
    rwa [hL.1] at this
  · intro c k hc hk
    obtain ⟨hblk, _⟩ := chamber_block_bound L hL c hc
    exact storeDevice_eeprom_below L hL m r i _ (by omega)

/-- Concrete instance on a small build: a store into slot 3 of a store with settings. -/
theorem storeDevice_frame_witness :
    demoConfig.WellFormed ∧ (hasSettings demoConfig demoValid).1 = true ∧
    3 < demoConfig.MAX_DEVICES ∧
    Reaches demoValid [Event.readByte demoConfig.offset_version,
      Event.writeBlock (demoConfig.offset_devices + demoConfig.sizeof_DeviceConfig * 3)
        (blockImage [1, 2, 3, 4, 5, 6] demoConfig.sizeof_DeviceConfig)]
      (storeDevice demoConfig demoValid [1, 2, 3, 4, 5, 6] 3).2 ∧
    (∀ a, a < demoConfig.offset_devices + demoConfig.sizeof_DeviceConfig * 3 ∨
        demoConfig.offset_devices + demoConfig.sizeof_DeviceConfig * 3 +
          demoConfig.sizeof_DeviceConfig ≤ a →
      (storeDevice demoConfig demoValid [1, 2, 3, 4, 5, 6] 3).2.eeprom a =
        demoValid.eeprom a) ∧
    (storeDevice demoConfig demoValid [1, 2, 3, 4, 5, 6] 3).2.eeprom 0 = demoValid.eeprom 0 ∧
    (∀ c k, c < demoConfig.MAX_CHAMBERS → k < demoConfig.sizeof_ChamberBlock →
      (storeDevice demoConfig demoValid [1, 2, 3, 4, 5, 6] 3).2.eeprom
          (demoConfig.offset_chambers + c * demoConfig.sizeof_ChamberBlock + k) =
        demoValid.eeprom (demoConfig.offset_chambers + c * demoConfig.sizeof_ChamberBlock + k)) ∧
    (∀ j, j ≠ 3 →
      storedDevice demoConfig (storeDevice demoConfig demoValid [1, 2, 3, 4, 5, 6] 3).2 j =
        storedDevice demoConfig demoValid j) ∧
    (storeDevice demoConfig demoValid [1, 2, 3, 4, 5, 6] 3).2.tempControl =
      demoValid.tempControl ∧
    (storeDevice demoConfig demoValid [1, 2, 3, 4, 5, 6] 3).2.deviceManager =
      demoValid.deviceManager :=
  ⟨by decide, by decide, by decide,
   storeDevice_frame demoConfig demoValid [1, 2, 3, 4, 5, 6] 3 (by decide) (by decide)
     (by decide)⟩

/-- C15 (initialization ordering): in a well-formed layout with a non-zero
`EEPROM_FORMAT_VERSION`, the trace of `initializeEeprom` is the zero fill, then the
collaborator calls and the chamber writes (`MAX_CHAMBERS` writes of the default
constants, each followed by `MAX_BEERS` writes of the default settings), then the
write of the version tag to offset 0, then the rest; and in every store state from
the end of the zero fill up to the write of the version tag `hasSettings()` is false. -/
theorem initializeEeprom_version_after_data (L : Config) (C : Collaborators D) (fuel : Nat)
    (m : Machine D) (config : List Nat) (hL : L.WellFormed) (hch : L.MAX_CHAMBERS ≤ 255)
    (hb : L.MAX_BEERS ≤ 255) (hver : L.EEPROM_FORMAT_VERSION < 256)
    (hsz : L.sizeof_DeviceConfig ≤ 255) (hcfg : config.length = L.sizeof_DeviceConfig)
    (hfuel : 65536 ≤ fuel) (hv0 : L.EEPROM_FORMAT_VERSION ≠ 0) :
    ∃ m1, initializeEeprom L C fuel m config = some m1 ∧
      Reaches m (fillEvents L.MAX_EEPROM_SIZE 0 ++
        ([Event.setupUnconfiguredDevices, Event.loadDefaultConstants,
          Event.loadDefaultSettings] ++
          chamberEvents L C.defaultConstants C.defaultSettings L.MAX_CHAMBERS) ++
        (Event.writeByte 0 L.EEPROM_FORMAT_VERSION :: initializeEvents_after L)) m1 ∧
      (chamberEvents L C.defaultConstants C.defaultSettings L.MAX_CHAMBERS).length =
        L.MAX_CHAMBERS * (1 + L.MAX_BEERS) ∧
      ∀ p, List.IsPrefix p ([Event.setupUnconfiguredDevices, Event.loadDefaultConstants,
          Event.loadDefaultSettings] ++
          chamberEvents L C.defaultConstants C.defaultSettings L.MAX_CHAMBERS) →
        (hasSettings L { m with
          eeprom := replay m.eeprom (fillEvents L.MAX_EEPROM_SIZE 0 ++ p) }).1 = false := by
  obtain ⟨m1, h1, hr⟩ :=
    reaches_initializeEeprom L C fuel m config hL hch hb hver hsz hcfg hfuel
  refine ⟨m1, h1, ?_, chamberEvents_length _ _ _ _, ?_⟩
  · have hev : initializeEvents L C = fillEvents L.MAX_EEPROM_SIZE 0 ++
        ([Event.setupUnconfiguredDevices, Event.loadDefaultConstants,
          Event.loadDefaultSettings] ++
          chamberEvents L C.defaultConstants C.defaultSettings L.MAX_CHAMBERS) ++
        (Event.writeByte 0 L.EEPROM_FORMAT_VERSION :: initializeEvents_after L) := by
      simp [initializeEvents, initializeEvents_before, Nat.mod_eq_of_lt hver]
    rw [← hev]
    exact hr
  · intro p hp
    have hpos : 0 < L.MAX_EEPROM_SIZE := by
      have := offset_devices_pos L hL
      have := hL.2.2.2.1
      omega
    have hchm : 1 ≤ L.offset_chambers := by
      have := hL.2.1
      omega
    have h0 : replay m.eeprom (fillEvents L.MAX_EEPROM_SIZE 0 ++ p) 0 = 0 := by
      rw [replay_append, replay_untouched 0 p, replay_fillEvents _ _ _ 0 hpos]
      intro e he ht
      have hmem := hp.subset he
      simp only [List.mem_append, List.mem_cons, List.mem_singleton, List.not_mem_nil,
        or_false] at hmem
      rcases hmem with (rfl | rfl | rfl) | hmem
      · exact ht
      · exact ht
      · exact ht
      · have := bounds_of_touches _ _ 0 e (chamberEvents_within L hL _ _ _ e hmem) ht
        omega
    rw [hasSettings_fst]
    show (replay m.eeprom (fillEvents L.MAX_EEPROM_SIZE 0 ++ p) L.offset_version ==
      L.EEPROM_FORMAT_VERSION) = false
    rw [hL.1, h0]
    simpa using fun h => hv0 h.symm

/-- Concrete instance on a small build, starting from a store that carried settings. -/
theorem initializeEeprom_version_after_data_witness :
    demoConfig.WellFormed ∧ demoConfig.MAX_CHAMBERS ≤ 255 ∧ demoConfig.MAX_BEERS ≤ 255 ∧
    demoConfig.EEPROM_FORMAT_VERSION < 256 ∧ demoConfig.sizeof_DeviceConfig ≤ 255 ∧
    [9, 9, 9, 9, 9, 9].length = demoConfig.sizeof_DeviceConfig ∧ 65536 ≤ 65536 ∧
    demoConfig.EEPROM_FORMAT_VERSION ≠ 0 ∧
    ∃ m1, initializeEeprom demoConfig demoCollaborators 65536 demoValid [9, 9, 9, 9, 9, 9] =
        some m1 ∧
      Reaches demoValid (fillEvents demoConfig.MAX_EEPROM_SIZE 0 ++
        ([Event.setupUnconfiguredDevices, Event.loadDefaultConstants,
          Event.loadDefaultSettings] ++
          chamberEvents demoConfig demoCollaborators.defaultConstants
            demoCollaborators.defaultSettings demoConfig.MAX_CHAMBERS) ++
        (Event.writeByte 0 demoConfig.EEPROM_FORMAT_VERSION ::
          initializeEvents_after demoConfig)) m1 ∧
      (chamberEvents demoConfig demoCollaborators.defaultConstants
        demoCollaborators.defaultSettings demoConfig.MAX_CHAMBERS).length =
        demoConfig.MAX_CHAMBERS * (1 + demoConfig.MAX_BEERS) ∧
      ∀ p, List.IsPrefix p ([Event.setupUnconfiguredDevices, Event.loadDefaultConstants,
          Event.loadDefaultSettings] ++
          chamberEvents demoConfig demoCollaborators.defaultConstants
            demoCollaborators.defaultSettings demoConfig.MAX_CHAMBERS) →
        (hasSettings demoConfig { demoValid with
          eeprom := replay demoValid.eeprom
            (fillEvents demoConfig.MAX_EEPROM_SIZE 0 ++ p) }).1 = false :=
  ⟨by decide, by decide, by decide, by decide, by decide, by decide, by decide, by decide,
   initializeEeprom_version_after_data demoConfig demoCollaborators 65536 demoValid
     [9, 9, 9, 9, 9, 9] (by decide) (by decide) (by decide) (by decide) (by decide)
     (by decide) (by decide) (by decide)⟩

/-- C16, as stated, fails: on the rev-A build the trace of `initializeEeprom` has the
write of the version tag followed by the block writes of the factory preset. -/
theorem initializeEeprom_preset_written_after_version :
    (initializeEeprom demoConfig demoCollaborators 65 demoErased [9, 9, 9, 9, 9, 9]).map
        (fun m1 => m1.trace) =
      some (initializeEvents_before demoConfig demoCollaborators ++
        (Event.writeByte 0 2 :: initializeEvents_after demoConfig)) ∧
    Event.writeBlock 12 [1, 0, 1, 1, 4, 1] ∈ initializeEvents_after demoConfig ∧
    (Event.writeBlock 12 [1, 0, 1, 1, 4, 1]).isWrite = true := by
  decide

/-- C16, amended: the version tag is written after the zero fill and the chamber
defaults and before the factory preset.  The events of `initializeEeprom` that follow
the write of the version tag are those of `saveDefaultDevices` and
`tempControl.init()`; every store write among them is the block write of a factory
preset record into its own device slot, and there is none when the preset is empty. -/
theorem initializeEeprom_writes_after_version_are_presets (L : Config)
    (C : Collaborators D) (fuel : Nat) (m : Machine D) (config : List Nat)
    (hL : L.WellFormed) (hch : L.MAX_CHAMBERS ≤ 255) (hb : L.MAX_BEERS ≤ 255)
    (hver : L.EEPROM_FORMAT_VERSION < 256) (hsz : L.sizeof_DeviceConfig ≤ 255)
    (hcfg : config.length = L.sizeof_DeviceConfig) (hfuel : 65536 ≤ fuel) :
    ∃ m1, initializeEeprom L C fuel m config = some m1 ∧
      Reaches m (initializeEvents_before L C ++
        (Event.writeByte 0 L.EEPROM_FORMAT_VERSION :: initializeEvents_after L)) m1 ∧
      (∀ e, e ∈ initializeEvents_after L → e.isWrite = true →
        ∃ k, k < (factoryPreset L).length ∧ k < L.MAX_DEVICES ∧
          e = Event.writeBlock (L.offset_devices + L.sizeof_DeviceConfig * k)
            ((factoryPreset L).getD k [])) ∧
      ((factoryPreset L).length = 0 →
        ∀ e, e ∈ initializeEvents_after L → e.isWrite = false) := by
  obtain ⟨m1, h1, hr⟩ :=
    reaches_initializeEeprom L C fuel m config hL hch hb hver hsz hcfg hfuel
  have hwrites : ∀ e, e ∈ initializeEvents_after L → e.isWrite = true →
      ∃ k, k < (factoryPreset L).length ∧ k < L.MAX_DEVICES ∧
        e = Event.writeBlock (L.offset_devices + L.sizeof_DeviceConfig * k)
          ((factoryPreset L).getD k []) := by
    intro e he hw
    simp only [initializeEvents_after, List.mem_append, List.mem_singleton] at he
    rcases he with he | rfl
    · obtain ⟨k, hk, hlt, heq⟩ :=
        (storeDevicesEvents_spec L hL _ (factoryPreset_isImage L) 0 e he).2 hw
      rw [Nat.zero_add] at hlt heq
      exact ⟨k, hk, hlt, heq⟩
    · simp [Event.isWrite] at hw
  refine ⟨m1, h1, ?_, hwrites, ?_⟩
  · have hev : initializeEvents L C = initializeEvents_before L C ++
        (Event.writeByte 0 L.EEPROM_FORMAT_VERSION :: initializeEvents_after L) := by
      simp [initializeEvents, Nat.mod_eq_of_lt hver]
    rw [← hev]
    exact hr
  · intro h0 e he
    cases hw : e.isWrite with
    | false => rfl
    | true =>
      obtain ⟨k, hk, _⟩ := hwrites e he hw
      omega

/-- Concrete instance on a small build (rev-A shield), starting from an erased medium. -/
theorem initializeEeprom_writes_after_version_are_presets_witness :
    demoConfig.WellFormed ∧ demoConfig.MAX_CHAMBERS ≤ 255 ∧ demoConfig.MAX_BEERS ≤ 255 ∧
    demoConfig.EEPROM_FORMAT_VERSION < 256 ∧ demoConfig.sizeof_DeviceConfig ≤ 255 ∧
    [9, 9, 9, 9, 9, 9].length = demoConfig.sizeof_DeviceConfig ∧ 65536 ≤ 65536 ∧
    ∃ m1, initializeEeprom demoConfig demoCollaborators 65536 demoErased [9, 9, 9, 9, 9, 9] =
        some m1 ∧
      Reaches demoErased (initializeEvents_before demoConfig demoCollaborators ++
        (Event.writeByte 0 demoConfig.EEPROM_FORMAT_VERSION ::
          initializeEvents_after demoConfig)) m1 ∧
      (∀ e, e ∈ initializeEvents_after demoConfig → e.isWrite = true →
        ∃ k, k < (factoryPreset demoConfig).length ∧ k < demoConfig.MAX_DEVICES ∧
          e = Event.writeBlock
            (demoConfig.offset_devices + demoConfig.sizeof_DeviceConfig * k)
            ((factoryPreset demoConfig).getD k [])) ∧
      ((factoryPreset demoConfig).length = 0 →
        ∀ e, e ∈ initializeEvents_after demoConfig → e.isWrite = false) :=
  ⟨by decide, by decide, by decide, by decide, by decide, by decide, by decide,
   initializeEeprom_writes_after_version_are_presets demoConfig demoCollaborators 65536
     demoErased [9, 9, 9, 9, 9, 9] (by decide) (by decide) (by decide) (by decide)
     (by decide) (by decide) (by decide)⟩

/-- C17: in a well-formed layout, `initializeEeprom` produces the same contents at
every offset below `MAX_EEPROM_SIZE` whatever store (and whatever live state and
uninitialised local) it starts from; hence running it a second time leaves every
offset below `MAX_EEPROM_SIZE` as the first run left it. -/
theorem initializeEeprom_overwrites (L : Config) (C : Collaborators D) (fuel : Nat)
    (m m' : Machine D) (config config' : List Nat) (hL : L.WellFormed)
    (hch : L.MAX_CHAMBERS ≤ 255) (hb : L.MAX_BEERS ≤ 255)
    (hver : L.EEPROM_FORMAT_VERSION < 256) (hsz : L.sizeof_DeviceConfig ≤ 255)
    (hcfg : config.length = L.sizeof_DeviceConfig)
    (hcfg' : config'.length = L.sizeof_DeviceConfig) (hfuel : 65536 ≤ fuel) :
    ∃ m1 m1' m2, initializeEeprom L C fuel m config = some m1 ∧
      initializeEeprom L C fuel m' config' = some m1' ∧
      initializeEeprom L C fuel m1 config' = some m2 ∧
      (∀ a, a < L.MAX_EEPROM_SIZE → m1.eeprom a = m1'.eeprom a) ∧
      (∀ a, a < L.MAX_EEPROM_SIZE → m2.eeprom a = m1.eeprom a) := by
  obtain ⟨m1, h1, hr1⟩ :=
    reaches_initializeEeprom L C fuel m config hL hch hb hver hsz hcfg hfuel
  obtain ⟨m1', h1', hr1'⟩ :=
    reaches_initializeEeprom L C fuel m' config' hL hch hb hver hsz hcfg' hfuel
  obtain ⟨m2, h2, hr2⟩ :=
    reaches_initializeEeprom L C fuel m1 config' hL hch hb hver hsz hcfg' hfuel
  have hindep : ∀ (s t : Nat → Nat) a, a < L.MAX_EEPROM_SIZE →
      replay s (initializeEvents L C) a = replay t (initializeEvents L C) a := by
    intro s t a ha
    apply replay_congr
    right
    refine ⟨Event.writeByte a 0, ?_, rfl⟩
    simp only [initializeEvents, initializeEvents_before, List.mem_append]
    left; left
    simp only [fillEvents, List.mem_map, List.mem_range]
    exact ⟨a, ha, rfl⟩
  refine ⟨m1, m1', m2, h1, h1', h2, ?_, ?_⟩
  · intro a ha
    rw [hr1.2, hr1'.2]
    exact hindep _ _ a ha
  · intro a ha
    rw [hr2.2]
    conv_rhs => rw [hr1.2]
    exact hindep _ _ a ha

/-- Concrete instance on a small build: an erased medium against a store that carried
settings. -/
theorem initializeEeprom_overwrites_witness :
    demoConfig.WellFormed ∧ demoConfig.MAX_CHAMBERS ≤ 255 ∧ demoConfig.MAX_BEERS ≤ 255 ∧
    demoConfig.EEPROM_FORMAT_VERSION < 256 ∧ demoConfig.sizeof_DeviceConfig ≤ 255 ∧
    [9, 9, 9, 9, 9, 9].length = demoConfig.sizeof_DeviceConfig ∧
    [1, 2, 3, 4, 5, 6].length = demoConfig.sizeof_DeviceConfig ∧ 65536 ≤ 65536 ∧
    ∃ m1 m1' m2,
      initializeEeprom demoConfig demoCollaborators 65536 demoErased [9, 9, 9, 9, 9, 9] =
        some m1 ∧
      initializeEeprom demoConfig demoCollaborators 65536 demoValid [1, 2, 3, 4, 5, 6] =
        some m1' ∧
      initializeEeprom demoConfig demoCollaborators 65536 m1 [1, 2, 3, 4, 5, 6] = some m2 ∧
      (∀ a, a < demoConfig.MAX_EEPROM_SIZE → m1.eeprom a = m1'.eeprom a) ∧
      (∀ a, a < demoConfig.MAX_EEPROM_SIZE → m2.eeprom a = m1.eeprom a) :=
  ⟨by decide, by decide, by decide, by decide, by decide, by decide, by decide, by decide,
   initializeEeprom_overwrites demoConfig demoCollaborators 65536 demoErased demoValid
     [9, 9, 9, 9, 9, 9] [1, 2, 3, 4, 5, 6] (by decide) (by decide) (by decide) (by decide)
     (by decide) (by decide) (by decide) (by decide)⟩

/-- C12 (state machine): in a well-formed layout with a chamber 0 and a beer 0,
`fetchDevice`, `storeDevice` (any record, any index), `applySettings`,
`storeTempConstantsAndSettings` and `storeTempSettings` return and leave
`hasSettings()` at the value it had, so none of them leaves HasSettings and none of
them leaves NoSettings; `initializeEeprom` returns with `hasSettings()` true, and
`zapEeprom` returns with `hasSettings()` false. -/
theorem hasSettings_state_machine (L : Config) (C : Collaborators D) (fuel : Nat)
    (m : Machine D) (r : List Nat) (i : Nat) (cfg : List Nat) (hL : L.WellFormed)
    (hch : L.MAX_CHAMBERS ≤ 255) (hb : L.MAX_BEERS ≤ 255) (hmax : L.MAX_DEVICES ≤ 255)
    (hsz : L.sizeof_DeviceConfig ≤ 255) (hver : L.EEPROM_FORMAT_VERSION < 256)
    (hvff : L.EEPROM_FORMAT_VERSION ≠ 0xFF) (hc0 : 0 < L.MAX_CHAMBERS)
    (hb0 : 0 < L.MAX_BEERS) (hfuel : 65536 ≤ fuel) :
    (hasSettings L (fetchDevice L m r i).2.2).1 = (hasSettings L m).1 ∧
    (hasSettings L (storeDevice L m r i).2).1 = (hasSettings L m).1 ∧
    (∃ b m1, applySettings L C fuel m cfg = some (b, m1) ∧
      (hasSettings L m1).1 = (hasSettings L m).1) ∧
    (hasSettings L (storeTempConstantsAndSettings L m)).1 = (hasSettings L m).1 ∧
    (hasSettings L (storeTempSettings L m)).1 = (hasSettings L m).1 ∧
    (∃ m1, initializeEeprom L C fuel m cfg = some m1 ∧ (hasSettings L m1).1 = true) ∧
    (∃ m1, zapEeprom L fuel m = some m1 ∧ (hasSettings L m1).1 = false) := by
  have hsize : L.MAX_EEPROM_SIZE ≤ 65535 := hL.2.2.2.2.1
  refine ⟨?_, hasSettings_storeDevice L hL m r i, ?_,
    hasSettings_storeTempConstantsAndSettings L hL m hc0 hb0,
    hasSettings_storeTempSettings L hL m hc0 hb0, ?_, ?_⟩
  · rw [hasSettings_fst, hasSettings_fst, fetchDevice_eeprom]
  · obtain ⟨b, m1, happ, hs, _⟩ :=
      applySettings_returns L C fuel m cfg hL hsz hmax hc0 hb0 (by omega)
    exact ⟨b, m1, happ, hs⟩
  · obtain ⟨m4, h4, hv4, _⟩ := initializeEeprom_eq L C fuel m cfg hL hch hb hfuel
    refine ⟨_, h4, ?_⟩
    rw [hasSettings_true_iff]
    show (saveDefaultDevices L m4 cfg).2.eeprom L.offset_version = _
    rw [saveDefaultDevices_keeps_version L hL, hL.1, hv4, Nat.mod_eq_of_lt hver]
  · obtain ⟨m1, h1, h2, _⟩ := fill_loop L 0xFF fuel m (by decide) hsize (by omega)
    refine ⟨m1, h1, ?_⟩
    have hin : L.offset_version < L.MAX_EEPROM_SIZE := by
      have := offset_devices_pos L hL
      have := hL.2.2.2.1
      omega
    rw [hasSettings_fst, h2 _ hin]
    simpa using fun h => hvff h.symm

/-- Concrete instance on a small build, on a store with settings. -/
theorem hasSettings_state_machine_witness :
    demoConfig.WellFormed ∧ demoConfig.MAX_CHAMBERS ≤ 255 ∧ demoConfig.MAX_BEERS ≤ 255 ∧
    demoConfig.MAX_DEVICES ≤ 255 ∧ demoConfig.sizeof_DeviceConfig ≤ 255 ∧
    demoConfig.EEPROM_FORMAT_VERSION < 256 ∧ demoConfig.EEPROM_FORMAT_VERSION ≠ 0xFF ∧
    0 < demoConfig.MAX_CHAMBERS ∧ 0 < demoConfig.MAX_BEERS ∧ 65536 ≤ 65536 ∧
    (hasSettings demoConfig (fetchDevice demoConfig demoValid [1, 2, 3, 4, 5, 6] 2).2.2).1 =
      (hasSettings demoConfig demoValid).1 ∧
    (hasSettings demoConfig (storeDevice demoConfig demoValid [1, 2, 3, 4, 5, 6] 2).2).1 =
      (hasSettings demoConfig demoValid).1 ∧
    (∃ b m1, applySettings demoConfig demoCollaborators 65536 demoValid [9, 9, 9, 9, 9, 9] =
        some (b, m1) ∧
      (hasSettings demoConfig m1).1 = (hasSettings demoConfig demoValid).1) ∧
    (hasSettings demoConfig (storeTempConstantsAndSettings demoConfig demoValid)).1 =
      (hasSettings demoConfig demoValid).1 ∧
    (hasSettings demoConfig (storeTempSettings demoConfig demoValid)).1 =
      (hasSettings demoConfig demoValid).1 ∧
    (∃ m1, initializeEeprom demoConfig demoCollaborators 65536 demoValid [9, 9, 9, 9, 9, 9] =
        some m1 ∧ (hasSettings demoConfig m1).1 = true) ∧
    (∃ m1, zapEeprom demoConfig 65536 demoValid = some m1 ∧
      (hasSettings demoConfig m1).1 = false) :=
  ⟨by decide, by decide, by decide, by decide, by decide, by decide, by decide, by decide,
   by decide, by decide,
   hasSettings_state_machine demoConfig demoCollaborators 65536 demoValid [1, 2, 3, 4, 5, 6] 2
     [9, 9, 9, 9, 9, 9] (by decide) (by decide) (by decide) (by decide) (by decide)
     (by decide) (by decide) (by decide) (by decide) (by decide)⟩

/-- C14 (settings round trip): in a well-formed layout with a chamber 0 and a beer 0,
`storeTempConstantsAndSettings` is one write of the live constants at the constants of
chamber 0 and one write of the live settings at the settings of chamber 0 / beer 0,
`storeTempSettings` is the latter write alone and leaves the stored constants as they
were; on any machine carrying the store that `storeTempConstantsAndSettings` produced
from a store with settings, `applySettings` returns true with the live constants and
settings equal to those that were live at store time. -/
theorem settings_roundtrip (L : Config) (C : Collaborators D) (fuel : Nat)
    (m m2 : Machine D) (cfg : List Nat) (hL : L.WellFormed)
    (hsz : L.sizeof_DeviceConfig ≤ 255) (hmax : L.MAX_DEVICES ≤ 255)
    (hc0 : 0 < L.MAX_CHAMBERS) (hb0 : 0 < L.MAX_BEERS)
    (hcc : IsImage L.sizeof_ControlConstants m.tempControl.cc)
    (hcs : IsImage L.sizeof_ControlSettings m.tempControl.cs)
    (hfuel : L.MAX_DEVICES < fuel) (hs : (hasSettings L m).1 = true)
    (hm2 : m2.eeprom = (storeTempConstantsAndSettings L m).eeprom) :
    Reaches m [Event.writeBlock (L.offset_chambers + L.offsetof_ChamberBlock_cc)
        m.tempControl.cc,
      Event.writeBlock
        (L.offset_chambers + L.offsetof_ChamberBlock_beer + L.offsetof_BeerBlock_cs)
        m.tempControl.cs] (storeTempConstantsAndSettings L m) ∧
    Reaches m [Event.writeBlock
        (L.offset_chambers + L.offsetof_ChamberBlock_beer + L.offsetof_BeerBlock_cs)
        m.tempControl.cs] (storeTempSettings L m) ∧
    (EepromAccess.readBlock (storeTempSettings L m)
      (L.offset_chambers + L.offsetof_ChamberBlock_cc) L.sizeof_ControlConstants).1 =
      (EepromAccess.readBlock m
        (L.offset_chambers + L.offsetof_ChamberBlock_cc) L.sizeof_ControlConstants).1 ∧
    ∃ m3, applySettings L C fuel m2 cfg = some (true, m3) ∧
      m3.tempControl = m.tempControl := by
  have h1 := reaches_storeTempConstantsAndSettings L hL m hc0 hb0
  have h2 := reaches_storeTempSettings L hL m hc0 hb0
  rw [blockImage_of_isImage _ _ hcc, blockImage_of_isImage _ _ hcs] at h1
  rw [blockImage_of_isImage _ _ hcs] at h2
  obtain ⟨ha, hb, _, hd⟩ := stored_after_storeTemp L hL m hc0 hb0 hcc hcs
  refine ⟨h1, h2, hd, ?_⟩
  have hs2 : (hasSettings L m2).1 = true := by
    rw [hasSettings_fst, hm2, ← hasSettings_fst,
      hasSettings_storeTempConstantsAndSettings L hL m hc0 hb0]
    exact hs
  obtain ⟨m3, _, happ, _, _, _, _, _, _, _, htc⟩ :=
    applySettings_with_settings L C fuel m2 cfg hL hsz hmax hs2 hfuel
  refine ⟨m3, happ, ?_⟩
  rw [htc, applySettings_load_tempControl L C hL _ hc0 hb0,
    readBlock_congr (hasSettings L m2).2 (storeTempConstantsAndSettings L m) _ _ hm2,
    readBlock_congr (hasSettings L m2).2 (storeTempConstantsAndSettings L m) _ _ hm2,
    ha, hb]

/-- Concrete instance on a small build: store on a store with settings, then apply on a
machine whose live values differ. -/
theorem settings_roundtrip_witness :
    demoConfig.WellFormed ∧ demoConfig.sizeof_DeviceConfig ≤ 255 ∧
    demoConfig.MAX_DEVICES ≤ 255 ∧ 0 < demoConfig.MAX_CHAMBERS ∧ 0 < demoConfig.MAX_BEERS ∧
    IsImage demoConfig.sizeof_ControlConstants demoValid.tempControl.cc ∧
    IsImage demoConfig.sizeof_ControlSettings demoValid.tempControl.cs ∧
    demoConfig.MAX_DEVICES < 7 ∧ (hasSettings demoConfig demoValid).1 = true ∧
    ({ (storeTempConstantsAndSettings demoConfig demoValid) with
        tempControl := { cc := [0, 0, 0], cs := [0, 0] } } : Machine (List (List Nat))).eeprom =
      (storeTempConstantsAndSettings demoConfig demoValid).eeprom ∧
    Reaches demoValid [Event.writeBlock
        (demoConfig.offset_chambers + demoConfig.offsetof_ChamberBlock_cc)
        demoValid.tempControl.cc,
      Event.writeBlock
        (demoConfig.offset_chambers + demoConfig.offsetof_ChamberBlock_beer +
          demoConfig.offsetof_BeerBlock_cs)
        demoValid.tempControl.cs] (storeTempConstantsAndSettings demoConfig demoValid) ∧
    Reaches demoValid [Event.writeBlock
        (demoConfig.offset_chambers + demoConfig.offsetof_ChamberBlock_beer +
          demoConfig.offsetof_BeerBlock_cs)
        demoValid.tempControl.cs] (storeTempSettings demoConfig demoValid) ∧
    (EepromAccess.readBlock (storeTempSettings demoConfig demoValid)
      (demoConfig.offset_chambers + demoConfig.offsetof_ChamberBlock_cc)
      demoConfig.sizeof_ControlConstants).1 =
      (EepromAccess.readBlock demoValid
        (demoConfig.offset_chambers + demoConfig.offsetof_ChamberBlock_cc)
        demoConfig.sizeof_ControlConstants).1 ∧
    ∃ m3, applySettings demoConfig demoCollaborators 7
        { (storeTempConstantsAndSettings demoConfig demoValid) with
          tempControl := { cc := [0, 0, 0], cs := [0, 0] } } [9, 9, 9, 9, 9, 9] =
          some (true, m3) ∧
      m3.tempControl = demoValid.tempControl :=
  ⟨by decide, by decide, by decide, by decide, by decide, by decide, by decide, by decide,
   by decide, rfl,
   settings_roundtrip demoConfig demoCollaborators 7 demoValid
     { (storeTempConstantsAndSettings demoConfig demoValid) with
       tempControl := { cc := [0, 0, 0], cs := [0, 0] } } [9, 9, 9, 9, 9, 9]
     (by decide) (by decide) (by decide) (by decide) (by decide) (by decide) (by decide)
     (by decide) (by decide) rfl⟩

/-- C18 (device scan): in a well-formed layout with `MAX_DEVICES <= 255` and
`sizeof(DeviceConfig) <= 255`, on a store with settings and outside simulation mode,
the loop of `applySettings` terminates: `applySettings` returns true, and its events
are the version check, the load phase, then for `MAX_DEVICES` slots in ascending order
one pass each (fetch, `isDeviceValid`, then either `installDevice` or the erasure of
the slot, never both), then the check that ends the loop.  The slots `isDeviceValid`
was called for are exactly `0, 1, ..., MAX_DEVICES-1`, each once, in this order. -/
theorem applySettings_scans_every_slot (L : Config) (C : Collaborators D) (fuel : Nat)
    (m : Machine D) (cfg : List Nat) (hL : L.WellFormed) (hsz : L.sizeof_DeviceConfig ≤ 255)
    (hmax : L.MAX_DEVICES ≤ 255) (hsim : L.BREWPI_SIMULATE = false)
    (hs : (hasSettings L m).1 = true) (hfuel : L.MAX_DEVICES < fuel) :
    ∃ m1 passes, applySettings L C fuel m cfg = some (true, m1) ∧
      passes.length = L.MAX_DEVICES ∧
      applySettings_events L C fuel m cfg =
        Event.readByte L.offset_version :: (loadEvents L ++ scanEvents L 0 passes) ∧
      (applySettings_events L C fuel m cfg).filterMap Event.validatedSlot =
        List.range L.MAX_DEVICES := by
  obtain ⟨m1, passes, happ, hlen, hr, _⟩ :=
    reaches_applySettings L C fuel m cfg hL hsz hmax hsim hs hfuel
  have hev := applySettings_events_eq L C fuel m m1 cfg true _ happ hr
  refine ⟨m1, passes, happ, hlen, hev, ?_⟩
  have hload : (loadEvents L).filterMap Event.validatedSlot = [] := by
    rw [List.filterMap_eq_nil_iff]
    intro e he
    exact (loadEvents_plain L e he).2
  rw [hev, List.filterMap_cons, List.filterMap_append, hload, scanEvents_validated, hlen,
    List.range_eq_range']
  rfl

/-- Concrete instance on a small build: six slots, the record in slot 2 is rejected. -/
theorem applySettings_scans_every_slot_witness :
    demoConfig.WellFormed ∧ demoConfig.sizeof_DeviceConfig ≤ 255 ∧
    demoConfig.MAX_DEVICES ≤ 255 ∧ demoConfig.BREWPI_SIMULATE = false ∧
    (hasSettings demoConfig demoValid).1 = true ∧ demoConfig.MAX_DEVICES < 7 ∧
    ∃ m1 passes, applySettings demoConfig demoCollaborators 7 demoValid [9, 9, 9, 9, 9, 9] =
        some (true, m1) ∧
      passes.length = demoConfig.MAX_DEVICES ∧
      applySettings_events demoConfig demoCollaborators 7 demoValid [9, 9, 9, 9, 9, 9] =
        Event.readByte demoConfig.offset_version ::
          (loadEvents demoConfig ++ scanEvents demoConfig 0 passes) ∧
      (applySettings_events demoConfig demoCollaborators 7 demoValid
        [9, 9, 9, 9, 9, 9]).filterMap Event.validatedSlot =
        List.range demoConfig.MAX_DEVICES :=
  ⟨by decide, by decide, by decide, by decide, by decide, by decide,
   applySettings_scans_every_slot demoConfig demoCollaborators 7 demoValid [9, 9, 9, 9, 9, 9]
     (by decide) (by decide) (by decide) (by decide) (by decide) (by decide)⟩

/-- C19 (frame of `applySettings`): in a well-formed layout with `MAX_DEVICES <= 255` and
`sizeof(DeviceConfig) <= 255`, on a store with settings, `applySettings` returns true
and every byte it changed lies in a device slot whose record `isDeviceValid` rejected
during the call; the version byte, every byte of every chamber block and the record of
every slot that was accepted are as before, whatever `isDeviceValid` did to the
in-memory record. -/
theorem applySettings_frame (L : Config) (C : Collaborators D) (fuel : Nat)
    (m : Machine D) (cfg : List Nat) (hL : L.WellFormed) (hsz : L.sizeof_DeviceConfig ≤ 255)
    (hmax : L.MAX_DEVICES ≤ 255) (hs : (hasSettings L m).1 = true)
    (hfuel : L.MAX_DEVICES < fuel) :
    ∃ m1, applySettings L C fuel m cfg = some (true, m1) ∧
      (∀ a, m1.eeprom a ≠ m.eeprom a →
        ∃ i r, i < L.MAX_DEVICES ∧
          Event.isDeviceValid i r false ∈ applySettings_events L C fuel m cfg ∧
          L.offset_devices + L.sizeof_DeviceConfig * i ≤ a ∧
          a < L.offset_devices + L.sizeof_DeviceConfig * i + L.sizeof_DeviceConfig) ∧
      m1.eeprom 0 = m.eeprom 0 ∧
      (∀ c k, c < L.MAX_CHAMBERS → k < L.sizeof_ChamberBlock →
        m1.eeprom (L.offset_chambers + c * L.sizeof_ChamberBlock + k) =
          m.eeprom (L.offset_chambers + c * L.sizeof_ChamberBlock + k)) ∧
      (∀ i r, Event.isDeviceValid i r true ∈ applySettings_events L C fuel m cfg →
        storedDevice L m1 i = storedDevice L m i) := by
  obtain ⟨m1, scan, happ, hev, _, _, hframe, huniq, hlt, _, _⟩ :=
    applySettings_with_settings L C fuel m cfg hL hsz hmax hs hfuel
  have hdev := offset_devices_pos L hL
  have hv := hL.1
  have hmem : ∀ i r b, Event.isDeviceValid i r b ∈ applySettings_events L C fuel m cfg ↔
      Event.isDeviceValid i r b ∈ scan := by
    intro i r b
    rw [hev]
    constructor
    · intro h
      rcases List.mem_cons.mp h with h | h
      · cases h
      · rcases List.mem_append.mp h with h | h
        · have := (loadEvents_plain L _ h).2
          simp [Event.validatedSlot] at this
        · exact h
    · intro h
      exact List.mem_cons_of_mem _ (List.mem_append_right _ h)
  have hbelow : ∀ a, a < L.offset_devices → m1.eeprom a = m.eeprom a := by
    intro a ha
    exact hframe a (fun i r _ => Or.inl (by omega))
  refine ⟨m1, happ, ?_, hbelow 0 (by omega), ?_, ?_⟩
  · intro a hne
    by_contra hcon
    apply hne
    apply hframe
    intro i r hin
    by_contra hout
    exact hcon ⟨i, r, hlt i r false hin, (hmem i r false).mpr hin, by omega, by omega⟩
  · intro c k hc hk
    obtain ⟨hblk, _⟩ := chamber_block_bound L hL c hc
    exact hbelow _ (by omega)
  · intro i r hin
    have hin2 := (hmem i r true).mp hin
    unfold storedDevice
    apply List.map_congr_left
    intro k hk
    have hk1 : k < L.sizeof_DeviceConfig := List.mem_range.mp hk
    apply hframe
    intro j r1 hj
    have hne : i ≠ j := by
      intro hij
      subst hij
      exact huniq i r r1 hin2 hj
    have := slot_disjoint L.sizeof_DeviceConfig i j k hk1 hne
    omega

/-- Concrete instance on a small build: six slots, the record in slot 2 is rejected. -/
theorem applySettings_frame_witness :
    demoConfig.WellFormed ∧ demoConfig.sizeof_DeviceConfig ≤ 255 ∧
    demoConfig.MAX_DEVICES ≤ 255 ∧ (hasSettings demoConfig demoValid).1 = true ∧
    demoConfig.MAX_DEVICES < 7 ∧
    ∃ m1, applySettings demoConfig demoCollaborators 7 demoValid [9, 9, 9, 9, 9, 9] =
        some (true, m1) ∧
      (∀ a, m1.eeprom a ≠ demoValid.eeprom a →
        ∃ i r, i < demoConfig.MAX_DEVICES ∧
          Event.isDeviceValid i r false ∈
            applySettings_events demoConfig demoCollaborators 7 demoValid [9, 9, 9, 9, 9, 9] ∧
          demoConfig.offset_devices + demoConfig.sizeof_DeviceConfig * i ≤ a ∧
          a < demoConfig.offset_devices + demoConfig.sizeof_DeviceConfig * i +
            demoConfig.sizeof_DeviceConfig) ∧
      m1.eeprom 0 = demoValid.eeprom 0 ∧
      (∀ c k, c < demoConfig.MAX_CHAMBERS → k < demoConfig.sizeof_ChamberBlock →
        m1.eeprom (demoConfig.offset_chambers + c * demoConfig.sizeof_ChamberBlock + k) =
          demoValid.eeprom (demoConfig.offset_chambers + c * demoConfig.sizeof_ChamberBlock + k)) ∧
      (∀ i r, Event.isDeviceValid i r true ∈
          applySettings_events demoConfig demoCollaborators 7 demoValid [9, 9, 9, 9, 9, 9] →
        storedDevice demoConfig m1 i = storedDevice demoConfig demoValid i) :=
  ⟨by decide, by decide, by decide, by decide, by decide,
   applySettings_frame demoConfig demoCollaborators 7 demoValid [9, 9, 9, 9, 9, 9]
     (by decide) (by decide) (by decide) (by decide) (by decide)⟩

/-- C20 (in-range access): in a well-formed layout (in particular the whole layout fits
in `MAX_EEPROM_SIZE <= 65535`) with a chamber 0 and a beer 0, every byte or block access
made by `hasSettings`, `zapEeprom`, `initializeEeprom`, `applySettings`,
`storeTempConstantsAndSettings`, `storeTempSettings`, and by `fetchDevice` and
`storeDevice` for any index, satisfies `offset + length <= MAX_EEPROM_SIZE`; and the
16-bit offset expressions of the device slots, the chamber blocks and the beer blocks
do not wrap. -/
theorem accesses_in_range (L : Config) (C : Collaborators D) (fuel : Nat)
    (m : Machine D) (r : List Nat) (i : Nat) (cfg : List Nat) (hL : L.WellFormed)
    (hch : L.MAX_CHAMBERS ≤ 255) (hb : L.MAX_BEERS ≤ 255) (hmax : L.MAX_DEVICES ≤ 255)
    (hsz : L.sizeof_DeviceConfig ≤ 255) (hver : L.EEPROM_FORMAT_VERSION < 256)
    (hcfg : cfg.length = L.sizeof_DeviceConfig) (hc0 : 0 < L.MAX_CHAMBERS)
    (hb0 : 0 < L.MAX_BEERS) (hfuel : 65536 ≤ fuel) :
    (∀ e, e ∈ newEvents m (hasSettings L m).2 → Event.inRange L.MAX_EEPROM_SIZE e) ∧
    (∃ m1, zapEeprom L fuel m = some m1 ∧
      ∀ e, e ∈ newEvents m m1 → Event.inRange L.MAX_EEPROM_SIZE e) ∧
    (∃ m1, initializeEeprom L C fuel m cfg = some m1 ∧
      newEvents m m1 = initializeEvents L C ∧
      ∀ e, e ∈ newEvents m m1 → Event.inRange L.MAX_EEPROM_SIZE e) ∧
    (∃ b m1, applySettings L C fuel m cfg = some (b, m1) ∧
      ∀ e, e ∈ newEvents m m1 → Event.inRange L.MAX_EEPROM_SIZE e) ∧
    (∀ e, e ∈ newEvents m (storeTempConstantsAndSettings L m) →
      Event.inRange L.MAX_EEPROM_SIZE e) ∧
    (∀ e, e ∈ newEvents m (storeTempSettings L m) → Event.inRange L.MAX_EEPROM_SIZE e) ∧
    (∀ e, e ∈ newEvents m (fetchDevice L m r i).2.2 → Event.inRange L.MAX_EEPROM_SIZE e) ∧
    (∀ e, e ∈ newEvents m (storeDevice L m r i).2 → Event.inRange L.MAX_EEPROM_SIZE e) ∧
    (∀ j, j < L.MAX_DEVICES →
      (L.offset_devices + L.sizeof_DeviceConfig * j) % 65536 =
        L.offset_devices + L.sizeof_DeviceConfig * j ∧
      L.offset_devices + L.sizeof_DeviceConfig * j + L.sizeof_DeviceConfig ≤
        L.MAX_EEPROM_SIZE) ∧
    (∀ c b, c < L.MAX_CHAMBERS → b < L.MAX_BEERS →
      L.offset_chambers + c * L.sizeof_ChamberBlock + L.offsetof_ChamberBlock_cc +
        L.sizeof_ControlConstants ≤ L.MAX_EEPROM_SIZE ∧
      L.offset_chambers + c * L.sizeof_ChamberBlock + L.offsetof_ChamberBlock_beer +
        L.offsetof_BeerBlock_cs + b * L.sizeof_BeerBlock + L.sizeof_ControlSettings ≤
        L.MAX_EEPROM_SIZE) ∧
    L.MAX_EEPROM_SIZE ≤ 65535 := by
  have hdev := offset_devices_pos L hL
  have hv := hL.1
  have hfit := hL.2.2.2.1
  have hsize : L.MAX_EEPROM_SIZE ≤ 65535 := hL.2.2.2.2.1
  obtain ⟨_, _, o3, o4, o5, o6, _⟩ := chamber0_offsets L hL hc0 hb0
  refine ⟨?_, ?_, ?_, ?_, ?_, ?_, ?_, ?_, ?_, ?_, hsize⟩
  · rw [newEvents_of_reaches m _ _ (reaches_hasSettings L m)]
    intro e he
    rw [List.mem_singleton] at he
    subst he
    simp only [Event.inRange]
    omega
  · obtain ⟨m1, h1, hr, _⟩ := reaches_fill_loop L 0xFF fuel m (by decide) hsize (by omega)
    refine ⟨m1, h1, ?_⟩
    rw [newEvents_of_reaches m _ _ hr]
    intro e he
    exact inRange_of_within _ _ _ e (Nat.le_refl _) (fillEvents_within _ _ e he)
  · obtain ⟨m1, h1, hr⟩ :=
      reaches_initializeEeprom L C fuel m cfg hL hch hb hver hsz hcfg hfuel
    refine ⟨m1, h1, newEvents_of_reaches m _ _ hr, ?_⟩
    rw [newEvents_of_reaches m _ _ hr]
    intro e he
    exact inRange_of_within _ _ _ e (Nat.le_refl _) (initializeEvents_within L C hL e he)
  · obtain ⟨b, m1, happ, _, hw⟩ :=
      applySettings_returns L C fuel m cfg hL hsz hmax hc0 hb0 (by omega)
    exact ⟨b, m1, happ, fun e he => inRange_of_within _ _ _ e (Nat.le_refl _) (hw e he)⟩
  · rw [newEvents_of_reaches m _ _ (reaches_storeTempConstantsAndSettings L hL m hc0 hb0)]
    intro e he
    simp only [List.mem_cons, List.mem_singleton, List.not_mem_nil, or_false] at he
    rcases he with rfl | rfl <;> simp only [Event.inRange, blockImage_length] <;> omega
  · rw [newEvents_of_reaches m _ _ (reaches_storeTempSettings L hL m hc0 hb0)]
    intro e he
    rw [List.mem_singleton] at he
    subst he
    simp only [Event.inRange, blockImage_length]
    omega
  · intro e he
    exact inRange_of_within _ _ _ e hfit (fetchDevice_within L hL m r i e he)
  · intro e he
    exact inRange_of_within _ _ _ e hfit (storeDevice_within L hL m r i e he)
  · intro j hj
    exact ⟨device_offset_mod L hL j hj, device_slot_bound L hL j hj⟩
  · intro c b hc hbl
    obtain ⟨hblk, _⟩ := chamber_block_bound L hL c hc
    obtain ⟨_, _, _, _, _, h6, h7, h8⟩ := hL
    have hmulb : b * L.sizeof_BeerBlock + L.sizeof_BeerBlock ≤
        L.MAX_BEERS * L.sizeof_BeerBlock := by
      have := Nat.mul_le_mul_right L.sizeof_BeerBlock (Nat.succ_le_of_lt hbl)
      rwa [Nat.succ_mul] at this
    constructor <;> omega

/-- Concrete instance on a small build, on a store with settings. -/
theorem accesses_in_range_witness :
    demoConfig.WellFormed ∧ demoConfig.MAX_CHAMBERS ≤ 255 ∧ demoConfig.MAX_BEERS ≤ 255 ∧
    demoConfig.MAX_DEVICES ≤ 255 ∧ demoConfig.sizeof_DeviceConfig ≤ 255 ∧
    demoConfig.EEPROM_FORMAT_VERSION < 256 ∧
    [9, 9, 9, 9, 9, 9].length = demoConfig.sizeof_DeviceConfig ∧
    0 < demoConfig.MAX_CHAMBERS ∧ 0 < demoConfig.MAX_BEERS ∧ 65536 ≤ 65536 ∧
    (∀ e, e ∈ newEvents demoValid (hasSettings demoConfig demoValid).2 →
      Event.inRange demoConfig.MAX_EEPROM_SIZE e) ∧
    (∃ m1, zapEeprom demoConfig 65536 demoValid = some m1 ∧
      ∀ e, e ∈ newEvents demoValid m1 → Event.inRange demoConfig.MAX_EEPROM_SIZE e) ∧
    (∃ m1, initializeEeprom demoConfig demoCollaborators 65536 demoValid [9, 9, 9, 9, 9, 9] =
        some m1 ∧
      newEvents demoValid m1 = initializeEvents demoConfig demoCollaborators ∧
      ∀ e, e ∈ newEvents demoValid m1 → Event.inRange demoConfig.MAX_EEPROM_SIZE e) ∧
    (∃ b m1, applySettings demoConfig demoCollaborators 65536 demoValid [9, 9, 9, 9, 9, 9] =
        some (b, m1) ∧
      ∀ e, e ∈ newEvents demoValid m1 → Event.inRange demoConfig.MAX_EEPROM_SIZE e) ∧
    (∀ e, e ∈ newEvents demoValid (storeTempConstantsAndSettings demoConfig demoValid) →
      Event.inRange demoConfig.MAX_EEPROM_SIZE e) ∧
    (∀ e, e ∈ newEvents demoValid (storeTempSettings demoConfig demoValid) →
      Event.inRange demoConfig.MAX_EEPROM_SIZE e) ∧
    (∀ e, e ∈ newEvents demoValid (fetchDevice demoConfig demoValid [1, 2, 3, 4, 5, 6] 200).2.2 →
      Event.inRange demoConfig.MAX_EEPROM_SIZE e) ∧
    (∀ e, e ∈ newEvents demoValid (storeDevice demoConfig demoValid [1, 2, 3, 4, 5, 6] 200).2 →
      Event.inRange demoConfig.MAX_EEPROM_SIZE e) ∧
    (∀ j, j < demoConfig.MAX_DEVICES →
      (demoConfig.offset_devices + demoConfig.sizeof_DeviceConfig * j) % 65536 =
        demoConfig.offset_devices + demoConfig.sizeof_DeviceConfig * j ∧
      demoConfig.offset_devices + demoConfig.sizeof_DeviceConfig * j +
        demoConfig.sizeof_DeviceConfig ≤ demoConfig.MAX_EEPROM_SIZE) ∧
    (∀ c b, c < demoConfig.MAX_CHAMBERS → b < demoConfig.MAX_BEERS →
      demoConfig.offset_chambers + c * demoConfig.sizeof_ChamberBlock +
        demoConfig.offsetof_ChamberBlock_cc + demoConfig.sizeof_ControlConstants ≤
        demoConfig.MAX_EEPROM_SIZE ∧
      demoConfig.offset_chambers + c * demoConfig.sizeof_ChamberBlock +
        demoConfig.offsetof_ChamberBlock_beer + demoConfig.offsetof_BeerBlock_cs +
        b * demoConfig.sizeof_BeerBlock + demoConfig.sizeof_ControlSettings ≤
        demoConfig.MAX_EEPROM_SIZE) ∧
    demoConfig.MAX_EEPROM_SIZE ≤ 65535 :=
  ⟨by decide, by decide, by decide, by decide, by decide, by decide, by decide, by decide,
   by decide, by decide,
   accesses_in_range demoConfig demoCollaborators 65536 demoValid [1, 2, 3, 4, 5, 6] 200
     [9, 9, 9, 9, 9, 9] (by decide) (by decide) (by decide) (by decide) (by decide)
     (by decide) (by decide) (by decide) (by decide) (by decide)⟩

end BrewPi
